import Mathlib

/-!
# RBDL utilities (`rbdl_utils.cc`, `addons/Utils.h`): a shallow embedding

Conventions of the embedding.

* Scalars. The source computes with `double`. Here a scalar is an element of an
  arbitrary type `K` that carries the operations the code uses (`0`, `1`, `+`,
  `-`, unary `-`, `*`, `/`, `==`). Theorems that need algebraic laws state the
  structure they assume on `K` (a field, or a commutative ring with an arbitrary
  division); rounding is not modelled.
* Vectors (`std::vector`, `Eigen::VectorXd`) are lists; the subscript of the
  source does not check its index, the embedding of `rbdl_utils.cc` does and ends
  the call with `Fault.indexOutOfRange` where the source would leave the vector.
  In the packers of `addons/Utils.h` the size test comes first and makes every
  slot written exist; they write with `List.set`.
* Recursion that the source does not bound takes a `fuel` argument; a result is
  stated for every fuel above an explicit bound.
* Reference and pointer outputs are returned in a result record.
-/

namespace RigidBodyDynamics

/-- Ways a call ends without a result. -/
inductive Fault where
  /-- A subscript outside its vector (undefined behaviour in the source). -/
  | indexOutOfRange
  /-- The step budget of the embedding is used up (the source is still running). -/
  | outOfFuel
  /-- The source executed `throw std::runtime_error (what)`. -/
  | runtimeError (what : String)
  /-- The source executed `abort ()` after writing `cerr` to the error stream. -/
  | abort (cerr : String)
  /-- An `assert (what)` of the source does not hold (a build with assertions). -/
  | assertion (what : String)
  deriving DecidableEq, Repr

/-- Unchecked subscript read `xs[i]`, with the range made explicit. -/
def idx {α : Type} (xs : List α) (i : Nat) : Except Fault α :=
  match xs[i]? with
  | some a => .ok a
  | none => .error .indexOutOfRange

/-- Unchecked subscript write `xs[i] = a`, with the range made explicit. -/
def upd {α : Type} (xs : List α) (i : Nat) (a : α) : Except Fault (List α) :=
  if i < xs.length then .ok (xs.set i a) else .error .indexOutOfRange

/-- Loop `for (i = lo; i < lo + n; i++) body`, the body run in the error monad. -/
def forUp {σ : Type} (body : Nat → σ → Except Fault σ) : Nat → Nat → σ → Except Fault σ
  | 0, _, s => .ok s
  | n + 1, i, s =>
    match body i s with
    | .ok t => forUp body n (i + 1) t
    | .error e => .error e

/-- Loop `for (i = start; i > 0; i--) body`, the body run in the error monad. -/
def forDown {σ : Type} (body : Nat → σ → Except Fault σ) : Nat → σ → Except Fault σ
  | 0, s => .ok s
  | i + 1, s =>
    match body (i + 1) s with
    | .ok t => forDown body i t
    | .error e => .error e

/-- Value of `size () - 1` in `size_t` arithmetic (64 bit): it wraps for an empty vector. -/
def sizeMinusOne (size : Nat) : Nat :=
  if size = 0 then 2 ^ 64 - 1 else size - 1

namespace Math

variable {K : Type} [Zero K] [One K] [Add K] [Sub K] [Neg K] [Mul K] [Div K]

/-- Modelled from the spec: `Math::Vector3d` (rbdl_math.h is not among the sources),
a vector of three scalars. -/
@[ext]
structure Vector3d (K : Type) where
  x : K
  y : K
  z : K
  deriving DecidableEq, Repr

/-- Modelled from the spec: `Math::Matrix3d` (rbdl_math.h is not among the sources),
a 3x3 matrix, entry `mij` at row `i`, column `j`. -/
@[ext]
structure Matrix3d (K : Type) where
  m00 : K
  m01 : K
  m02 : K
  m10 : K
  m11 : K
  m12 : K
  m20 : K
  m21 : K
  m22 : K
  deriving DecidableEq, Repr

/-- Modelled from the spec: `Math::SpatialVectord` (rbdl_math.h is not among the
sources), a six-dimensional spatial vector: angular part `v0 v1 v2`, linear part
`v3 v4 v5`. -/
@[ext]
structure SpatialVectord (K : Type) where
  v0 : K
  v1 : K
  v2 : K
  v3 : K
  v4 : K
  v5 : K
  deriving DecidableEq, Repr

/-- Modelled from the spec: `Math::SpatialMatrixd` (rbdl_math.h is not among the
sources), a 6x6 matrix kept as its four 3x3 blocks at (0,0), (0,3), (3,0), (3,3). -/
@[ext]
structure SpatialMatrixd (K : Type) where
  b00 : Matrix3d K
  b03 : Matrix3d K
  b30 : Matrix3d K
  b33 : Matrix3d K

/-- Modelled from the spec: `Math::SpatialRigidBodyInertiad` (rbdl_math.h is not
among the sources): mass `m`, first moment of mass `h` (mass times centre of mass)
and the lower triangle of the rotational inertia at the origin. -/
@[ext]
structure SpatialRigidBodyInertiad (K : Type) where
  m : K
  h : Vector3d K
  Ixx : K
  Iyx : K
  Iyy : K
  Izx : K
  Izy : K
  Izz : K
  deriving DecidableEq, Repr

/-- Modelled from the spec: `Math::SpatialTransformd` (rbdl_math.h is not among the
sources): rotation `E` and translation `r` of the coordinate change between two
body frames. -/
@[ext]
structure SpatialTransformd (K : Type) where
  E : Matrix3d K
  r : Vector3d K
  deriving DecidableEq, Repr

/-- The vector `Vector3d (0., 0., 0.)`. -/
def Vector3d.zero : Vector3d K := ⟨0, 0, 0⟩

/-- Componentwise sum of two vectors. -/
def Vector3d.add (a b : Vector3d K) : Vector3d K := ⟨a.x + b.x, a.y + b.y, a.z + b.z⟩

/-- Componentwise difference of two vectors. -/
def Vector3d.sub (a b : Vector3d K) : Vector3d K := ⟨a.x - b.x, a.y - b.y, a.z - b.z⟩

/-- Product `s * v` of a scalar and a vector. -/
def Vector3d.smul (s : K) (v : Vector3d K) : Vector3d K := ⟨s * v.x, s * v.y, s * v.z⟩

/-- Quotient `v / s` of a vector by a scalar, componentwise. -/
def Vector3d.div (v : Vector3d K) (s : K) : Vector3d K := ⟨v.x / s, v.y / s, v.z / s⟩

/-- Cross product `a.cross (b)`. -/
def Vector3d.cross (a b : Vector3d K) : Vector3d K :=
  ⟨a.y * b.z - a.z * b.y, a.z * b.x - a.x * b.z, a.x * b.y - a.y * b.x⟩

/-- Dot product `a.dot (b)`. -/
def Vector3d.dot (a b : Vector3d K) : K := a.x * b.x + a.y * b.y + a.z * b.z

/-- The matrix `Matrix3d::Zero (3,3)`. -/
def Matrix3d.zero : Matrix3d K := ⟨0, 0, 0, 0, 0, 0, 0, 0, 0⟩

/-- The matrix `Matrix3d::Identity (3,3)`. -/
def Matrix3d.Identity : Matrix3d K := ⟨1, 0, 0, 0, 1, 0, 0, 0, 1⟩

/-- Transposed matrix. -/
def Matrix3d.transpose (a : Matrix3d K) : Matrix3d K :=
  ⟨a.m00, a.m10, a.m20, a.m01, a.m11, a.m21, a.m02, a.m12, a.m22⟩

/-- Entrywise negation of a matrix. -/
def Matrix3d.neg (a : Matrix3d K) : Matrix3d K :=
  ⟨-a.m00, -a.m01, -a.m02, -a.m10, -a.m11, -a.m12, -a.m20, -a.m21, -a.m22⟩

/-- Entrywise difference of two matrices. -/
def Matrix3d.sub (a b : Matrix3d K) : Matrix3d K :=
  ⟨a.m00 - b.m00, a.m01 - b.m01, a.m02 - b.m02,
   a.m10 - b.m10, a.m11 - b.m11, a.m12 - b.m12,
   a.m20 - b.m20, a.m21 - b.m21, a.m22 - b.m22⟩

/-- Product of a matrix with a scalar, entrywise. -/
def Matrix3d.scale (a : Matrix3d K) (s : K) : Matrix3d K :=
  ⟨a.m00 * s, a.m01 * s, a.m02 * s,
   a.m10 * s, a.m11 * s, a.m12 * s,
   a.m20 * s, a.m21 * s, a.m22 * s⟩

/-- Matrix product. -/
def Matrix3d.mul (a b : Matrix3d K) : Matrix3d K :=
  ⟨a.m00 * b.m00 + a.m01 * b.m10 + a.m02 * b.m20,
   a.m00 * b.m01 + a.m01 * b.m11 + a.m02 * b.m21,
   a.m00 * b.m02 + a.m01 * b.m12 + a.m02 * b.m22,
   a.m10 * b.m00 + a.m11 * b.m10 + a.m12 * b.m20,
   a.m10 * b.m01 + a.m11 * b.m11 + a.m12 * b.m21,
   a.m10 * b.m02 + a.m11 * b.m12 + a.m12 * b.m22,
   a.m20 * b.m00 + a.m21 * b.m10 + a.m22 * b.m20,
   a.m20 * b.m01 + a.m21 * b.m11 + a.m22 * b.m21,
   a.m20 * b.m02 + a.m21 * b.m12 + a.m22 * b.m22⟩

/-- Product of a matrix with a vector. -/
def Matrix3d.mulVec (a : Matrix3d K) (v : Vector3d K) : Vector3d K :=
  ⟨a.m00 * v.x + a.m01 * v.y + a.m02 * v.z,
   a.m10 * v.x + a.m11 * v.y + a.m12 * v.z,
   a.m20 * v.x + a.m21 * v.y + a.m22 * v.z⟩

/-- Modelled from the spec: `VectorCrossMatrix` (rbdl_math.h is not among the
sources), the matrix of the cross product with a vector. -/
def VectorCrossMatrix (v : Vector3d K) : Matrix3d K :=
  ⟨0, -v.z, v.y,
   v.z, 0, -v.x,
   -v.y, v.x, 0⟩

/-- The vector `SpatialVectord::Zero ()`. -/
def SpatialVectord.zero : SpatialVectord K := ⟨0, 0, 0, 0, 0, 0⟩

/-- Componentwise sum of two spatial vectors. -/
def SpatialVectord.add (a b : SpatialVectord K) : SpatialVectord K :=
  ⟨a.v0 + b.v0, a.v1 + b.v1, a.v2 + b.v2, a.v3 + b.v3, a.v4 + b.v4, a.v5 + b.v5⟩

/-- Angular part (components 0, 1, 2) of a spatial vector. -/
def SpatialVectord.upper (a : SpatialVectord K) : Vector3d K := ⟨a.v0, a.v1, a.v2⟩

/-- Linear part (components 3, 4, 5) of a spatial vector. -/
def SpatialVectord.lower (a : SpatialVectord K) : Vector3d K := ⟨a.v3, a.v4, a.v5⟩

/-- Product of a 6x6 matrix with a spatial vector, computed blockwise. -/
def SpatialMatrixd.mulVec (a : SpatialMatrixd K) (v : SpatialVectord K) : SpatialVectord K :=
  let up := (a.b00.mulVec v.upper).add (a.b03.mulVec v.lower)
  let lo := (a.b30.mulVec v.upper).add (a.b33.mulVec v.lower)
  ⟨up.x, up.y, up.z, lo.x, lo.y, lo.z⟩

/-- Componentwise negation of a vector. -/
def Vector3d.neg (a : Vector3d K) : Vector3d K := ⟨-a.x, -a.y, -a.z⟩

/-- Product `s * v` of a scalar and a spatial vector. -/
def SpatialVectord.smul (s : K) (a : SpatialVectord K) : SpatialVectord K :=
  ⟨s * a.v0, s * a.v1, s * a.v2, s * a.v3, s * a.v4, s * a.v5⟩

/-- Inner product `a.transpose () * b` of two spatial vectors. -/
def SpatialVectord.dot (a b : SpatialVectord K) : K :=
  a.v0 * b.v0 + a.v1 * b.v1 + a.v2 * b.v2 + a.v3 * b.v3 + a.v4 * b.v4 + a.v5 * b.v5

/-- Modelled from the spec: the constructor `SpatialRigidBodyInertiad (mass, com_mass,
inertia)` (rbdl_math.h is not among the sources): it keeps the mass, the first
moment and the lower triangle of the inertia matrix. -/
def SpatialRigidBodyInertiad.ofMatrix (mass : K) (com_mass : Vector3d K)
    (inertia : Matrix3d K) : SpatialRigidBodyInertiad K :=
  { m := mass, h := com_mass,
    Ixx := inertia.m00,
    Iyx := inertia.m10, Iyy := inertia.m11,
    Izx := inertia.m20, Izy := inertia.m21, Izz := inertia.m22 }

/-- The symmetric rotational inertia matrix of a spatial inertia. -/
def SpatialRigidBodyInertiad.inertiaMatrix (I : SpatialRigidBodyInertiad K) : Matrix3d K :=
  ⟨I.Ixx, I.Iyx, I.Izx,
   I.Iyx, I.Iyy, I.Izy,
   I.Izx, I.Izy, I.Izz⟩

/-- Modelled from the spec: `SpatialRigidBodyInertiad::operator+` (rbdl_math.h is not
among the sources): masses, first moments and inertia entries add. -/
def SpatialRigidBodyInertiad.add (a b : SpatialRigidBodyInertiad K) :
    SpatialRigidBodyInertiad K :=
  { m := a.m + b.m, h := a.h.add b.h,
    Ixx := a.Ixx + b.Ixx,
    Iyx := a.Iyx + b.Iyx, Iyy := a.Iyy + b.Iyy,
    Izx := a.Izx + b.Izx, Izy := a.Izy + b.Izy, Izz := a.Izz + b.Izz }

/-- Modelled from the spec: `SpatialRigidBodyInertiad::operator*` on a spatial vector
(rbdl_math.h is not among the sources), the momentum `I v` of a body of inertia `I`
that moves with the spatial velocity `v`. -/
def SpatialRigidBodyInertiad.mulVec (I : SpatialRigidBodyInertiad K)
    (mv : SpatialVectord K) : SpatialVectord K :=
  let res_upper := (I.inertiaMatrix.mulVec mv.upper).add (I.h.cross mv.lower)
  let res_lower := (Vector3d.smul I.m mv.lower).sub (I.h.cross mv.upper)
  ⟨res_upper.x, res_upper.y, res_upper.z, res_lower.x, res_lower.y, res_lower.z⟩

/-- Modelled from the spec: `SpatialRigidBodyInertiad::toMatrix` (rbdl_math.h is not
among the sources): the 6x6 matrix with blocks `I`, `h x`, `- h x` and `m 1`. -/
def SpatialRigidBodyInertiad.toMatrix (I : SpatialRigidBodyInertiad K) : SpatialMatrixd K :=
  { b00 := I.inertiaMatrix,
    b03 := VectorCrossMatrix I.h,
    b30 := (VectorCrossMatrix I.h).neg,
    b33 := Matrix3d.Identity.scale I.m }

/-- Modelled from the spec: `SpatialTransformd::applyTranspose` on a spatial inertia
(rbdl_math.h is not among the sources), the inertia `X^T I X` seen from the parent
frame: the mass is kept, the first moment becomes `E^T h + m r`. -/
def SpatialTransformd.applyTranspose (X : SpatialTransformd K)
    (rbi : SpatialRigidBodyInertiad K) : SpatialRigidBodyInertiad K :=
  let E_T_mr := (X.E.transpose.mulVec rbi.h).add (Vector3d.smul rbi.m X.r)
  SpatialRigidBodyInertiad.ofMatrix rbi.m E_T_mr
    (((X.E.transpose.mul rbi.inertiaMatrix).mul X.E
        |>.sub ((VectorCrossMatrix X.r).mul (VectorCrossMatrix (X.E.transpose.mulVec rbi.h))))
        |>.sub ((VectorCrossMatrix E_T_mr).mul (VectorCrossMatrix X.r)))

/-- Modelled from the spec: `SpatialTransformd::applyTranspose` on a spatial vector
(rbdl_math.h is not among the sources), the force vector `X^T f`. -/
def SpatialTransformd.applyTransposeVec (X : SpatialTransformd K)
    (f_sp : SpatialVectord K) : SpatialVectord K :=
  let E_T_f := X.E.transpose.mulVec f_sp.lower
  ⟨X.E.m00 * f_sp.v0 + X.E.m10 * f_sp.v1 + X.E.m20 * f_sp.v2 - X.r.z * E_T_f.y + X.r.y * E_T_f.z,
   X.E.m01 * f_sp.v0 + X.E.m11 * f_sp.v1 + X.E.m21 * f_sp.v2 + X.r.z * E_T_f.x - X.r.x * E_T_f.z,
   X.E.m02 * f_sp.v0 + X.E.m12 * f_sp.v1 + X.E.m22 * f_sp.v2 - X.r.y * E_T_f.x + X.r.x * E_T_f.y,
   E_T_f.x, E_T_f.y, E_T_f.z⟩

/-- Modelled from the spec: `SpatialTransformd::applyAdjoint` (rbdl_math.h is not
among the sources), the force vector moved into the frame of the transform. -/
def SpatialTransformd.applyAdjoint (X : SpatialTransformd K)
    (f_sp : SpatialVectord K) : SpatialVectord K :=
  let En_rxf := X.E.mulVec (f_sp.upper.sub (X.r.cross f_sp.lower))
  let lo := X.E.mulVec f_sp.lower
  ⟨En_rxf.x, En_rxf.y, En_rxf.z, lo.x, lo.y, lo.z⟩

/-- Modelled from the spec: `Xtrans` (rbdl_math.h is not among the sources), the
translate-only spatial transform. -/
def Xtrans (r : Vector3d K) : SpatialTransformd K := ⟨Matrix3d.Identity, r⟩

end Math

open Math

variable {K : Type} [Zero K] [One K] [Add K] [Sub K] [Neg K] [Mul K] [Div K]

/-- Modelled from the spec: `Body` (Model.h is not among the sources); of a body the
utilities read only whether it is virtual (a massless intermediate body). -/
structure Body where
  mIsVirtual : Bool
  deriving DecidableEq, Repr

/-- Modelled from the spec: `Joint` (Model.h is not among the sources): the number of
degrees of freedom and one spatial axis for each of them. -/
structure Joint (K : Type) where
  mDoFCount : Nat
  mJointAxes : List (SpatialVectord K)

/-- Modelled from the spec: `FixedBody` (Model.h is not among the sources); of a fixed
body the utilities read only the id of the movable body it is attached to. -/
structure FixedBody where
  mMovableParent : Nat
  deriving DecidableEq, Repr

/-- Modelled from the spec: `Model` (Model.h is not among the sources), the kinematic
tree: parent ids `lambda`, children lists `mu`, the body, joint and fixed-body tables,
the name lookup `GetBodyName`, the gravity vector and the vector dimensions. -/
structure Model (K : Type) where
  lambda : List Nat
  mu : List (List Nat)
  mBodies : List Body
  mJoints : List (Joint K)
  mFixedBodies : List FixedBody
  fixed_body_discriminator : Nat
  GetBodyName : Nat → String
  gravity : Vector3d K
  dof_count : Nat
  q_size : Nat
  qdot_size : Nat

/-- Modelled from the spec: `ModelDatad` (Model.h is not among the sources), the
per-body data: inertias `I`, composite inertias `Ic`, composite momenta `hc`,
velocities `v`, transforms from the parent `X_lambda` and joint axes `S`. -/
structure ModelDatad (K : Type) where
  I : List (SpatialRigidBodyInertiad K)
  Ic : List (SpatialRigidBodyInertiad K)
  hc : List (SpatialVectord K)
  v : List (SpatialVectord K)
  X_lambda : List (SpatialTransformd K)
  S : List (SpatialVectord K)

namespace Utils

/-- Stream output of `text` with the field width set to `width` (right-adjusted, filled
with blanks): blanks up to `width` characters, then the text. -/
def setw (width : Nat) (text : String) : String :=
  String.mk (List.replicate (width - text.length) ' ') ++ text

/-- Modelled from the spec: stream output of a transposed spatial vector (`operator<<`
of the matrix library, not among the sources): the six components in order, separated
by single blanks. The library aligns the columns of what it prints: it first takes the
width of the widest of the six texts, then writes every component with that field
width. The text of a single number is given by `render`. -/
def streamRow (render : K → String) (a : SpatialVectord K) : String :=
  let width := [a.v0, a.v1, a.v2, a.v3, a.v4, a.v5].foldl
    (fun width x => max width (render x).length) 0
  setw width (render a.v0) ++ " " ++ setw width (render a.v1) ++ " " ++
    setw width (render a.v2) ++ " " ++ setw width (render a.v3) ++ " " ++
    setw width (render a.v4) ++ " " ++ setw width (render a.v5)

/-- The function `get_dof_name` of rbdl_utils.cc. -/
def get_dof_name [DecidableEq K] (render : K → String) (joint_dof : SpatialVectord K) : String :=
  if joint_dof = ⟨1, 0, 0, 0, 0, 0⟩ then "RX"
  else if joint_dof = ⟨0, 1, 0, 0, 0, 0⟩ then "RY"
  else if joint_dof = ⟨0, 0, 1, 0, 0, 0⟩ then "RZ"
  else if joint_dof = ⟨0, 0, 0, 1, 0, 0⟩ then "TX"
  else if joint_dof = ⟨0, 0, 0, 0, 1, 0⟩ then "TY"
  else if joint_dof = ⟨0, 0, 0, 0, 0, 1⟩ then "TZ"
  else "custom (" ++ streamRow render joint_dof ++ ")"

/-- The function `get_body_name` of rbdl_utils.cc; `fuel` bounds the depth of the
recursion. -/
def get_body_name (model : Model K) : (fuel : Nat) → (body_id : Nat) → Except Fault String
  | 0, _ => .error .outOfFuel
  | fuel + 1, body_id => do
    let body ← idx model.mBodies body_id
    if body.mIsVirtual then
      let children ← idx model.mu body_id
      -- if there is not a unique child we do not know what to do...
      if children.length != 1 then
        pure ""
      else
        let child ← idx children 0
        get_body_name model fuel child
    else
      pure (model.GetBodyName body_id)

/-- The six canonical one-hot axes, in the order of their index. -/
def canonicalAxes : List (SpatialVectord K) :=
  [⟨1, 0, 0, 0, 0, 0⟩, ⟨0, 1, 0, 0, 0, 0⟩, ⟨0, 0, 1, 0, 0, 0⟩,
   ⟨0, 0, 0, 1, 0, 0⟩, ⟨0, 0, 0, 0, 1, 0⟩, ⟨0, 0, 0, 0, 0, 1⟩]

/-- The six canonical labels, in the order of the axes. -/
def canonicalLabels : List String := ["RX", "RY", "RZ", "TX", "TY", "TZ"]

/-- The bodies of `chain` are virtual and in the body table, each has exactly one child,
the next body of the list, and the only child of the last one is `b`. -/
def SingleChildChain (model : Model K) : List Nat → Nat → Prop
  | [], _ => True
  | v :: rest, b =>
    (model.mBodies[v]?.map fun body => body.mIsVirtual) = some true ∧
    model.mu[v]? = some [rest.headD b] ∧ SingleChildChain model rest b

instance SingleChildChain.instDecidable (model : Model K) :
    ∀ (chain : List Nat) (b : Nat), Decidable (SingleChildChain model chain b)
  | [], _ => isTrue trivial
  | v :: rest, b =>
    have := SingleChildChain.instDecidable model rest b
    by unfold SingleChildChain; infer_instance

/-- Concatenation of pieces of text, in order. -/
def concatLines : List String → String
  | [] => ""
  | a :: rest => a ++ concatLines rest

/-- Stream output `setfill (' ') << setw (3) << n` of a counter: its decimal digits,
filled with blanks on the left to three characters. -/
def setw3 (n : Nat) : String :=
  String.mk (List.replicate (3 - (toString n).length) ' ') ++ toString n

/-- One line of `GetModelDOFOverview` (lines 61 and 65). -/
def GetModelDOFOverview.line (q_index : Nat) (name dof : String) : String :=
  setw3 q_index ++ ": " ++ name ++ "_" ++ dof ++ "\n"

/-- Body of the inner loop of `GetModelDOFOverview` (lines 65-66); the state is
`result` and `q_index`. -/
def GetModelDOFOverview.inner [DecidableEq K] (render : K → String) (model : Model K)
    (fuel i : Nat) (joint : Joint K) (j : Nat) (s : String × Nat) :
    Except Fault (String × Nat) := do
  let name ← get_body_name model fuel i
  let axis ← idx joint.mJointAxes j
  pure (s.1 ++ GetModelDOFOverview.line s.2 name (get_dof_name render axis), s.2 + 1)

/-- Body of the outer loop of `GetModelDOFOverview` (lines 60-68). -/
def GetModelDOFOverview.body [DecidableEq K] (render : K → String) (model : Model K)
    (model_data : ModelDatad K) (fuel i : Nat) (s : String × Nat) :
    Except Fault (String × Nat) := do
  let joint ← idx model.mJoints i
  if joint.mDoFCount == 1 then
    let name ← get_body_name model fuel i
    let S ← idx model_data.S i
    pure (s.1 ++ GetModelDOFOverview.line s.2 name (get_dof_name render S), s.2 + 1)
  else
    forUp (GetModelDOFOverview.inner render model fuel i joint) joint.mDoFCount 0 s

/-- The function `GetModelDOFOverview` of rbdl_utils.cc (lines 55-72); `fuel` bounds the
depth of the name resolution. -/
def GetModelDOFOverview [DecidableEq K] (render : K → String) (model : Model K)
    (model_data : ModelDatad K) (fuel : Nat) : Except Fault String := do
  let s ← forUp (GetModelDOFOverview.body render model model_data fuel)
    (model.mBodies.length - 1) 1 ("", 0)
  pure s.1

/-- The axes of the DOF slots of body `i`, in order: the axis `S[i]` of a joint with one
degree of freedom, the first `mDoFCount` joint axes otherwise. -/
def dofAxes (model : Model K) (model_data : ModelDatad K) (i : Nat) :
    List (SpatialVectord K) :=
  match model.mJoints[i]? with
  | none => []
  | some joint =>
    if joint.mDoFCount = 1 then model_data.S[i]?.toList
    else joint.mJointAxes.take joint.mDoFCount

/-- The generalized-coordinate slots of the bodies `lo, ..., lo + n - 1` in order, each
with its body and its axis. -/
def dofSlots (model : Model K) (model_data : ModelDatad K) (lo n : Nat) :
    List (Nat × SpatialVectord K) :=
  (List.range' lo n).flatMap fun i => (dofAxes model model_data i).map fun a => (i, a)

/-- The text written by `indent` passes of `result << "  "` (none when `indent ≤ 0`). -/
def indentUnits (indent : Int) : String :=
  concatLines (List.replicate indent.toNat "  ")

/-- The text sent to `cerr` before `abort ()` (lines 93-96). -/
def print_hierarchy.diagnostic (model : Model K) (body_index : Nat) (children : List Nat) :
    String :=
  children.foldl
    (fun cerr child =>
      cerr ++ "  id: " ++ toString child ++ " name: " ++ model.GetBodyName child ++ "\n")
    ("\n" ++ "Error: Cannot determine multi-dof joint as massless body with id " ++
      toString body_index ++ " (name: " ++ model.GetBodyName body_index ++
      ") has more than one child:" ++ "\n")

/-- The `while` loop of `print_hierarchy` (lines 88-103): `result` and `body_index` when
the loop is left; `fuel` bounds the number of passes. -/
def print_hierarchy.walk [DecidableEq K] (render : K → String) (model : Model K)
    (model_data : ModelDatad K) :
    (fuel : Nat) → (body_index : Nat) → (result : String) → Except Fault (String × Nat)
  | 0, _, _ => .error .outOfFuel
  | fuel + 1, body_index, result => do
    let body ← idx model.mBodies body_index
    if body.mIsVirtual then
      let children ← idx model.mu body_index
      if children.length == 0 then
        pure (result ++ " end", body_index)
      else if children.length > 1 then
        .error (.abort (print_hierarchy.diagnostic model body_index children))
      else
        let S ← idx model_data.S body_index
        let child ← idx children 0
        print_hierarchy.walk render model model_data fuel child
          (result ++ get_dof_name render S ++ ", ")
    else
      pure (result, body_index)

/-- Lines 105-107 of `print_hierarchy`: the DOF label of the body the loop was left at
and the closing bracket when that body is not the root, then the end of the line. -/
def print_hierarchy.close [DecidableEq K] (render : K → String) (model_data : ModelDatad K)
    (body_index : Nat) (result : String) : Except Fault String :=
  if body_index > 0 then do
    let S ← idx model_data.S body_index
    pure (result ++ get_dof_name render S ++ " ]" ++ "\n")
  else
    pure (result ++ "\n")

/-- The loop over the fixed bodies of `print_hierarchy` (lines 115-122). The id
`fixed_body_discriminator + fbody_index` is computed in `unsigned int`. -/
def print_hierarchy.fixed (model : Model K) (body_index : Nat) (indent : Int)
    (result : String) : String :=
  model.mFixedBodies.enum.foldl
    (fun result entry =>
      if entry.2.mMovableParent == body_index then
        result ++ indentUnits (indent + 1) ++
          model.GetBodyName ((model.fixed_body_discriminator + entry.1) % 2 ^ 32) ++
          " [fixed]" ++ "\n"
      else result)
    result

/-- What a call that writes to `std::cout` leaves behind: the text written and the
outcome, the value returned or the fault that ended the call. -/
structure Run (α : Type) where
  cout : String
  outcome : Except Fault α

/-- The loop over the children of `print_hierarchy` (lines 110-112); `call` is the
recursive call at the next indent. -/
def print_hierarchy.children (call : Nat → Run String) : List Nat → String → Run String
  | [], result => ⟨"", .ok result⟩
  | child :: rest, result =>
    match (call child).outcome with
    | .error e => ⟨(call child).cout, .error e⟩
    | .ok text =>
      ⟨(call child).cout ++ (print_hierarchy.children call rest (result ++ text)).cout,
        (print_hierarchy.children call rest (result ++ text)).outcome⟩

/-- The function `print_hierarchy` of rbdl_utils.cc (lines 74-126); `fuel` bounds the
depth of the recursion, the passes of the loop over virtual bodies and the name
resolution. -/
def print_hierarchy [DecidableEq K] (render : K → String) (model : Model K)
    (model_data : ModelDatad K) : (fuel : Nat) → (body_index : Nat) → (indent : Int) →
    Run String
  | 0, _, _ => ⟨"", .error .outOfFuel⟩
  | fuel + 1, body_index, indent =>
    match get_body_name model (fuel + 1) body_index with
    | .error e => ⟨"", .error e⟩
    | .ok name =>
      let cout := "Body " ++ toString body_index ++ " -> " ++ name ++ "\n"
      let result := indentUnits indent ++ name
      let result := if body_index > 0 then result ++ " [ " else result
      match print_hierarchy.walk render model model_data (fuel + 1) body_index result with
      | .error e => ⟨cout, .error e⟩
      | .ok (result, body_index) =>
        match print_hierarchy.close render model_data body_index result with
        | .error e => ⟨cout, .error e⟩
        | .ok result =>
          match idx model.mu body_index with
          | .error e => ⟨cout, .error e⟩
          | .ok children =>
            let kids := print_hierarchy.children
              (fun child => print_hierarchy render model model_data fuel child (indent + 1))
              children result
            ⟨cout ++ kids.cout,
              kids.outcome.map fun result => print_hierarchy.fixed model body_index indent result⟩

/-- The function `GetModelHierarchy` of rbdl_utils.cc (lines 128-134). -/
def GetModelHierarchy [DecidableEq K] (render : K → String) (model : Model K)
    (model_data : ModelDatad K) (fuel : Nat) : Run String :=
  print_hierarchy render model model_data fuel 0 0

/-- The leaf lines of the fixed bodies attached to the movable body `b`: the entries
of the fixed-body table whose movable parent is `b`, in table order, each as `indent`
indent units, the name found at id `fixed_body_discriminator + index` and the tag. -/
def fixedLines (model : Model K) (b : Nat) (indent : Int) : List String :=
  (model.mFixedBodies.enum.filter fun entry => entry.2.mMovableParent = b).map fun entry =>
    indentUnits indent ++ model.GetBodyName (model.fixed_body_discriminator + entry.1) ++
      " [fixed]" ++ "\n"

/-- Body `v` is virtual and has more than one child. -/
def MultiChildVirtual (model : Model K) (v : Nat) : Prop :=
  (model.mBodies[v]?.map fun body => body.mIsVirtual) = some true ∧
  (model.mu[v]?.map fun children => decide (1 < children.length)) = some true

instance MultiChildVirtual.instDecidable (model : Model K) (v : Nat) :
    Decidable (MultiChildVirtual model v) := by
  unfold MultiChildVirtual
  infer_instance

/-- The bodies below `b` in the order a depth-first walk through the children lists
meets them: `b`, then the bodies below each child of `b`, child by child; `fuel` bounds
the depth. -/
def preorder (model : Model K) : (fuel : Nat) → (b : Nat) → List Nat
  | 0, _ => []
  | fuel + 1, b => b :: (model.mu[b]?.getD []).flatMap (preorder model fuel)

/-- Body `v` is reachable from the root through the children lists. -/
def Reachable (model : Model K) (v : Nat) : Prop :=
  Relation.ReflTransGen (fun p c => c ∈ model.mu[p]?.getD []) 0 v

/-- The tree invariant: every id listed in `mu[b]` is greater than `b` and smaller than
the number of bodies. -/
def TreeInvariant (model : Model K) : Prop :=
  ∀ b, b < model.mu.length → ∀ c ∈ model.mu[b]?.getD [], b < c ∧ c < model.mBodies.length

instance TreeInvariant.instDecidable (model : Model K) : Decidable (TreeInvariant model) := by
  unfold TreeInvariant
  infer_instance

/-- The children table of the model and the axis table `S` of the model data have one
entry for each body. -/
def PrintSized (model : Model K) (model_data : ModelDatad K) : Prop :=
  model.mu.length = model.mBodies.length ∧ model_data.S.length = model.mBodies.length

instance PrintSized.instDecidable (model : Model K) (model_data : ModelDatad K) :
    Decidable (PrintSized model model_data) := by
  unfold PrintSized
  infer_instance

/-- Outputs of `CalcCenterOfMass`: the model data it has written, the reference
outputs `mass` and `com`, and the pointees of `com_velocity` and `angular_momentum`
(`none` for a null pointer). -/
structure CenterOfMass (K : Type) where
  model_data : ModelDatad K
  mass : K
  com : Vector3d K
  com_velocity : Option (Vector3d K)
  angular_momentum : Option (Vector3d K)

/-- Running totals of the second loop of `CalcCenterOfMass`. -/
structure Totals (K : Type) where
  model_data : ModelDatad K
  Itot : SpatialRigidBodyInertiad K
  htot : SpatialVectord K

/-- Body of the first loop of `CalcCenterOfMass` (lines 186-187). -/
def CalcCenterOfMass.initBody (i : Nat) (model_data : ModelDatad K) :
    Except Fault (ModelDatad K) := do
  let Ii ← idx model_data.I i
  let Ic ← upd model_data.Ic i Ii
  let Ici ← idx Ic i
  let vi ← idx model_data.v i
  let hc ← upd model_data.hc i (Ici.toMatrix.mulVec vi)
  pure { model_data with Ic := Ic, hc := hc }

/-- Body of the second loop of `CalcCenterOfMass` (lines 194-202). -/
def CalcCenterOfMass.sumBody (model : Model K) (i : Nat) (t : Totals K) :
    Except Fault (Totals K) := do
  let lambda ← idx model.lambda i
  if lambda != 0 then
    let Icl ← idx t.model_data.Ic lambda
    let Xi ← idx t.model_data.X_lambda i
    let Ici ← idx t.model_data.Ic i
    let Ic ← upd t.model_data.Ic lambda (Icl.add (Xi.applyTranspose Ici))
    let hcl ← idx t.model_data.hc lambda
    let hci ← idx t.model_data.hc i
    let hc ← upd t.model_data.hc lambda (hcl.add (Xi.applyTransposeVec hci))
    pure { t with model_data := { t.model_data with Ic := Ic, hc := hc } }
  else
    let Xi ← idx t.model_data.X_lambda i
    let Ici ← idx t.model_data.Ic i
    let hci ← idx t.model_data.hc i
    pure { t with Itot := t.Itot.add (Xi.applyTranspose Ici),
                  htot := t.htot.add (Xi.applyTransposeVec hci) }

/-- Tail of `CalcCenterOfMass` (lines 205-215): the outputs read off the totals. -/
def CalcCenterOfMass.outputs (t : Totals K)
    (com_velocity angular_momentum : Option (Vector3d K)) : CenterOfMass K :=
  let mass := t.Itot.m
  let com := t.Itot.h.div mass
  let com_velocity := com_velocity.map fun _ =>
    (⟨t.htot.v3 / mass, t.htot.v4 / mass, t.htot.v5 / mass⟩ : Vector3d K)
  let angular_momentum := angular_momentum.map fun _ =>
    let htot := (Xtrans com).applyAdjoint t.htot
    (⟨htot.v0, htot.v1, htot.v2⟩ : Vector3d K)
  { model_data := t.model_data, mass := mass, com := com,
    com_velocity := com_velocity, angular_momentum := angular_momentum }

/-- The function `CalcCenterOfMass` of rbdl_utils.cc (lines 172-216). The kinematics
update of the library is the parameter `UpdateKinematicsCustom`; a pointer output is
`none` when null and `some` of its pointee otherwise. -/
def CalcCenterOfMass
    (UpdateKinematicsCustom : Model K → ModelDatad K → List K → List K → ModelDatad K)
    (model : Model K) (model_data : ModelDatad K) (q qdot : List K)
    (com_velocity angular_momentum : Option (Vector3d K)) (update_kinematics : Bool) :
    Except Fault (CenterOfMass K) := do
  let model_data :=
    if update_kinematics then UpdateKinematicsCustom model model_data q qdot else model_data
  let model_data ← forUp CalcCenterOfMass.initBody (model.mBodies.length - 1) 1 model_data
  let Itot : SpatialRigidBodyInertiad K :=
    SpatialRigidBodyInertiad.ofMatrix 0 ⟨0, 0, 0⟩ Matrix3d.zero
  let htot : SpatialVectord K := SpatialVectord.zero
  let t ← forDown (CalcCenterOfMass.sumBody model) (sizeMinusOne model.mBodies.length)
    ⟨model_data, Itot, htot⟩
  pure (CalcCenterOfMass.outputs t com_velocity angular_momentum)

/-- An energy returned by value, with the model data as the call leaves it. -/
structure Energy (K : Type) where
  model_data : ModelDatad K
  value : K

/-- The function `CalcPotentialEnergy` of rbdl_utils.cc (lines 240-253).
`VectorNd::Zero (model.qdot_size)` is the list of that many zeros. -/
def CalcPotentialEnergy
    (UpdateKinematicsCustom : Model K → ModelDatad K → List K → List K → ModelDatad K)
    (model : Model K) (model_data : ModelDatad K) (q : List K) (update_kinematics : Bool) :
    Except Fault (Energy K) := do
  let out ← CalcCenterOfMass UpdateKinematicsCustom model model_data q
    (List.replicate model.qdot_size 0) none none update_kinematics
  let mass := out.mass
  let com := out.com
  let g : Vector3d K := Vector3d.neg ⟨model.gravity.x, model.gravity.y, model.gravity.z⟩
  pure { model_data := out.model_data, value := mass * com.dot g }

/-- Body of the loop of `CalcKineticEnergy` (line 267). -/
def CalcKineticEnergy.body [OfScientific K] (model_data : ModelDatad K) (i : Nat)
    (result : K) : Except Fault K := do
  let vi ← idx model_data.v i
  let Ii ← idx model_data.I i
  pure (result + (SpatialVectord.smul 0.5 vi).dot (Ii.mulVec vi))

/-- The function `CalcKineticEnergy` of rbdl_utils.cc (lines 255-270). -/
def CalcKineticEnergy [OfScientific K]
    (UpdateKinematicsCustom : Model K → ModelDatad K → List K → List K → ModelDatad K)
    (model : Model K) (model_data : ModelDatad K) (q qdot : List K)
    (update_kinematics : Bool) : Except Fault (Energy K) := do
  let model_data :=
    if update_kinematics then UpdateKinematicsCustom model model_data q qdot else model_data
  let result ← forUp (CalcKineticEnergy.body model_data) (model.mBodies.length - 1) 1 0
  pure { model_data := model_data, value := result }

/-- The energy term `0.5 * v^T * (I * v)` of one body. -/
def kineticTerm [OfScientific K] (vI : SpatialVectord K × SpatialRigidBodyInertiad K) : K :=
  (SpatialVectord.smul 0.5 vI.1).dot (vI.2.mulVec vI.1)

/-- What the claims take as given about the kinematics update of the library: for joint
velocities that are all zero it leaves every movable body with the zero spatial
velocity. -/
def ZeroAtRest
    (UpdateKinematicsCustom : Model K → ModelDatad K → List K → List K → ModelDatad K)
    (model : Model K) : Prop :=
  ∀ (model_data : ModelDatad K) (q qdot : List K), (∀ x ∈ qdot, x = 0) →
    ∀ u ∈ (UpdateKinematicsCustom model model_data q qdot).v.drop 1, u = SpatialVectord.zero

/-- Mass stored at index `j` of a table of inertias (`0` outside the table). -/
def massAt (L : List (SpatialRigidBodyInertiad K)) (j : Nat) : K :=
  (L[j]?.map fun I => I.m).getD 0

/-- The model holds its root body and the per-body tables `CalcCenterOfMass` works on
have one entry for each body. -/
def Sized (model : Model K) (model_data : ModelDatad K) : Prop :=
  0 < model.mBodies.length ∧
  model_data.I.length = model.mBodies.length ∧
  model_data.Ic.length = model.mBodies.length ∧
  model_data.hc.length = model.mBodies.length ∧
  model_data.v.length = model.mBodies.length ∧
  model_data.X_lambda.length = model.mBodies.length

instance Sized.instDecidable (model : Model K) (model_data : ModelDatad K) :
    Decidable (Sized model model_data) := by
  unfold Sized
  infer_instance

/-- Every movable body `i` in `1..N-1` has a parent id `lambda[i] < i`. -/
def ParentsFirst (model : Model K) : Prop :=
  ∀ i, i < model.mBodies.length → 1 ≤ i → ∃ l, l < i ∧ model.lambda[i]? = some l

instance ParentsFirst.instDecidable (model : Model K) : Decidable (ParentsFirst model) := by
  unfold ParentsFirst
  infer_instance

/-- Two model data hold the same inertias, velocities and transforms, and accumulators
`Ic`, `hc` of the same sizes; the contents of the accumulators may differ. -/
def SameInputs (a b : ModelDatad K) : Prop :=
  a.I = b.I ∧ a.v = b.v ∧ a.X_lambda = b.X_lambda ∧
  a.Ic.length = b.Ic.length ∧ a.hc.length = b.hc.length

/-- The accumulators of two model data agree at every body `j` with `lo ≤ j < hi`. -/
def AgreeOn (lo hi : Nat) (a b : ModelDatad K) : Prop :=
  ∀ j, lo ≤ j → j < hi → a.Ic[j]? = b.Ic[j]? ∧ a.hc[j]? = b.hc[j]?

/-- Relation kept by the second loop of `CalcCenterOfMass` when it runs on two model data
with the same inputs: same totals, tables of `N` entries, and accumulators that agree at
the movable bodies `1..N-1`. -/
structure TotalsAgree (N : Nat) (t u : Totals K) : Prop where
  same : SameInputs t.model_data u.model_data
  agree : AgreeOn 1 N t.model_data u.model_data
  Itot : t.Itot = u.Itot
  htot : t.htot = u.htot
  lenIc : t.model_data.Ic.length = N
  lenhc : t.model_data.hc.length = N
  lenX : t.model_data.X_lambda.length = N

/-- A point given in the frame of a body, expressed in the frame of the parent through
the transform `X` from the parent: `E^T p + r`. -/
def toParentFrame (X : SpatialTransformd K) (p : Vector3d K) : Vector3d K :=
  (X.E.transpose.mulVec p).add X.r

end Utils

end RigidBodyDynamics

/-- Modelled from the spec: `Eigen::Quaterniond` (the matrix library is not among the
sources), a quaternion with coefficients `x`, `y`, `z`, `w`. -/
structure Quaterniond (K : Type) where
  x : K
  y : K
  z : K
  w : K

/-- Assignment `state.segment (start, src.size ()) = src`, slot by slot. -/
def assignSegment {K : Type} (state : List K) (start : Nat) : List K → List K
  | [] => state
  | a :: src => assignSegment (state.set start a) (start + 1) src

/-- The function `createGeneralizedVector` of addons/Utils.h: the outcome of the call
and the output vector `state` after it. Past the size test every slot written
exists. -/
def createGeneralizedVector {K : Type}
    (floatingBasePosition : RigidBodyDynamics.Math.Vector3d K)
    (floatingBaseOrientation : Quaterniond K)
    (jointStates : List K) (state : List K) : Except RigidBodyDynamics.Fault Unit × List K :=
  if state.length ≠ jointStates.length + 7 then
    (.error (.runtimeError "Missmatch between vectors creating generalized vector"), state)
  else
    let state := assignSegment state 0
      [floatingBasePosition.x, floatingBasePosition.y, floatingBasePosition.z]
    let state := state.set 3 floatingBaseOrientation.x
    let state := state.set 4 floatingBaseOrientation.y
    let state := state.set 5 floatingBaseOrientation.z
    let state := state.set (state.length - 1) floatingBaseOrientation.w
    let state := assignSegment state 6 jointStates
    (.ok (), state)

/-- The function `createGeneralizedVelocityVector` of addons/Utils.h: the outcome of
the call and the output vector `state` after it. -/
def createGeneralizedVelocityVector {K : Type}
    (floatingBaseLinearVelocity floatingBaseAngularVelocity : RigidBodyDynamics.Math.Vector3d K)
    (jointStatesVelocity : List K) (state : List K) :
    Except RigidBodyDynamics.Fault Unit × List K :=
  if state.length ≠ jointStatesVelocity.length + 6 then
    (.error (.runtimeError "Missmatch between vectors creating generalized vector"), state)
  else
    let state := assignSegment state 0
      [floatingBaseLinearVelocity.x, floatingBaseLinearVelocity.y, floatingBaseLinearVelocity.z]
    let state := assignSegment state 3
      [floatingBaseAngularVelocity.x, floatingBaseAngularVelocity.y,
       floatingBaseAngularVelocity.z]
    let state := assignSegment state 6 jointStatesVelocity
    (.ok (), state)

/-- The function `createGeneralizedAccelerationVector` of addons/Utils.h: the outcome
of the call and the output vector `state` after it. -/
def createGeneralizedAccelerationVector {K : Type}
    (floatingBaseLinearAcceleration floatingBaseAngularAcceleration :
      RigidBodyDynamics.Math.Vector3d K)
    (jointStatesAcceleration : List K) (state : List K) :
    Except RigidBodyDynamics.Fault Unit × List K :=
  if state.length ≠ jointStatesAcceleration.length + 6 then
    (.error (.runtimeError "Missmatch between vectors creating generalized vector"), state)
  else
    let state := assignSegment state 0
      [floatingBaseLinearAcceleration.x, floatingBaseLinearAcceleration.y,
       floatingBaseLinearAcceleration.z]
    let state := assignSegment state 3
      [floatingBaseAngularAcceleration.x, floatingBaseAngularAcceleration.y,
       floatingBaseAngularAcceleration.z]
    let state := assignSegment state 6 jointStatesAcceleration
    (.ok (), state)

/-- Modelled from the spec: `Eigen::Isometry3d` (the matrix library is not among the
sources), a rigid transform given by its rotation and its translation. -/
structure Isometry3d (K : Type) where
  linear : RigidBodyDynamics.Math.Matrix3d K
  translation : RigidBodyDynamics.Math.Vector3d K

/-- Modelled from the spec: the routines of the library and of the matrix library that
`getBodyToBaseTransform` calls (Model.h, Kinematics.h and the matrix library are not
among the sources), taken as given: the id of a named body, the base coordinates of a
point of a body, the world orientation of a body, and the rotation matrix rebuilt from
`Eigen::AngleAxisd (rotation)`. The kinematic state they refresh stays inside them. -/
structure Kinematics (K : Type) where
  GetBodyId : RigidBodyDynamics.Model K → String → Nat
  CalcBodyToBaseCoordinates : RigidBodyDynamics.Model K → List K → Nat →
    RigidBodyDynamics.Math.Vector3d K → Bool → RigidBodyDynamics.Math.Vector3d K
  CalcBodyWorldOrientation : RigidBodyDynamics.Model K → List K → Nat → Bool →
    RigidBodyDynamics.Math.Matrix3d K
  AngleAxisd : RigidBodyDynamics.Math.Matrix3d K → RigidBodyDynamics.Math.Matrix3d K

/-- Modelled from the spec: `Eigen::Vector3d::Zero (size)` (the matrix library is not
among the sources). `Vector3d` has three rows at compile time: the result has three
rows whatever `size` is, and the library asserts `size == 3`. -/
def Vector3dZero {K : Type} [Zero K] (size : Nat) :
    Except RigidBodyDynamics.Fault (RigidBodyDynamics.Math.Vector3d K) :=
  if size = 3 then .ok ⟨0, 0, 0⟩
  else .error (.assertion "Eigen: size of a fixed-size vector")

/-- The function `getBodyToBaseTransform (model, Q, name, tip_position, update)` of
addons/Utils.h (lines 36-51); `Q.rows ()` is the length of `Q`. -/
def getBodyToBaseTransform {K : Type} (kin : Kinematics K)
    (model : RigidBodyDynamics.Model K) (Q : List K) (name : String)
    (tip_position : RigidBodyDynamics.Math.Vector3d K) (update : Bool) :
    Except RigidBodyDynamics.Fault (Isometry3d K) :=
  if model.q_size ≠ Q.length then .error (.assertion "model.q_size == Q.rows()")
  else
    let id := kin.GetBodyId model name
    let position := kin.CalcBodyToBaseCoordinates model Q id tip_position update
    let rotation := (kin.CalcBodyWorldOrientation model Q id update).transpose
    .ok { linear := kin.AngleAxisd rotation, translation := position }

/-- The overload `getBodyToBaseTransform (model, Q, name, update)` (lines 53-56). -/
def getBodyToBaseTransform_update {K : Type} [Zero K] (kin : Kinematics K)
    (model : RigidBodyDynamics.Model K) (Q : List K) (name : String) (update : Bool) :
    Except RigidBodyDynamics.Fault (Isometry3d K) :=
  getBodyToBaseTransform kin model Q name ⟨0, 0, 0⟩ update

/-- The overload `getBodyToBaseTransform (model, name)` (lines 58-61): the temporary
`Eigen::Vector3d::Zero (model.dof_count)` is converted to the `VectorXd` argument `Q`. -/
def getBodyToBaseTransform_name {K : Type} [Zero K] (kin : Kinematics K)
    (model : RigidBodyDynamics.Model K) (name : String) :
    Except RigidBodyDynamics.Fault (Isometry3d K) := do
  let Q ← Vector3dZero model.dof_count
  getBodyToBaseTransform kin model [Q.x, Q.y, Q.z] name ⟨0, 0, 0⟩ false

/-- The overload `getBodyToBaseTransform (model, name, tip_position)` (lines 63-66). -/
def getBodyToBaseTransform_tip {K : Type} [Zero K] (kin : Kinematics K)
    (model : RigidBodyDynamics.Model K) (name : String)
    (tip_position : RigidBodyDynamics.Math.Vector3d K) :
    Except RigidBodyDynamics.Fault (Isometry3d K) := do
  let Q ← Vector3dZero model.dof_count
  getBodyToBaseTransform kin model [Q.x, Q.y, Q.z] name tip_position false

/-- The configuration vector `Eigen::VectorXd::Zero (model.q_size)` that the functions
`getBodyLinearVelocity`, `getBodyAngularVelocity` and their acceleration counterparts
of addons/Utils.h (lines 68-101) pass to the library. -/
def zeroConfiguration {K : Type} [Zero K] (model : RigidBodyDynamics.Model K) : List K :=
  List.replicate model.q_size 0

/-- A scalar on which a division by zero shows: `fin q` is the finite value `q`, and
`nonfin` stands for what `double` arithmetic yields for a quotient with divisor zero
(NaN or an infinity). An operation with a `nonfin` operand is taken to be `nonfin`. -/
inductive Dbl where
  | fin (q : ℚ)
  | nonfin
  deriving DecidableEq

/-- Binary operation on finite scalars, carried to `Dbl`. -/
def Dbl.lift2 (f : ℚ → ℚ → ℚ) : Dbl → Dbl → Dbl
  | .fin a, .fin b => .fin (f a b)
  | _, _ => .nonfin

/-- Negation on `Dbl`. -/
def Dbl.neg : Dbl → Dbl
  | .fin a => .fin (-a)
  | .nonfin => .nonfin

/-- Division on `Dbl`: a zero divisor gives `nonfin`. -/
def Dbl.div : Dbl → Dbl → Dbl
  | .fin a, .fin b => if b = 0 then .nonfin else .fin (a / b)
  | _, _ => .nonfin

instance : Zero Dbl := ⟨.fin 0⟩

instance : One Dbl := ⟨.fin 1⟩

instance : Add Dbl := ⟨Dbl.lift2 fun a b => a + b⟩

instance : Sub Dbl := ⟨Dbl.lift2 fun a b => a - b⟩

instance : Mul Dbl := ⟨Dbl.lift2 fun a b => a * b⟩

instance : Neg Dbl := ⟨Dbl.neg⟩

instance : Div Dbl := ⟨Dbl.div⟩

namespace Examples

open RigidBodyDynamics RigidBodyDynamics.Math

/-- A kinematics update that changes nothing, for the examples that do not request the
update. -/
def noUpdate {K : Type} : Model K → ModelDatad K → List K → List K → ModelDatad K :=
  fun _ model_data _ _ => model_data

/-- The identity transform. -/
def identityTransform {K : Type} [Zero K] [One K] : SpatialTransformd K :=
  ⟨Matrix3d.Identity, Vector3d.zero⟩

/-- An inertia of mass 0. -/
def zeroInertia {K : Type} [Zero K] : SpatialRigidBodyInertiad K :=
  ⟨0, ⟨0, 0, 0⟩, 0, 0, 0, 0, 0, 0⟩

/-- A tree that holds the root body only: no movable body. -/
def rootModel (K : Type) [Zero K] : Model K :=
  { lambda := [0], mu := [[]], mBodies := [⟨false⟩], mJoints := [⟨0, []⟩],
    mFixedBodies := [], fixed_body_discriminator := 2147483647,
    GetBodyName := fun i => if i = 0 then "ROOT" else "",
    gravity := ⟨0, 0, 0⟩, dof_count := 0, q_size := 0, qdot_size := 0 }

/-- Model data of `rootModel`. -/
def rootData (K : Type) [Zero K] [One K] : ModelDatad K :=
  { I := [zeroInertia], Ic := [zeroInertia], hc := [SpatialVectord.zero],
    v := [SpatialVectord.zero], X_lambda := [identityTransform], S := [SpatialVectord.zero] }

/-- A tree with one movable body attached to the root. -/
def singleModel : Model ℚ :=
  { lambda := [0, 0], mu := [[1], []], mBodies := [⟨false⟩, ⟨false⟩],
    mJoints := [⟨0, []⟩, ⟨1, [⟨0, 0, 1, 0, 0, 0⟩]⟩],
    mFixedBodies := [], fixed_body_discriminator := 2147483647,
    GetBodyName := fun i => if i = 0 then "ROOT" else if i = 1 then "link" else "",
    gravity := ⟨0, 0, -10⟩, dof_count := 1, q_size := 1, qdot_size := 1 }

/-- Model data of `singleModel`: mass 4, centre of mass (1, 2, 3), identity transform. -/
def singleData : ModelDatad ℚ :=
  { I := [zeroInertia, ⟨4, Vector3d.smul 4 ⟨1, 2, 3⟩, 1, 0, 1, 0, 0, 1⟩],
    Ic := [zeroInertia, zeroInertia], hc := [SpatialVectord.zero, SpatialVectord.zero],
    v := [SpatialVectord.zero, ⟨0, 0, 1, 0, 0, 0⟩],
    X_lambda := [identityTransform, identityTransform],
    S := [SpatialVectord.zero, ⟨0, 0, 1, 0, 0, 0⟩] }

/-- A kinematics update for a tree whose only movable body hangs on the root by a joint
with one degree of freedom: the velocity of body 1 is its joint axis `S[1]` times the
joint velocity `qdot[0]`, and the root is at rest. -/
def hingeUpdate : Model ℚ → ModelDatad ℚ → List ℚ → List ℚ → ModelDatad ℚ :=
  fun _ model_data _ qdot =>
    { model_data with
      v := [SpatialVectord.zero,
        SpatialVectord.smul (qdot[0]?.getD 0) (model_data.S[1]?.getD SpatialVectord.zero)] }

/-- A two-link chain: body 1 on the root, body 2 on body 1. -/
def chainModel : Model ℚ :=
  { lambda := [0, 0, 1], mu := [[1], [2], []], mBodies := [⟨false⟩, ⟨false⟩, ⟨false⟩],
    mJoints := [⟨0, []⟩, ⟨1, [⟨0, 0, 1, 0, 0, 0⟩]⟩, ⟨1, [⟨0, 0, 1, 0, 0, 0⟩]⟩],
    mFixedBodies := [], fixed_body_discriminator := 2147483647,
    GetBodyName := fun i =>
      if i = 0 then "ROOT" else if i = 1 then "upper" else if i = 2 then "lower" else "",
    gravity := ⟨0, 0, -10⟩, dof_count := 2, q_size := 2, qdot_size := 2 }

/-- Model data of `chainModel`: masses 2 and 3, centres of mass (1, 0, 0) and (0, 1, 0);
body 1 is shifted by (0, 0, 1), body 2 shifted by (1, 0, 0) and turned a quarter about z. -/
def chainData : ModelDatad ℚ :=
  { I := [zeroInertia, ⟨2, Vector3d.smul 2 ⟨1, 0, 0⟩, 1, 0, 1, 0, 0, 1⟩,
          ⟨3, Vector3d.smul 3 ⟨0, 1, 0⟩, 1, 0, 1, 0, 0, 1⟩],
    Ic := [zeroInertia, zeroInertia, zeroInertia],
    hc := [SpatialVectord.zero, SpatialVectord.zero, SpatialVectord.zero],
    v := [SpatialVectord.zero, ⟨0, 0, 1, 0, 0, 0⟩, ⟨0, 0, 2, 0, 1, 0⟩],
    X_lambda := [identityTransform, ⟨Matrix3d.Identity, ⟨0, 0, 1⟩⟩,
                 ⟨⟨0, 1, 0, -1, 0, 0, 0, 0, 1⟩, ⟨1, 0, 0⟩⟩],
    S := [SpatialVectord.zero, ⟨0, 0, 1, 0, 0, 0⟩, ⟨0, 0, 1, 0, 0, 0⟩] }

/-- Model data of `singleModel` at rest: as `singleData`, all velocities zero. -/
def restData : ModelDatad ℚ :=
  { singleData with v := [SpatialVectord.zero, SpatialVectord.zero] }

/-- A tree with one body on a spherical joint: three degrees of freedom, and four
configuration entries since the orientation is a quaternion. -/
def sphericalModel : Model ℚ :=
  { lambda := [0, 0], mu := [[1], []], mBodies := [⟨false⟩, ⟨false⟩],
    mJoints := [⟨0, []⟩, ⟨3, [⟨0, 0, 1, 0, 0, 0⟩, ⟨0, 1, 0, 0, 0, 0⟩, ⟨1, 0, 0, 0, 0, 0⟩]⟩],
    mFixedBodies := [], fixed_body_discriminator := 2147483647,
    GetBodyName := fun i => if i = 0 then "ROOT" else if i = 1 then "ball" else "",
    gravity := ⟨0, 0, -10⟩, dof_count := 3, q_size := 4, qdot_size := 3 }

/-- Library routines for the examples: every name is body 1, at the origin, unturned. -/
def plainKinematics : Kinematics ℚ :=
  { GetBodyId := fun _ _ => 1,
    CalcBodyToBaseCoordinates := fun _ _ _ tip _ => tip,
    CalcBodyWorldOrientation := fun _ _ _ _ => Matrix3d.Identity,
    AngleAxisd := fun rotation => rotation }

/-- A tree with a three-DOF joint split over two virtual bodies: root 0, virtual bodies
1 and 2, real body 3 ("pelvis"); a virtual body 4 with two children 5 and 6, and a
childless virtual body 7. -/
def virtualModel : Model ℚ :=
  { lambda := [0, 0, 1, 2, 0, 4, 4, 0],
    mu := [[1, 4, 7], [2], [3], [], [5, 6], [], [], []],
    mBodies := [⟨false⟩, ⟨true⟩, ⟨true⟩, ⟨false⟩, ⟨true⟩, ⟨false⟩, ⟨false⟩, ⟨true⟩],
    mJoints := [⟨0, []⟩, ⟨1, [⟨1, 0, 0, 0, 0, 0⟩]⟩, ⟨1, [⟨0, 1, 0, 0, 0, 0⟩]⟩,
                ⟨1, [⟨0, 0, 1, 0, 0, 0⟩]⟩, ⟨1, [⟨0, 0, 0, 1, 0, 0⟩]⟩,
                ⟨1, [⟨0, 0, 1, 0, 0, 0⟩]⟩, ⟨1, [⟨0, 0, 1, 0, 0, 0⟩]⟩,
                ⟨1, [⟨0, 0, 0, 0, 1, 0⟩]⟩],
    mFixedBodies := [], fixed_body_discriminator := 2147483647,
    GetBodyName := fun i =>
      if i = 0 then "ROOT" else if i = 3 then "pelvis" else if i = 5 then "left"
      else if i = 6 then "right" else "",
    gravity := ⟨0, 0, -10⟩, dof_count := 7, q_size := 7, qdot_size := 7 }

/-- Model data of `virtualModel`: each body with the axis of its joint. -/
def virtualData : ModelDatad ℚ :=
  { I := List.replicate 8 zeroInertia, Ic := List.replicate 8 zeroInertia,
    hc := List.replicate 8 SpatialVectord.zero, v := List.replicate 8 SpatialVectord.zero,
    X_lambda := List.replicate 8 identityTransform,
    S := [SpatialVectord.zero, ⟨1, 0, 0, 0, 0, 0⟩, ⟨0, 1, 0, 0, 0, 0⟩, ⟨0, 0, 1, 0, 0, 0⟩,
          ⟨0, 0, 0, 1, 0, 0⟩, ⟨0, 0, 1, 0, 0, 0⟩, ⟨0, 0, 1, 0, 0, 0⟩, ⟨0, 0, 0, 0, 1, 0⟩] }

/-- A tree with fixed bodies: root 0, virtual body 1 with the single child 2 ("arm"),
which has the child 3 ("hand"); fixed bodies "sensor" on the virtual body 1, "tool" on
body 2 and "plate" on the root. -/
def fixedModel : Model ℚ :=
  { lambda := [0, 0, 1, 2], mu := [[1], [2], [3], []],
    mBodies := [⟨false⟩, ⟨true⟩, ⟨false⟩, ⟨false⟩],
    mJoints := [⟨0, []⟩, ⟨1, [⟨1, 0, 0, 0, 0, 0⟩]⟩, ⟨1, [⟨0, 1, 0, 0, 0, 0⟩]⟩,
                ⟨2, [⟨0, 0, 0, 1, 0, 0⟩, ⟨0, 0, 0, 0, 1, 0⟩]⟩],
    mFixedBodies := [⟨1⟩, ⟨2⟩, ⟨0⟩], fixed_body_discriminator := 2147483647,
    GetBodyName := fun i =>
      if i = 0 then "ROOT" else if i = 2 then "arm" else if i = 3 then "hand"
      else if i = 2147483647 then "sensor" else if i = 2147483648 then "tool"
      else if i = 2147483649 then "plate" else "",
    gravity := ⟨0, 0, -10⟩, dof_count := 4, q_size := 4, qdot_size := 4 }

/-- Model data of `fixedModel`: each body with the axis of its joint. -/
def fixedData : ModelDatad ℚ :=
  { I := List.replicate 4 zeroInertia, Ic := List.replicate 4 zeroInertia,
    hc := List.replicate 4 SpatialVectord.zero, v := List.replicate 4 SpatialVectord.zero,
    X_lambda := List.replicate 4 identityTransform,
    S := [SpatialVectord.zero, ⟨1, 0, 0, 0, 0, 0⟩, ⟨0, 1, 0, 0, 0, 0⟩, ⟨0, 0, 0, 1, 0, 0⟩] }

/-- Text of a rational number in the examples. -/
def renderRat (x : ℚ) : String := toString x

end Examples

/-! ## Theorems -/

set_option linter.unusedSectionVars false

namespace RigidBodyDynamics

open Math Utils

section Subscripts

variable {α : Type}

theorem idx_of_getElem? {xs : List α} {i : Nat} {a : α} (h : xs[i]? = some a) :
    idx xs i = .ok a := by
  simp [idx, h]

theorem idx_lt (xs : List α) (i : Nat) (h : i < xs.length) : idx xs i = .ok xs[i] := by
  simp [idx, h]

theorem upd_lt (xs : List α) (i : Nat) (a : α) (h : i < xs.length) :
    upd xs i a = .ok (xs.set i a) := by
  simp [upd, h]

theorem sizeMinusOne_pos (n : Nat) (h : 0 < n) : sizeMinusOne n = n - 1 := by
  simp [sizeMinusOne, Nat.pos_iff_ne_zero.mp h]

end Subscripts

namespace Utils

section Mass

variable {K : Type}

theorem massAt_lt [Zero K] (L : List (SpatialRigidBodyInertiad K)) (j : Nat)
    (h : j < L.length) : massAt L j = L[j].m := by
  simp [massAt, h]

theorem massAt_set [Zero K] (L : List (SpatialRigidBodyInertiad K)) (l : Nat)
    (a : SpatialRigidBodyInertiad K) (h : l < L.length) :
    massAt (L.set l a) = Function.update (massAt L) l a.m := by
  funext j
  by_cases hj : j = l
  · subst hj; simp [massAt, h]
  · have : l ≠ j := fun e => hj e.symm
    simp [massAt, Function.update, hj, List.getElem?_set, this]

theorem sum_massAt_eq [AddCommMonoid K] (L : List (SpatialRigidBodyInertiad K)) :
    ∑ j ∈ Finset.range L.length, massAt L j = (L.map fun I => I.m).sum := by
  induction L with
  | nil => simp
  | cons a L ih =>
    rw [List.length_cons, Finset.sum_range_succ']
    simp only [List.map_cons, List.sum_cons]
    rw [add_comm]
    congr 1
    · simp [massAt]
    · rw [← ih]
      apply Finset.sum_congr rfl
      intro k _
      simp [massAt]

theorem sum_Ico_massAt_eq [AddCommMonoid K] (L : List (SpatialRigidBodyInertiad K)) :
    ∑ j ∈ Finset.Ico 1 L.length, massAt L j = ((L.drop 1).map fun I => I.m).sum := by
  cases L with
  | nil => simp
  | cons a L =>
    rw [Finset.sum_Ico_eq_sum_range, List.drop_one, List.tail_cons, ← sum_massAt_eq]
    simp only [List.length_cons, Nat.add_sub_cancel]
    apply Finset.sum_congr rfl
    intro k _
    simp [massAt, Nat.add_comm]

end Mass

section Loops

variable {K : Type} [Zero K] [One K] [Add K] [Sub K] [Neg K] [Mul K] [Div K]

theorem applyTranspose_m (X : SpatialTransformd K) (I : SpatialRigidBodyInertiad K) :
    (X.applyTranspose I).m = I.m := rfl

theorem inertia_add_m (a b : SpatialRigidBodyInertiad K) : (a.add b).m = a.m + b.m := rfl

/-- One pass of the first loop, all subscripts in range. -/
theorem initBody_eq (md : ModelDatad K) (i : Nat) {Ii : SpatialRigidBodyInertiad K}
    {vi : SpatialVectord K} (hI : md.I[i]? = some Ii) (hv : md.v[i]? = some vi)
    (hIc : i < md.Ic.length) (hhc : i < md.hc.length) :
    CalcCenterOfMass.initBody i md =
      .ok { md with Ic := md.Ic.set i Ii, hc := md.hc.set i (Ii.toMatrix.mulVec vi) } := by
  simp [CalcCenterOfMass.initBody, idx, upd, hI, hv, hIc, hhc, bind, Except.bind, pure,
    Except.pure]

/-- One pass of the second loop for a body attached to the root (`lambda == 0`). -/
theorem sumBody_root (model : Model K) (t : Totals K) (i : Nat)
    {Xi : SpatialTransformd K} {Ici : SpatialRigidBodyInertiad K} {hci : SpatialVectord K}
    (hl : model.lambda[i]? = some 0) (hX : t.model_data.X_lambda[i]? = some Xi)
    (hIc : t.model_data.Ic[i]? = some Ici) (hhc : t.model_data.hc[i]? = some hci) :
    CalcCenterOfMass.sumBody model i t =
      .ok { t with Itot := t.Itot.add (Xi.applyTranspose Ici),
                   htot := t.htot.add (Xi.applyTransposeVec hci) } := by
  simp [CalcCenterOfMass.sumBody, idx, hl, hX, hIc, hhc, bind, Except.bind, pure, Except.pure]

/-- One pass of the second loop for a body whose parent is a movable body. -/
theorem sumBody_inner (model : Model K) (t : Totals K) (i l : Nat)
    {Xi : SpatialTransformd K} {Ici Icl : SpatialRigidBodyInertiad K}
    {hci hcl : SpatialVectord K}
    (hl : model.lambda[i]? = some l) (h0 : l ≠ 0)
    (hX : t.model_data.X_lambda[i]? = some Xi)
    (hIc : t.model_data.Ic[i]? = some Ici) (hhc : t.model_data.hc[i]? = some hci)
    (hIcl : t.model_data.Ic[l]? = some Icl) (hhcl : t.model_data.hc[l]? = some hcl) :
    CalcCenterOfMass.sumBody model i t =
      .ok { t with model_data := { t.model_data with
              Ic := t.model_data.Ic.set l (Icl.add (Xi.applyTranspose Ici)),
              hc := t.model_data.hc.set l (hcl.add (Xi.applyTransposeVec hci)) } } := by
  have h1 : l < t.model_data.Ic.length := by
    rcases Nat.lt_or_ge l t.model_data.Ic.length with h | h
    · exact h
    · simp [List.getElem?_eq_none h] at hIcl
  have h2 : l < t.model_data.hc.length := by
    rcases Nat.lt_or_ge l t.model_data.hc.length with h | h
    · exact h
    · simp [List.getElem?_eq_none h] at hhcl
  simp [CalcCenterOfMass.sumBody, idx, upd, hl, h0, hX, hIc, hhc, hIcl, hhcl, h1, h2, bind,
    Except.bind, pure, Except.pure]

/-- The call is the two loops followed by the read-out of the totals. -/
theorem CalcCenterOfMass_of_loops
    (UpdateKinematicsCustom : Model K → ModelDatad K → List K → List K → ModelDatad K)
    (model : Model K) (model_data : ModelDatad K) (q qdot : List K)
    (com_velocity angular_momentum : Option (Vector3d K))
    {md1 : ModelDatad K} {t : Totals K}
    (h1 : forUp CalcCenterOfMass.initBody (model.mBodies.length - 1) 1 model_data = .ok md1)
    (h2 : forDown (CalcCenterOfMass.sumBody model) (sizeMinusOne model.mBodies.length)
        ⟨md1, SpatialRigidBodyInertiad.ofMatrix 0 ⟨0, 0, 0⟩ Matrix3d.zero,
          SpatialVectord.zero⟩ = .ok t) :
    CalcCenterOfMass UpdateKinematicsCustom model model_data q qdot com_velocity
        angular_momentum false =
      .ok (CalcCenterOfMass.outputs t com_velocity angular_momentum) := by
  simp [CalcCenterOfMass, h1, h2, bind, Except.bind, pure, Except.pure]

/-- The first loop succeeds on tables that hold the indices it visits; it copies the
inertias of the visited bodies into `Ic` and leaves the rest of `Ic` alone. -/
theorem forUp_initBody (n : Nat) : ∀ (i : Nat) (md : ModelDatad K),
    i + n ≤ md.I.length → i + n ≤ md.Ic.length → i + n ≤ md.v.length →
    i + n ≤ md.hc.length →
    ∃ md1, forUp CalcCenterOfMass.initBody n i md = .ok md1 ∧
      md1.I = md.I ∧ md1.v = md.v ∧ md1.X_lambda = md.X_lambda ∧ md1.S = md.S ∧
      md1.Ic.length = md.Ic.length ∧ md1.hc.length = md.hc.length ∧
      (∀ j, i ≤ j → j < i + n → md1.Ic[j]? = md.I[j]?) ∧
      (∀ j, j < i → md1.Ic[j]? = md.Ic[j]?) := by
  induction n with
  | zero =>
    intro i md _ _ _ _
    exact ⟨md, rfl, rfl, rfl, rfl, rfl, rfl, rfl, fun j h1 h2 => by omega, fun _ _ => rfl⟩
  | succ n ih =>
    intro i md hI hIc hv hhc
    have hiI : i < md.I.length := by omega
    have hiv : i < md.v.length := by omega
    have step := initBody_eq md i (List.getElem?_eq_getElem hiI) (List.getElem?_eq_getElem hiv)
      (by omega) (by omega)
    obtain ⟨md1, h1, e1, e2, e3, e4, e5, e6, e7, e8⟩ := ih (i + 1)
      { md with Ic := md.Ic.set i md.I[i],
                hc := md.hc.set i (md.I[i].toMatrix.mulVec md.v[i]) }
      (by simpa using by omega) (by simpa using by omega) (by simpa using by omega)
      (by simpa using by omega)
    refine ⟨md1, ?_, e1, e2, e3, e4, by simpa using e5, by simpa using e6, ?_, ?_⟩
    · simp only [forUp, step]; exact h1
    · intro j hj1 hj2
      by_cases hj : j = i
      · subst hj
        rw [e8 j (by omega)]
        simp [List.getElem?_set, show j < md.Ic.length by omega, show j < md.I.length by omega]
      · exact e7 j (by omega) (by omega)
    · intro j hj
      rw [e8 j (by omega)]
      simp [List.getElem?_set, show i ≠ j by omega]

end Loops

section Sums

variable {K : Type} [CommRing K] [Div K]

/-- One pass of the second loop moves the mass of body `i` into its parent or into the
total: the total mass plus the composite masses still to be visited is unchanged. -/
theorem sumBody_mass (model : Model K) (t : Totals K) (i l : Nat) (hi1 : 1 ≤ i)
    (hl : model.lambda[i]? = some l) (hli : l < i)
    (hIc : i < t.model_data.Ic.length) (hhc : i < t.model_data.hc.length)
    (hX : i < t.model_data.X_lambda.length) :
    ∃ t1, CalcCenterOfMass.sumBody model i t = .ok t1 ∧
      t1.model_data.I = t.model_data.I ∧ t1.model_data.v = t.model_data.v ∧
      t1.model_data.X_lambda = t.model_data.X_lambda ∧ t1.model_data.S = t.model_data.S ∧
      t1.model_data.Ic.length = t.model_data.Ic.length ∧
      t1.model_data.hc.length = t.model_data.hc.length ∧
      t1.Itot.m + ∑ j ∈ Finset.Ico 1 i, massAt t1.model_data.Ic j =
        t.Itot.m + ∑ j ∈ Finset.Ico 1 (i + 1), massAt t.model_data.Ic j := by
  have hlIc : l < t.model_data.Ic.length := by omega
  have hlhc : l < t.model_data.hc.length := by omega
  rw [Finset.sum_Ico_succ_top hi1, massAt_lt _ i hIc]
  by_cases h0 : l = 0
  · subst h0
    refine ⟨_, sumBody_root model t i hl (List.getElem?_eq_getElem hX)
      (List.getElem?_eq_getElem hIc) (List.getElem?_eq_getElem hhc),
      rfl, rfl, rfl, rfl, rfl, rfl, ?_⟩
    simp only [inertia_add_m, applyTranspose_m]
    ring
  · refine ⟨_, sumBody_inner model t i l hl h0 (List.getElem?_eq_getElem hX)
      (List.getElem?_eq_getElem hIc) (List.getElem?_eq_getElem hhc)
      (List.getElem?_eq_getElem hlIc) (List.getElem?_eq_getElem hlhc),
      rfl, rfl, rfl, rfl, ?_, ?_, ?_⟩
    · simp
    · simp
    · simp only [massAt_set _ _ _ hlIc, inertia_add_m, applyTranspose_m]
      have hmem : l ∈ Finset.Ico 1 i := by
        simp only [Finset.mem_Ico]; omega
      rw [Finset.sum_update_of_mem hmem, Finset.sum_eq_add_sum_diff_singleton hmem (massAt _)]
      rw [massAt_lt _ l hlIc]
      ring

/-- The second loop run from body `k` down to body 1 succeeds when parents have smaller
ids, and adds to the total mass the composite masses of the bodies 1..k. -/
theorem forDown_sumBody (model : Model K) (N : Nat)
    (hlam : ∀ i, i < N → 1 ≤ i → ∃ l, l < i ∧ model.lambda[i]? = some l) (k : Nat) :
    ∀ t : Totals K, k < N → t.model_data.Ic.length = N → t.model_data.hc.length = N →
      t.model_data.X_lambda.length = N →
      ∃ t1, forDown (CalcCenterOfMass.sumBody model) k t = .ok t1 ∧
        t1.model_data.I = t.model_data.I ∧ t1.model_data.v = t.model_data.v ∧
        t1.model_data.X_lambda = t.model_data.X_lambda ∧ t1.model_data.S = t.model_data.S ∧
        t1.model_data.Ic.length = N ∧ t1.model_data.hc.length = N ∧
        t1.Itot.m = t.Itot.m + ∑ j ∈ Finset.Ico 1 (k + 1), massAt t.model_data.Ic j := by
  induction k with
  | zero =>
    intro t _ hIc hhc _
    exact ⟨t, rfl, rfl, rfl, rfl, rfl, hIc, hhc, by simp⟩
  | succ k ih =>
    intro t hk hIc hhc hX
    obtain ⟨l, hli, hl⟩ := hlam (k + 1) hk (by omega)
    obtain ⟨t1, h1, e1, e2, e3, e4, e5, e6, e7⟩ :=
      sumBody_mass model t (k + 1) l (by omega) hl hli (by omega) (by omega) (by omega)
    obtain ⟨t2, h2, f1, f2, f3, f4, f5, f6, f7⟩ :=
      ih t1 (by omega) (by omega) (by omega) (by rw [e3]; exact hX)
    refine ⟨t2, ?_, f1.trans e1, f2.trans e2, f3.trans e3, f4.trans e4, f5, f6, ?_⟩
    · simp only [forDown, h1]; exact h2
    · rw [f7, e7]

/-- Both loops succeed on a model whose tables have one entry for each body and whose
parents have smaller ids; the total mass is the sum of the masses of `I[1..N-1]`. -/
theorem CalcCenterOfMass_loops (model : Model K) (model_data : ModelDatad K)
    (hs : Sized model model_data) (hlam : ParentsFirst model) :
    ∃ md1 t, forUp CalcCenterOfMass.initBody (model.mBodies.length - 1) 1 model_data = .ok md1 ∧
      forDown (CalcCenterOfMass.sumBody model) (sizeMinusOne model.mBodies.length)
        ⟨md1, SpatialRigidBodyInertiad.ofMatrix 0 ⟨0, 0, 0⟩ Matrix3d.zero,
          SpatialVectord.zero⟩ = .ok t ∧
      t.Itot.m = ((model_data.I.drop 1).map fun I => I.m).sum := by
  obtain ⟨hroot, hI, hIc, hhc, hv, hX⟩ := hs
  obtain ⟨md1, h1, e1, e2, e3, e4, e5, e6, e7, e8⟩ :=
    forUp_initBody (model.mBodies.length - 1) 1 model_data
      (by omega) (by omega) (by omega) (by omega)
  obtain ⟨t, h2, f1, f2, f3, f4, f5, f6, f7⟩ :=
    forDown_sumBody model model.mBodies.length hlam (model.mBodies.length - 1)
      ⟨md1, SpatialRigidBodyInertiad.ofMatrix 0 ⟨0, 0, 0⟩ Matrix3d.zero, SpatialVectord.zero⟩
      (by omega) (by simpa [hIc] using e5) (by simpa [hhc] using e6)
      (by rw [e3]; exact hX)
  refine ⟨md1, t, h1, ?_, ?_⟩
  · rw [sizeMinusOne_pos _ hroot]; exact h2
  · rw [f7, ← sum_Ico_massAt_eq, hI]
    have hN : model.mBodies.length - 1 + 1 = model.mBodies.length := by omega
    rw [hN]
    have h0 : (SpatialRigidBodyInertiad.ofMatrix (0 : K) ⟨0, 0, 0⟩ Matrix3d.zero).m = 0 := rfl
    simp only [h0, zero_add]
    apply Finset.sum_congr rfl
    intro j hj
    simp only [Finset.mem_Ico] at hj
    simp only [massAt, e7 j (by omega) (by omega)]

/-- C1. On a model that holds its root body, whose per-body tables have one entry for
each body (`Sized`) and whose movable bodies `1..N-1` have `lambda[i] < i`
(`ParentsFirst`), `CalcCenterOfMass` called with `update_kinematics = false` returns,
and `mass` is the sum of the mass components of `I[1], ..., I[N-1]`, whatever the tree;
for a two-link chain (`I = [I0, I1, I2]`) it is `I1.m + I2.m`. The scalars form a
commutative ring, with any division. -/
theorem CalcCenterOfMass_mass_eq_sum
    (UpdateKinematicsCustom : Model K → ModelDatad K → List K → List K → ModelDatad K)
    (model : Model K) (model_data : ModelDatad K) (q qdot : List K)
    (com_velocity angular_momentum : Option (Vector3d K))
    (hs : Sized model model_data) (hlam : ParentsFirst model) :
    ∃ out, CalcCenterOfMass UpdateKinematicsCustom model model_data q qdot com_velocity
        angular_momentum false = .ok out ∧
      out.mass = ((model_data.I.drop 1).map fun I => I.m).sum ∧
      ∀ I0 I1 I2, model_data.I = [I0, I1, I2] → out.mass = I1.m + I2.m := by
  obtain ⟨md1, t, h1, h2, h3⟩ := CalcCenterOfMass_loops model model_data hs hlam
  have hm : (CalcCenterOfMass.outputs t com_velocity angular_momentum).mass =
      ((model_data.I.drop 1).map fun I => I.m).sum := h3
  refine ⟨_, CalcCenterOfMass_of_loops UpdateKinematicsCustom model model_data q qdot
    com_velocity angular_momentum h1 h2, hm, ?_⟩
  intro I0 I1 I2 hI3
  rw [hm, hI3]
  simp

end Sums

end Utils

end RigidBodyDynamics

namespace Examples

open RigidBodyDynamics RigidBodyDynamics.Math RigidBodyDynamics.Utils

theorem chain_sized : Sized chainModel chainData := by decide

theorem chain_parentsFirst : ParentsFirst chainModel := by decide

theorem single_sized : Sized singleModel singleData := by decide

theorem single_parentsFirst : ParentsFirst singleModel := by decide

end Examples

namespace RigidBodyDynamics
namespace Utils
open Math Examples

/-- Witness of C1: the two-link chain with masses 2 and 3 has total mass 5. -/
theorem CalcCenterOfMass_mass_eq_sum_witness :
    Sized chainModel chainData ∧ ParentsFirst chainModel ∧
    ∃ out, CalcCenterOfMass noUpdate chainModel chainData [] [] none none false = .ok out ∧
      out.mass = 5 := by
  refine ⟨chain_sized, chain_parentsFirst, ?_⟩
  obtain ⟨out, h, _, h2⟩ := CalcCenterOfMass_mass_eq_sum noUpdate chainModel chainData [] []
    none none chain_sized chain_parentsFirst
  refine ⟨out, h, ?_⟩
  rw [h2 _ _ _ rfl]
  norm_num

end Utils
end RigidBodyDynamics

namespace RigidBodyDynamics
namespace Utils
open Math Examples

section Chains

variable {K : Type} [Field K]

/-- C2. For a two-link chain (body 1 with parent 0, body 2 with parent 1) whose bodies
have masses `I1.m`, `I2.m` with non-zero sum and local centres of mass `c1`, `c2` (first
moments `h = m c`), and arbitrary parent transforms `X1`, `X2`, `CalcCenterOfMass` returns
and `com` is the mass-weighted average `(m1 p1 + m2 p2) / (m1 + m2)`, where `p1` is `c1`
carried to the base frame through `X1` and `p2` is `c2` carried through `X2`, then `X1`.
The scalars form a field. -/
theorem CalcCenterOfMass_two_link_com
    (UpdateKinematicsCustom : Model K → ModelDatad K → List K → List K → ModelDatad K)
    (model : Model K) (model_data : ModelDatad K) (q qdot : List K)
    (com_velocity angular_momentum : Option (Vector3d K))
    (I0 I1 I2 : SpatialRigidBodyInertiad K) (X0 X1 X2 : SpatialTransformd K)
    (c1 c2 : Vector3d K)
    (hs : Sized model model_data)
    (hl1 : model.lambda[1]? = some 0) (hl2 : model.lambda[2]? = some 1)
    (hI : model_data.I = [I0, I1, I2]) (hX : model_data.X_lambda = [X0, X1, X2])
    (hc1 : I1.h = Vector3d.smul I1.m c1) (hc2 : I2.h = Vector3d.smul I2.m c2)
    (hm : I1.m + I2.m ≠ 0) :
    ∃ out, CalcCenterOfMass UpdateKinematicsCustom model model_data q qdot com_velocity
        angular_momentum false = .ok out ∧
      out.com =
        ((Vector3d.smul I1.m (toParentFrame X1 c1)).add
          (Vector3d.smul I2.m (toParentFrame X1 (toParentFrame X2 c2)))).div (I1.m + I2.m) := by
  obtain ⟨_, hIN, hIc, hhc, hv, _⟩ := hs
  have hN : model.mBodies.length = 3 := by rw [← hIN, hI]; rfl
  rw [hN] at hIc hhc hv
  obtain ⟨md1, h1, e1, e2, e3, e4, e5, e6, e7, e8⟩ :=
    forUp_initBody 2 1 model_data (by simp [hI]) (by omega) (by omega) (by omega)
  have hIc1 : md1.Ic[1]? = some I1 := by rw [e7 1 (by omega) (by omega), hI]; rfl
  have hIc2 : md1.Ic[2]? = some I2 := by rw [e7 2 (by omega) (by omega), hI]; rfl
  have hX1 : md1.X_lambda[1]? = some X1 := by rw [e3, hX]; rfl
  have hX2 : md1.X_lambda[2]? = some X2 := by rw [e3, hX]; rfl
  have hh1 : 1 < md1.hc.length := by omega
  have hh2 : 2 < md1.hc.length := by omega
  have hL1 : 1 < md1.Ic.length := by omega
  have s2 := sumBody_inner model
    ⟨md1, SpatialRigidBodyInertiad.ofMatrix 0 ⟨0, 0, 0⟩ Matrix3d.zero, SpatialVectord.zero⟩
    2 1 hl2 (by decide) hX2 hIc2 (List.getElem?_eq_getElem hh2) hIc1
    (List.getElem?_eq_getElem hh1)
  have s1 := sumBody_root model
    { model_data := { md1 with
        Ic := md1.Ic.set 1 (I1.add (X2.applyTranspose I2)),
        hc := md1.hc.set 1 (md1.hc[1].add (X2.applyTransposeVec md1.hc[2])) },
      Itot := SpatialRigidBodyInertiad.ofMatrix (0 : K) ⟨0, 0, 0⟩ Matrix3d.zero,
      htot := SpatialVectord.zero }
    1 hl1 hX1
    (show (md1.Ic.set 1 (I1.add (X2.applyTranspose I2)))[1]? =
      some (I1.add (X2.applyTranspose I2)) by simp [hL1])
    (show (md1.hc.set 1 (md1.hc[1].add (X2.applyTransposeVec md1.hc[2])))[1]? =
      some (md1.hc[1].add (X2.applyTransposeVec md1.hc[2])) by simp [hh1])
  have h2 : ∃ t : Totals K,
      forDown (CalcCenterOfMass.sumBody model) (sizeMinusOne model.mBodies.length)
        ⟨md1, SpatialRigidBodyInertiad.ofMatrix 0 ⟨0, 0, 0⟩ Matrix3d.zero,
          SpatialVectord.zero⟩ = .ok t ∧
      t.Itot = (SpatialRigidBodyInertiad.ofMatrix (0 : K) ⟨0, 0, 0⟩ Matrix3d.zero).add
        (X1.applyTranspose (I1.add (X2.applyTranspose I2))) := by
    rw [hN]
    show ∃ t : Totals K, forDown _ 2 _ = _ ∧ _
    simp only [forDown, s2, s1]
    exact ⟨_, rfl, rfl⟩
  obtain ⟨t, h2, ht⟩ := h2
  refine ⟨_, CalcCenterOfMass_of_loops UpdateKinematicsCustom model model_data q qdot
    com_velocity angular_momentum (by rw [hN]; exact h1) h2, ?_⟩
  show t.Itot.h.div t.Itot.m = _
  rw [ht]
  simp only [SpatialRigidBodyInertiad.add,
    SpatialTransformd.applyTranspose, SpatialRigidBodyInertiad.ofMatrix, toParentFrame,
    Vector3d.add, Vector3d.smul, Vector3d.div, Matrix3d.mulVec, Matrix3d.transpose, hc1, hc2]
  have hm2 : (0 : K) + (I1.m + I2.m) ≠ 0 := by simpa using hm
  ext <;> · simp only []; field_simp; ring

/-- Witness of C2: the chain of the examples, masses 2 and 3. -/
theorem CalcCenterOfMass_two_link_com_witness :
    Sized chainModel chainData ∧ chainModel.lambda[1]? = some 0 ∧
    chainModel.lambda[2]? = some 1 ∧ (2 : ℚ) + 3 ≠ 0 ∧
    ∃ out, CalcCenterOfMass noUpdate chainModel chainData [] [] none none false = .ok out ∧
      out.com = ((Vector3d.smul 2 (toParentFrame ⟨Matrix3d.Identity, ⟨0, 0, 1⟩⟩ ⟨1, 0, 0⟩)).add
        (Vector3d.smul 3 (toParentFrame ⟨Matrix3d.Identity, ⟨0, 0, 1⟩⟩
          (toParentFrame ⟨⟨0, 1, 0, -1, 0, 0, 0, 0, 1⟩, ⟨1, 0, 0⟩⟩ ⟨0, 1, 0⟩)))).div (2 + 3) :=
  ⟨chain_sized, rfl, rfl, by norm_num,
    CalcCenterOfMass_two_link_com noUpdate chainModel chainData [] [] none none
      _ _ _ _ _ _ ⟨1, 0, 0⟩ ⟨0, 1, 0⟩ chain_sized rfl rfl rfl rfl rfl rfl (by norm_num)⟩

/-- C3. For a model with a single movable body of mass `m ≠ 0` and local centre of mass
`c` (first moment `m c`), attached to the root by the identity transform,
`CalcCenterOfMass` returns `mass = m` and `com = c`, whether or not `com_velocity` and
`angular_momentum` are requested (`none` or `some`): the same two outputs in all four
combinations. The scalars form a field. -/
theorem CalcCenterOfMass_single_body
    (UpdateKinematicsCustom : Model K → ModelDatad K → List K → List K → ModelDatad K)
    (model : Model K) (model_data : ModelDatad K) (q qdot : List K)
    (I0 I1 : SpatialRigidBodyInertiad K) (X0 : SpatialTransformd K) (m : K) (c : Vector3d K)
    (hs : Sized model model_data) (hl1 : model.lambda[1]? = some 0)
    (hI : model_data.I = [I0, I1])
    (hX : model_data.X_lambda = [X0, ⟨Matrix3d.Identity, Vector3d.zero⟩])
    (hm : I1.m = m) (hc : I1.h = Vector3d.smul m c) (hm0 : m ≠ 0) :
    ∀ com_velocity angular_momentum : Option (Vector3d K),
      ∃ out, CalcCenterOfMass UpdateKinematicsCustom model model_data q qdot com_velocity
          angular_momentum false = .ok out ∧ out.mass = m ∧ out.com = c := by
  intro com_velocity angular_momentum
  obtain ⟨_, hIN, hIc, hhc, hv, _⟩ := hs
  have hN : model.mBodies.length = 2 := by rw [← hIN, hI]; rfl
  rw [hN] at hIc hhc hv
  obtain ⟨md1, h1, e1, e2, e3, e4, e5, e6, e7, e8⟩ :=
    forUp_initBody 1 1 model_data (by simp [hI]) (by omega) (by omega) (by omega)
  have hIc1 : md1.Ic[1]? = some I1 := by rw [e7 1 (by omega) (by omega), hI]; rfl
  have hX1 : md1.X_lambda[1]? = some ⟨Matrix3d.Identity, Vector3d.zero⟩ := by
    rw [e3, hX]; rfl
  have hh1 : 1 < md1.hc.length := by omega
  have s1 := sumBody_root model
    ⟨md1, SpatialRigidBodyInertiad.ofMatrix 0 ⟨0, 0, 0⟩ Matrix3d.zero, SpatialVectord.zero⟩
    1 hl1 hX1 hIc1 (List.getElem?_eq_getElem hh1)
  have h2 : ∃ t : Totals K,
      forDown (CalcCenterOfMass.sumBody model) (sizeMinusOne model.mBodies.length)
        ⟨md1, SpatialRigidBodyInertiad.ofMatrix 0 ⟨0, 0, 0⟩ Matrix3d.zero,
          SpatialVectord.zero⟩ = .ok t ∧
      t.Itot = (SpatialRigidBodyInertiad.ofMatrix (0 : K) ⟨0, 0, 0⟩ Matrix3d.zero).add
        ((⟨Matrix3d.Identity, Vector3d.zero⟩ : SpatialTransformd K).applyTranspose I1) := by
    rw [hN]
    show ∃ t : Totals K, forDown _ 1 _ = _ ∧ _
    simp only [forDown, s1]
    exact ⟨_, rfl, rfl⟩
  obtain ⟨t, h2, ht⟩ := h2
  refine ⟨_, CalcCenterOfMass_of_loops UpdateKinematicsCustom model model_data q qdot
    com_velocity angular_momentum (by rw [hN]; exact h1) h2, ?_, ?_⟩
  · show t.Itot.m = m
    rw [ht]
    simp [SpatialRigidBodyInertiad.add, SpatialTransformd.applyTranspose,
      SpatialRigidBodyInertiad.ofMatrix, hm]
  · show t.Itot.h.div t.Itot.m = c
    rw [ht]
    simp only [SpatialRigidBodyInertiad.add, SpatialTransformd.applyTranspose,
      SpatialRigidBodyInertiad.ofMatrix, Vector3d.add, Vector3d.smul, Vector3d.div,
      Vector3d.zero, Matrix3d.mulVec, Matrix3d.transpose, Matrix3d.Identity, hc, hm]
    ext <;> · simp only []; field_simp

/-- Witness of C3: the single body of the examples, mass 4 and centre of mass (1, 2, 3). -/
theorem CalcCenterOfMass_single_body_witness :
    Sized singleModel singleData ∧ singleModel.lambda[1]? = some 0 ∧ (4 : ℚ) ≠ 0 ∧
    ∀ com_velocity angular_momentum : Option (Vector3d ℚ),
      ∃ out, CalcCenterOfMass noUpdate singleModel singleData [] [] com_velocity
          angular_momentum false = .ok out ∧ out.mass = 4 ∧ out.com = ⟨1, 2, 3⟩ :=
  ⟨single_sized, rfl, by norm_num,
    CalcCenterOfMass_single_body noUpdate singleModel singleData [] [] _ _ _ 4 ⟨1, 2, 3⟩
      single_sized rfl rfl rfl rfl rfl (by norm_num)⟩

end Chains
end Utils
end RigidBodyDynamics

namespace RigidBodyDynamics
namespace Utils
open Math Examples

/-- Counterexample to C4: on the tree that holds the root body only (no movable body,
total mass 0) `CalcCenterOfMass` raises no condition. It returns normally with
`mass = 0`, and `com`, `com_velocity` and `angular_momentum` are what the division by
that zero mass yields. -/
theorem CalcCenterOfMass_zero_mass_counterexample :
    (CalcCenterOfMass noUpdate (rootModel Dbl) (rootData Dbl) [] []
        (some ⟨0, 0, 0⟩) (some ⟨0, 0, 0⟩) false).map
      (fun out => (out.mass, out.com, out.com_velocity, out.angular_momentum)) =
    .ok (Dbl.fin 0, ⟨.nonfin, .nonfin, .nonfin⟩, some ⟨.nonfin, .nonfin, .nonfin⟩,
      some ⟨.nonfin, .nonfin, .nonfin⟩) := rfl

section ZeroMass

variable {K : Type} [CommRing K] [Div K]

/-- C4, amended. On a tree whose total mass is zero (the masses of `I[1..N-1]` sum to 0:
all are 0, or there is no movable body) `CalcCenterOfMass` has no degenerate-mass
condition: both loops run to their end with totals `t`, the call returns normally with
`mass = 0`, `com` is the first moment `t.Itot.h` divided by that zero mass, and
`com_velocity`, when requested, is the linear momentum divided by it. The scalars form
a commutative ring; the division is arbitrary. -/
theorem CalcCenterOfMass_zero_mass
    (UpdateKinematicsCustom : Model K → ModelDatad K → List K → List K → ModelDatad K)
    (model : Model K) (model_data : ModelDatad K) (q qdot : List K)
    (com_velocity angular_momentum : Option (Vector3d K))
    (hs : Sized model model_data) (hlam : ParentsFirst model)
    (hzero : ((model_data.I.drop 1).map fun I => I.m).sum = 0) :
    ∃ md1 t out,
      forUp CalcCenterOfMass.initBody (model.mBodies.length - 1) 1 model_data = .ok md1 ∧
      forDown (CalcCenterOfMass.sumBody model) (sizeMinusOne model.mBodies.length)
        ⟨md1, SpatialRigidBodyInertiad.ofMatrix 0 ⟨0, 0, 0⟩ Matrix3d.zero,
          SpatialVectord.zero⟩ = .ok t ∧
      CalcCenterOfMass UpdateKinematicsCustom model model_data q qdot com_velocity
        angular_momentum false = .ok out ∧
      out.mass = 0 ∧
      out.com = ⟨t.Itot.h.x / 0, t.Itot.h.y / 0, t.Itot.h.z / 0⟩ ∧
      out.com_velocity =
        com_velocity.map fun _ => ⟨t.htot.v3 / 0, t.htot.v4 / 0, t.htot.v5 / 0⟩ := by
  obtain ⟨md1, t, h1, h2, h3⟩ := CalcCenterOfMass_loops model model_data hs hlam
  have hm : t.Itot.m = 0 := h3.trans hzero
  refine ⟨md1, t, _, h1, h2, CalcCenterOfMass_of_loops UpdateKinematicsCustom model
    model_data q qdot com_velocity angular_momentum h1 h2, hm, ?_, ?_⟩
  · simp only [CalcCenterOfMass.outputs, Vector3d.div, hm]
  · simp only [CalcCenterOfMass.outputs, hm]

end ZeroMass

/-- Witness of C4, amended: the tree that holds the root body only, rational scalars. -/
theorem CalcCenterOfMass_zero_mass_witness :
    Sized (rootModel ℚ) (rootData ℚ) ∧ ParentsFirst (rootModel ℚ) ∧
    ∃ out, CalcCenterOfMass noUpdate (rootModel ℚ) (rootData ℚ) [] [] none none false =
      .ok out ∧ out.mass = 0 := by
  have hs : Sized (rootModel ℚ) (rootData ℚ) := by decide
  have hp : ParentsFirst (rootModel ℚ) := by decide
  obtain ⟨_, _, out, _, _, h, hm, _⟩ :=
    CalcCenterOfMass_zero_mass noUpdate (rootModel ℚ) (rootData ℚ) [] [] none none hs hp rfl
  exact ⟨hs, hp, out, h, hm⟩

end Utils
end RigidBodyDynamics

section Packing

open RigidBodyDynamics RigidBodyDynamics.Math

variable {K : Type}

theorem assignSegment_cons_succ (a : K) (src : List K) :
    ∀ (state : List K) (start : Nat),
      assignSegment (a :: state) (start + 1) src = a :: assignSegment state start src := by
  induction src with
  | nil => intro state start; rfl
  | cons x xs ih =>
    intro state start
    simp only [assignSegment, List.set_cons_succ]
    exact ih (state.set start x) (start + 1)

theorem assignSegment_zero (src : List K) :
    ∀ state : List K, src.length ≤ state.length →
      assignSegment state 0 src = src ++ state.drop src.length := by
  induction src with
  | nil => intro state _; rfl
  | cons x xs ih =>
    intro state h
    cases state with
    | nil => simp at h
    | cons b rest =>
      simp only [assignSegment, List.set_cons_zero, Nat.zero_add]
      rw [assignSegment_cons_succ, ih rest (by simpa using h)]
      simp

theorem set_last_drop (rest : List K) (n : Nat) (w : K) (h : rest.length = n + 1) :
    (rest.set n w).drop n = [w] := by
  induction n generalizing rest with
  | zero =>
    cases rest with
    | nil => simp at h
    | cons b tl =>
      have : tl = [] := by simpa using h
      subst this
      rfl
  | succ n ih =>
    cases rest with
    | nil => simp at h
    | cons b tl =>
      simp only [List.set_cons_succ, List.drop_succ_cons]
      exact ih tl (by simpa using h)

/-- The six fixed slots of a vector of length `n + 6 + k`. -/
theorem six_slots (state : List K) (m : Nat) (h : state.length = m + 6) :
    ∃ a0 a1 a2 a3 a4 a5 rest, state = a0 :: a1 :: a2 :: a3 :: a4 :: a5 :: rest ∧
      rest.length = m := by
  match state, h with
  | a0 :: a1 :: a2 :: a3 :: a4 :: a5 :: rest, h =>
    exact ⟨a0, a1, a2, a3, a4, a5, rest, rfl, by simpa using h⟩

/-- C5. Lossless packing: on an output vector of length `n + 7`, `n` the length of the
joint vector (`n = 0` included), `createGeneralizedVector` returns normally and the
output is the position in slots 0..2, the quaternion `x, y, z` in slots 3..5, the joint
values in slots `6..n+5` and the quaternion `w` in slot `n + 6`; reading the three
segments and the last slot back gives the inputs. -/
theorem createGeneralizedVector_lossless (p : Vector3d K) (o : Quaterniond K)
    (j state : List K) (h : state.length = j.length + 7) :
    createGeneralizedVector p o j state =
        (.ok (), [p.x, p.y, p.z, o.x, o.y, o.z] ++ j ++ [o.w]) ∧
    ((createGeneralizedVector p o j state).2.take 3 = [p.x, p.y, p.z] ∧
     ((createGeneralizedVector p o j state).2.drop 3).take 3 = [o.x, o.y, o.z] ∧
     ((createGeneralizedVector p o j state).2.drop 6).take j.length = j ∧
     (createGeneralizedVector p o j state).2[j.length + 6]? = some o.w) := by
  have key : createGeneralizedVector p o j state =
      (.ok (), [p.x, p.y, p.z, o.x, o.y, o.z] ++ j ++ [o.w]) := by
    obtain ⟨a0, a1, a2, a3, a4, a5, rest, rfl, hr⟩ := six_slots state (j.length + 1) h
    simp only [createGeneralizedVector, h, ne_eq, not_true_eq_false, if_false]
    have hlen : (a0 :: a1 :: a2 :: a3 :: a4 :: a5 :: rest).length - 1 = j.length + 6 := by
      simp [hr]
    simp only [assignSegment, List.set_cons_zero, List.set_cons_succ, List.length_cons,
      List.length_set]
    simp only [List.length_cons] at hlen
    rw [hlen]
    simp only [List.set_cons_succ, assignSegment_cons_succ]
    rw [assignSegment_zero j _ (by simp [hr]), set_last_drop rest j.length o.w hr]
    simp
  rw [key]
  refine ⟨rfl, rfl, rfl, ?_, ?_⟩
  · simp
  · simp [List.getElem?_append_right]

/-- Witness of C5: a floating base with no joint (`n = 0`), output vector of length 7. -/
theorem createGeneralizedVector_lossless_witness :
    [(0 : ℚ), 0, 0, 0, 0, 0, 0].length = ([] : List ℚ).length + 7 ∧
    createGeneralizedVector (⟨1, 2, 3⟩ : Vector3d ℚ) ⟨4, 5, 6, 7⟩ [] [0, 0, 0, 0, 0, 0, 0] =
      (.ok (), [1, 2, 3, 4, 5, 6, 7]) :=
  ⟨rfl, (createGeneralizedVector_lossless ⟨1, 2, 3⟩ ⟨4, 5, 6, 7⟩ [] [0, 0, 0, 0, 0, 0, 0]
    rfl).1⟩

/-- C6. `createGeneralizedVector` fails with the size-mismatch error exactly when the
length of the output vector differs from the length of `jointStates` plus 7; it fails in
no other way, and when it fails the output vector is as it was before the call. -/
theorem createGeneralizedVector_mismatch (p : Vector3d K) (o : Quaterniond K)
    (j state : List K) :
    ((createGeneralizedVector p o j state).1 =
        .error (.runtimeError "Missmatch between vectors creating generalized vector") ↔
      state.length ≠ j.length + 7) ∧
    (∀ e, (createGeneralizedVector p o j state).1 = .error e →
      e = .runtimeError "Missmatch between vectors creating generalized vector" ∧
      (createGeneralizedVector p o j state).2 = state) := by
  by_cases h : state.length = j.length + 7
  · simp [createGeneralizedVector, h]
  · simp only [createGeneralizedVector, ne_eq, h, not_false_eq_true, if_true, true_and]
    intro e he
    injection he with he
    exact ⟨he.symm, trivial⟩

/-- Slots written by the velocity and acceleration packers. -/
theorem assign_lin_ang (a b : Vector3d K) (j state : List K)
    (h : state.length = j.length + 6) :
    assignSegment (assignSegment (assignSegment state 0 [a.x, a.y, a.z]) 3 [b.x, b.y, b.z])
      6 j = [a.x, a.y, a.z, b.x, b.y, b.z] ++ j := by
  obtain ⟨a0, a1, a2, a3, a4, a5, rest, rfl, hr⟩ := six_slots state j.length h
  simp only [assignSegment, List.set_cons_zero, List.set_cons_succ, assignSegment_cons_succ]
  rw [assignSegment_zero j _ (by simp [hr]), ← hr]
  simp

/-- C7. `createGeneralizedVelocityVector` and `createGeneralizedAccelerationVector` each
fail with the size-mismatch error exactly when the length of the output vector differs
from the length `n` of the joint vector plus 6, they fail in no other way and a failed
call leaves the output as it was; otherwise the output is the linear part in slots 0..2,
the angular part in slots 3..5 and the joint rates in slots `6..n+5`; and both functions
give the same result on the same inputs. -/
theorem createGeneralizedVelocityVector_spec (lin ang : Vector3d K) (j state : List K) :
    ((createGeneralizedVelocityVector lin ang j state).1 =
        .error (.runtimeError "Missmatch between vectors creating generalized vector") ↔
      state.length ≠ j.length + 6) ∧
    (∀ e, (createGeneralizedVelocityVector lin ang j state).1 = .error e →
      e = .runtimeError "Missmatch between vectors creating generalized vector" ∧
      (createGeneralizedVelocityVector lin ang j state).2 = state) ∧
    (state.length = j.length + 6 →
      createGeneralizedVelocityVector lin ang j state =
        (.ok (), [lin.x, lin.y, lin.z, ang.x, ang.y, ang.z] ++ j)) ∧
    createGeneralizedAccelerationVector lin ang j state =
      createGeneralizedVelocityVector lin ang j state := by
  refine ⟨?_, ?_, ?_, rfl⟩
  · by_cases h : state.length = j.length + 6
    · simp [createGeneralizedVelocityVector, h]
    · simp [createGeneralizedVelocityVector, h]
  · by_cases h : state.length = j.length + 6
    · simp [createGeneralizedVelocityVector, h]
    · simp only [createGeneralizedVelocityVector, ne_eq, h, not_false_eq_true, if_true]
      intro e he
      injection he with he
      exact ⟨he.symm, trivial⟩
  · intro h
    simp only [createGeneralizedVelocityVector, h, ne_eq, not_true_eq_false, if_false]
    rw [assign_lin_ang lin ang j state h]

/-- Witness of C7: two joints, an output vector of length 8; and a vector of length 2,
which is refused and left as it was. -/
theorem createGeneralizedVelocityVector_spec_witness :
    createGeneralizedVelocityVector (⟨1, 2, 3⟩ : Vector3d ℚ) ⟨4, 5, 6⟩ [7, 8]
        [0, 0, 0, 0, 0, 0, 0, 0] = (.ok (), [1, 2, 3, 4, 5, 6, 7, 8]) ∧
    createGeneralizedVelocityVector (⟨1, 2, 3⟩ : Vector3d ℚ) ⟨4, 5, 6⟩ [7, 8] [9, 9] =
      (.error (.runtimeError "Missmatch between vectors creating generalized vector"),
        [9, 9]) :=
  ⟨(createGeneralizedVelocityVector_spec ⟨1, 2, 3⟩ ⟨4, 5, 6⟩ [7, 8]
      [0, 0, 0, 0, 0, 0, 0, 0]).2.2.1 rfl, rfl⟩

/-- Witness of C6: an output vector of length 2 for one joint is refused and left as it
was. -/
theorem createGeneralizedVector_mismatch_witness :
    createGeneralizedVector (⟨1, 2, 3⟩ : Vector3d ℚ) ⟨4, 5, 6, 7⟩ [8] [9, 9] =
      (.error (.runtimeError "Missmatch between vectors creating generalized vector"),
        [9, 9]) := by
  have h := createGeneralizedVector_mismatch (⟨1, 2, 3⟩ : Vector3d ℚ) ⟨4, 5, 6, 7⟩ [8] [9, 9]
  have h1 := h.1.2 (by decide)
  have h2 := (h.2 _ h1).2
  exact Prod.ext h1 h2

end Packing

namespace RigidBodyDynamics
namespace Utils
open Math Examples

section DofNames

variable {K : Type} [Zero K] [One K] [DecidableEq K]

/-- A string that starts with "custom (" is none of the six labels. -/
theorem custom_not_label (s : String) : "custom (" ++ s ++ ")" ∉ canonicalLabels := by
  have hc : ∀ t : String, ("custom (" ++ s ++ ")").data = t.data →
      t.data.head? = some 'c' := by
    intro t ht
    rw [← ht]
    simp [String.data_append]
  intro hmem
  simp only [canonicalLabels, List.mem_cons, List.mem_singleton, List.not_mem_nil,
    or_false] at hmem
  rcases hmem with h | h | h | h | h | h <;>
  · have := hc _ (congrArg String.data h)
    revert this
    decide

/-- An axis that is none of the six canonical ones gets the custom text. -/
theorem get_dof_name_custom (render : K → String) (a : SpatialVectord K)
    (h : a ∉ canonicalAxes) :
    get_dof_name render a = "custom (" ++ streamRow render a ++ ")" := by
  simp only [canonicalAxes, List.mem_cons, List.mem_singleton, List.not_mem_nil, or_false,
    not_or] at h
  obtain ⟨h0, h1, h2, h3, h4, h5⟩ := h
  simp [get_dof_name, h0, h1, h2, h3, h4, h5]

/-- C8. With `0 ≠ 1` in the scalars, `get_dof_name` maps the one-hot axes of index
0, 1, 2, 3, 4, 5 to "RX", "RY", "RZ", "TX", "TY", "TZ" in this order, the six labels are
pairwise distinct, and an axis that is none of the six is mapped to none of the six
labels: the map is a bijection from the canonical axes onto the labels. -/
theorem get_dof_name_bijection (render : K → String) (h01 : (0 : K) ≠ 1) :
    (canonicalAxes.map (get_dof_name render) = canonicalLabels) ∧
    canonicalLabels.Nodup ∧
    (∀ a : SpatialVectord K, a ∉ canonicalAxes → get_dof_name render a ∉ canonicalLabels) ∧
    (∀ a : SpatialVectord K, a ∈ canonicalAxes → ∀ b : SpatialVectord K,
      get_dof_name render b = get_dof_name render a → b = a) := by
  have h10 : (1 : K) ≠ 0 := fun e => h01 e.symm
  have hmap : (canonicalAxes.map (get_dof_name render) = canonicalLabels) := by
    simp [canonicalAxes, canonicalLabels, get_dof_name, h01, h10]
  have hnd : canonicalLabels.Nodup := by decide
  have hout : ∀ a : SpatialVectord K, a ∉ canonicalAxes →
      get_dof_name render a ∉ canonicalLabels := by
    intro a ha
    rw [get_dof_name_custom render a ha]
    exact custom_not_label _
  refine ⟨hmap, hnd, hout, ?_⟩
  intro a ha b hb
  by_cases hbc : b ∈ canonicalAxes
  · simp only [canonicalAxes, List.map_cons, List.map_nil, canonicalLabels, List.cons.injEq,
      and_true] at hmap
    obtain ⟨e0, e1, e2, e3, e4, e5⟩ := hmap
    simp only [canonicalAxes, List.mem_cons, List.mem_singleton, List.not_mem_nil,
      or_false] at ha hbc
    rcases ha with rfl | rfl | rfl | rfl | rfl | rfl <;>
    rcases hbc with rfl | rfl | rfl | rfl | rfl | rfl <;>
    first
    | rfl
    | (exfalso; simp [e0, e1, e2, e3, e4, e5] at hb)
  · exfalso
    apply hout b hbc
    rw [hb, ← hmap]
    exact List.mem_map_of_mem _ ha

/-- Witness of C8 on the rationals, numbers rendered by `toString`. -/
theorem get_dof_name_bijection_witness :
    (0 : ℚ) ≠ 1 ∧
    get_dof_name (fun x : ℚ => toString x) ⟨0, 0, 0, 0, 1, 0⟩ = "TY" ∧
    get_dof_name (fun x : ℚ => toString x) ⟨0, 0, 0, 0, 2, 0⟩ ∉ canonicalLabels := by
  have h := get_dof_name_bijection (fun x : ℚ => toString x) (by norm_num)
  refine ⟨by norm_num, ?_, ?_⟩
  · have h1 := h.1
    simp only [canonicalAxes, List.map_cons, List.map_nil, canonicalLabels, List.cons.injEq,
      and_true] at h1
    exact h1.2.2.2.2.1
  · apply h.2.2.1
    simp only [canonicalAxes, List.mem_cons, List.mem_singleton, List.not_mem_nil, or_false,
      SpatialVectord.mk.injEq]
    norm_num

/-- Counterexample to C9: the custom text of the zero axis, integers rendered by
`toString`, is "custom (0 0 0 0 0 0)", with a space after "custom"; it is not "custom("
followed by the six components and ")". -/
theorem get_dof_name_custom_counterexample :
    get_dof_name (fun x : Int => toString x) ⟨0, 0, 0, 0, 0, 0⟩ = "custom (0 0 0 0 0 0)" ∧
    get_dof_name (fun x : Int => toString x) ⟨0, 0, 0, 0, 0, 0⟩ ≠
      "custom(" ++ streamRow (fun x : Int => toString x) ⟨0, 0, 0, 0, 0, 0⟩ ++ ")" := by
  decide

/-- C9, amended. For every axis `a` that is none of the six canonical one-hot axes,
`get_dof_name a` is the string "custom (" (a space stands between "custom" and the
parenthesis) followed by the six components `a[0], ..., a[5]` in order, separated by
single blanks, followed by ")". Each component is padded on the left with blanks to the
width `w` of the widest of the six texts; when the six texts have the same width the
components stand unpadded, one blank between them. The text of a single number is given
by `render`. -/
theorem get_dof_name_custom_text (render : K → String) (a : SpatialVectord K)
    (h : a ∉ canonicalAxes) :
    ∃ w : Nat,
      (∀ x ∈ [a.v0, a.v1, a.v2, a.v3, a.v4, a.v5], (render x).length ≤ w) ∧
      (∃ x ∈ [a.v0, a.v1, a.v2, a.v3, a.v4, a.v5], (render x).length = w) ∧
      get_dof_name render a =
        "custom (" ++
          ((String.mk (List.replicate (w - (render a.v0).length) ' ') ++ render a.v0) ++ " " ++
            (String.mk (List.replicate (w - (render a.v1).length) ' ') ++ render a.v1) ++ " " ++
            (String.mk (List.replicate (w - (render a.v2).length) ' ') ++ render a.v2) ++ " " ++
            (String.mk (List.replicate (w - (render a.v3).length) ' ') ++ render a.v3) ++ " " ++
            (String.mk (List.replicate (w - (render a.v4).length) ' ') ++ render a.v4) ++ " " ++
            (String.mk (List.replicate (w - (render a.v5).length) ' ') ++ render a.v5)) ++
          ")" ∧
      ((∀ x ∈ [a.v0, a.v1, a.v2, a.v3, a.v4, a.v5], (render x).length = w) →
        get_dof_name render a =
          "custom (" ++ (render a.v0 ++ " " ++ render a.v1 ++ " " ++ render a.v2 ++ " " ++
            render a.v3 ++ " " ++ render a.v4 ++ " " ++ render a.v5) ++ ")") := by
  have hpad : ∀ t : String, String.mk (List.replicate 0 ' ') ++ t = t := by
    intro t
    apply String.ext
    simp [String.data_append]
  have htext := get_dof_name_custom render a h
  refine ⟨[a.v0, a.v1, a.v2, a.v3, a.v4, a.v5].foldl
    (fun width x => max width (render x).length) 0, ?_, ?_, htext, ?_⟩
  · intro x hx
    simp only [List.mem_cons, List.mem_singleton, List.not_mem_nil, or_false] at hx
    simp only [List.foldl_cons, List.foldl_nil]
    rcases hx with rfl | rfl | rfl | rfl | rfl | rfl <;> omega
  · simp only [List.foldl_cons, List.foldl_nil, List.mem_cons, List.mem_singleton,
      List.not_mem_nil, or_false, exists_eq_or_imp, exists_eq_left]
    omega
  · intro heq
    rw [htext]
    have hw : ∀ x ∈ [a.v0, a.v1, a.v2, a.v3, a.v4, a.v5],
        [a.v0, a.v1, a.v2, a.v3, a.v4, a.v5].foldl
          (fun width x => max width (render x).length) 0 - (render x).length = 0 := by
      intro x hx
      rw [heq x hx]
      exact Nat.sub_self _
    simp only [streamRow, setw, hw a.v0 (by simp), hw a.v1 (by simp), hw a.v2 (by simp),
      hw a.v3 (by simp), hw a.v4 (by simp), hw a.v5 (by simp), hpad]

/-- Witness of C9, amended: an axis with two non-zero components, integers rendered by
`toString`; the widest text is "-1", so every component takes two characters. -/
theorem get_dof_name_custom_text_witness :
    (⟨0, 1, 0, 0, 0, -1⟩ : SpatialVectord Int) ∉ canonicalAxes ∧
    get_dof_name (fun x : Int => toString x) ⟨0, 1, 0, 0, 0, -1⟩ =
      "custom ( 0  1  0  0  0 -1)" := by
  obtain ⟨w, hle, ⟨x, hx, hxw⟩, htext, _⟩ :=
    get_dof_name_custom_text (fun x : Int => toString x) ⟨0, 1, 0, 0, 0, -1⟩ (by decide)
  have h2 : (toString (-1 : Int)).length ≤ w := hle (-1) (by simp)
  have h2v : (toString (-1 : Int)).length = 2 := by decide
  have h1v : (toString (0 : Int)).length = 1 := by decide
  have h1w : (toString (1 : Int)).length = 1 := by decide
  have hw : w = 2 := by
    simp only [List.mem_cons, List.mem_singleton, List.not_mem_nil, or_false] at hx
    rcases hx with rfl | rfl | rfl | rfl | rfl | rfl <;> omega
  subst hw
  exact ⟨by decide, htext.trans (by decide)⟩

end DofNames
end Utils
end RigidBodyDynamics

namespace RigidBodyDynamics
namespace Utils
open Math Examples

section BodyNames

variable {K : Type}

/-- A body that is not virtual resolves to its stored name. -/
theorem get_body_name_real (model : Model K) (fuel body_id : Nat) (body : Body)
    (hb : model.mBodies[body_id]? = some body) (hv : body.mIsVirtual = false) :
    get_body_name model (fuel + 1) body_id = .ok (model.GetBodyName body_id) := by
  simp [get_body_name, idx, hb, hv, bind, Except.bind, pure, Except.pure]

/-- A virtual body without a unique child resolves to the empty name. -/
theorem get_body_name_ambiguous (model : Model K) (fuel body_id : Nat) (body : Body)
    (children : List Nat) (hb : model.mBodies[body_id]? = some body)
    (hv : body.mIsVirtual = true) (hc : model.mu[body_id]? = some children)
    (hn : children.length ≠ 1) :
    get_body_name model (fuel + 1) body_id = .ok "" := by
  simp [get_body_name, idx, hb, hv, hc, hn, bind, Except.bind, pure, Except.pure]

/-- A virtual body with exactly one child resolves to what the child resolves to. -/
theorem get_body_name_child (model : Model K) (fuel body_id child : Nat) (body : Body)
    (hb : model.mBodies[body_id]? = some body) (hv : body.mIsVirtual = true)
    (hc : model.mu[body_id]? = some [child]) :
    get_body_name model (fuel + 1) body_id = get_body_name model fuel child := by
  simp [get_body_name, idx, hb, hv, hc, bind, Except.bind]

/-- The head of a single-child chain of virtual bodies resolves to the name of the real
body the chain ends in, given fuel for every link. -/
theorem get_body_name_chain_head (model : Model K) (b : Nat) (body : Body)
    (hb : model.mBodies[b]? = some body) (hv : body.mIsVirtual = false) :
    ∀ (chain : List Nat), SingleChildChain model chain b →
      ∀ fuel, chain.length < fuel →
        get_body_name model fuel (chain.headD b) = .ok (model.GetBodyName b) := by
  intro chain
  induction chain with
  | nil =>
    intro _ fuel hf
    obtain ⟨f, rfl⟩ : ∃ f, fuel = f + 1 := ⟨fuel - 1, by simp at hf; omega⟩
    exact get_body_name_real model f b body hb hv
  | cons v rest ih =>
    intro hch fuel hf
    obtain ⟨hvirt, hmu, hrest⟩ := hch
    obtain ⟨vb, hvb, hvv⟩ : ∃ body, model.mBodies[v]? = some body ∧ body.mIsVirtual = true := by
      cases hv : model.mBodies[v]? with
      | none => simp [hv] at hvirt
      | some body => exact ⟨body, rfl, by simpa [hv] using hvirt⟩
    obtain ⟨f, rfl⟩ : ∃ f, fuel = f + 1 := ⟨fuel - 1, by simp at hf; omega⟩
    simp only [List.headD_cons]
    rw [get_body_name_child model f v _ vb hvb hvv hmu]
    exact ih hrest f (by simp at hf; omega)

/-- C10. With fuel for one call, `get_body_name` returns the stored name of a body that
is not virtual, and the empty string for a virtual body with no child or with more than
one; for a virtual body with exactly one child it returns what `get_body_name` returns
for that child. Hence, for a chain of single-child virtual bodies that ends in a
non-virtual body `b`, every body of the chain, and `b`, resolves to the stored name of
`b` as soon as the fuel exceeds the length of the chain. -/
theorem get_body_name_spec (model : Model K) :
    (∀ fuel body_id body, model.mBodies[body_id]? = some body → body.mIsVirtual = false →
      get_body_name model (fuel + 1) body_id = .ok (model.GetBodyName body_id)) ∧
    (∀ fuel body_id body children, model.mBodies[body_id]? = some body →
      body.mIsVirtual = true → model.mu[body_id]? = some children → children.length ≠ 1 →
      get_body_name model (fuel + 1) body_id = .ok "") ∧
    (∀ fuel body_id body child, model.mBodies[body_id]? = some body →
      body.mIsVirtual = true → model.mu[body_id]? = some [child] →
      get_body_name model (fuel + 1) body_id = get_body_name model fuel child) ∧
    (∀ chain b body, SingleChildChain model chain b → model.mBodies[b]? = some body →
      body.mIsVirtual = false →
      ∀ v ∈ chain ++ [b], ∀ fuel, chain.length < fuel →
        get_body_name model fuel v = .ok (model.GetBodyName b)) := by
  refine ⟨get_body_name_real model, get_body_name_ambiguous model, ?_, ?_⟩
  · intro fuel body_id body child hb hv hc
    exact get_body_name_child model fuel body_id child body hb hv hc
  · intro chain b body hch hb hv
    induction chain with
    | nil =>
      intro v hmem fuel hf
      simp only [List.nil_append, List.mem_singleton] at hmem
      subst hmem
      exact get_body_name_chain_head model v body hb hv [] trivial fuel hf
    | cons w rest ih =>
      intro v hmem fuel hf
      simp only [List.cons_append, List.mem_cons] at hmem
      rcases hmem with rfl | hmem
      · exact get_body_name_chain_head model b body hb hv (v :: rest) hch fuel hf
      · exact ih hch.2.2 v hmem fuel (by simp at hf; omega)

/-- Witness of C10: in the tree of the examples the virtual bodies 1 and 2 and the real
body 3 all resolve to "pelvis"; the virtual body 4 with two children and the childless
virtual body 7 resolve to the empty name. -/
theorem get_body_name_spec_witness :
    SingleChildChain virtualModel [1, 2] 3 ∧
    get_body_name virtualModel 3 1 = .ok "pelvis" ∧
    get_body_name virtualModel 3 2 = .ok "pelvis" ∧
    get_body_name virtualModel 3 3 = .ok "pelvis" ∧
    get_body_name virtualModel 1 4 = .ok "" ∧
    get_body_name virtualModel 1 7 = .ok "" := by
  have hch : SingleChildChain virtualModel [1, 2] 3 := by decide
  have h := (get_body_name_spec virtualModel).2.2.2 [1, 2] 3 ⟨false⟩ hch rfl rfl
  have h4 := (get_body_name_spec virtualModel).2.1 0 4 ⟨true⟩ [5, 6] rfl rfl rfl (by decide)
  have h7 := (get_body_name_spec virtualModel).2.1 0 7 ⟨true⟩ [] rfl rfl rfl (by decide)
  exact ⟨hch, h 1 (by simp) 3 (by decide), h 2 (by simp) 3 (by decide),
    h 3 (by simp) 3 (by decide), h4, h7⟩

end BodyNames
end Utils
end RigidBodyDynamics

namespace RigidBodyDynamics
namespace Utils
open Math Examples

section Energies

variable {K : Type} [CommRing K] [Div K]

/-- The loop of `CalcKineticEnergy` adds the energy terms of the bodies it visits. -/
theorem forUp_kinetic [OfScientific K] (md : ModelDatad K) (n : Nat) :
    ∀ (i : Nat) (acc : K), i + n ≤ md.v.length → i + n ≤ md.I.length →
      forUp (CalcKineticEnergy.body md) n i acc =
        .ok (acc + ((((md.v.zip md.I).drop i).take n).map kineticTerm).sum) := by
  induction n with
  | zero => intro i acc _ _; simp [forUp]
  | succ n ih =>
    intro i acc hv hI
    have hiv : i < md.v.length := by omega
    have hiI : i < md.I.length := by omega
    have hz : i < (md.v.zip md.I).length := by simp; omega
    have hstep : CalcKineticEnergy.body md i acc =
        .ok (acc + kineticTerm (md.v[i], md.I[i])) := by
      simp [CalcKineticEnergy.body, idx, hiv, hiI, kineticTerm, bind, Except.bind, pure,
        Except.pure]
    simp only [forUp, hstep]
    rw [ih (i + 1) _ (by omega) (by omega), List.drop_eq_getElem_cons hz]
    simp [add_assoc]

/-- The energy term of a body at rest is zero. -/
theorem kineticTerm_zero [OfScientific K] (I : SpatialRigidBodyInertiad K) :
    kineticTerm (SpatialVectord.zero, I) = 0 := by
  simp [kineticTerm, SpatialVectord.smul, SpatialVectord.dot, SpatialVectord.zero,
    SpatialRigidBodyInertiad.mulVec, SpatialVectord.upper, SpatialVectord.lower,
    Matrix3d.mulVec, Vector3d.add, Vector3d.sub, Vector3d.smul, Vector3d.cross]

/-- On model data (after the kinematics update when it is requested) whose tables `v`
and `I` have one entry for each body, `CalcKineticEnergy` returns the sum over the
movable bodies of their energy terms. -/
theorem CalcKineticEnergy_sum [OfScientific K]
    (UpdateKinematicsCustom : Model K → ModelDatad K → List K → List K → ModelDatad K)
    (model : Model K) (model_data : ModelDatad K) (q qdot : List K)
    (update_kinematics : Bool)
    (hv : (if update_kinematics then UpdateKinematicsCustom model model_data q qdot
      else model_data).v.length = model.mBodies.length)
    (hI : (if update_kinematics then UpdateKinematicsCustom model model_data q qdot
      else model_data).I.length = model.mBodies.length) :
    CalcKineticEnergy UpdateKinematicsCustom model model_data q qdot update_kinematics =
      .ok ⟨if update_kinematics then UpdateKinematicsCustom model model_data q qdot
          else model_data,
        ((((if update_kinematics then UpdateKinematicsCustom model model_data q qdot
          else model_data).v.zip
          (if update_kinematics then UpdateKinematicsCustom model model_data q qdot
          else model_data).I).drop 1).map kineticTerm).sum⟩ := by
  generalize hmd : (if update_kinematics then UpdateKinematicsCustom model model_data q qdot
    else model_data) = md at hv hI
  have hloop : forUp (CalcKineticEnergy.body md) (model.mBodies.length - 1) 1 0 =
      .ok (0 + ((((md.v.zip md.I).drop 1).take (model.mBodies.length - 1)).map
        kineticTerm).sum) := by
    rcases Nat.eq_zero_or_pos model.mBodies.length with h0 | hpos
    · simp [h0, forUp]
    · exact forUp_kinetic md (model.mBodies.length - 1) 1 0 (by omega) (by omega)
  have htake : (((md.v.zip md.I).drop 1).take (model.mBodies.length - 1)) =
      (md.v.zip md.I).drop 1 := by
    apply List.take_of_length_le
    simp [hv, hI]
  rw [htake, zero_add] at hloop
  simp [CalcKineticEnergy, hmd, hloop, bind, Except.bind, pure, Except.pure]

/-- The energy terms of bodies at rest add up to zero, whatever the inertias. -/
theorem kineticTerm_sum_zero [OfScientific K] (md : ModelDatad K)
    (hz : ∀ u ∈ md.v.drop 1, u = SpatialVectord.zero) :
    (((md.v.zip md.I).drop 1).map kineticTerm).sum = 0 := by
  apply List.sum_eq_zero
  intro x hx
  obtain ⟨p, hp, rfl⟩ := List.mem_map.mp hx
  have hp1 : p.1 ∈ md.v.drop 1 := by
    have hp2 : p ∈ (md.v.drop 1).zip (md.I.drop 1) := by
      have hd : (md.v.zip md.I).drop 1 = (md.v.drop 1).zip (md.I.drop 1) := by
        simp only [List.zip, List.drop_zipWith]
      rw [← hd]; exact hp
    obtain ⟨a, b⟩ := p
    exact (List.of_mem_zip hp2).1
  have := hz p.1 hp1
  obtain ⟨v, I⟩ := p
  simp only at this
  subst this
  exact kineticTerm_zero I

/-- The kinematics update of the examples leaves the movable body at rest when the joint
velocities are all zero. -/
theorem hingeUpdate_zeroAtRest : ZeroAtRest hingeUpdate singleModel := by
  intro model_data q qdot hq u hu
  have h0 : qdot[0]?.getD 0 = 0 := by
    cases hq0 : qdot[0]? with
    | none => rfl
    | some x => exact hq x (List.getElem?_mem hq0)
  simp only [hingeUpdate, h0, List.drop_succ_cons, List.drop_zero, List.mem_singleton] at hu
  rw [hu]
  simp [SpatialVectord.smul, SpatialVectord.zero]

/-- Counterexample to C14: the single body of the examples with the stored velocity of a
unit turn about z. With `update_kinematics = false` the joint velocities are not read:
for `qdot = 0` the value is 1/2, not 0, although the kinematics update would leave the
body at rest. -/
theorem CalcKineticEnergy_stale_counterexample :
    ZeroAtRest hingeUpdate singleModel ∧ (∀ x ∈ ([0] : List ℚ), x = 0) ∧
    ∃ e, CalcKineticEnergy hingeUpdate singleModel singleData [0] [0] false = .ok e ∧
      e.value = 1 / 2 ∧ e.value ≠ 0 := by
  refine ⟨hingeUpdate_zeroAtRest, by simp, _,
    CalcKineticEnergy_sum hingeUpdate singleModel singleData [0] [0] false rfl rfl, ?_⟩
  have hval : ((((singleData.v.zip singleData.I).drop 1).map kineticTerm).sum : ℚ) =
      1 / 2 := by
    simp [singleData, kineticTerm, SpatialVectord.smul, SpatialVectord.dot,
      SpatialRigidBodyInertiad.mulVec, SpatialVectord.upper, SpatialVectord.lower,
      Matrix3d.mulVec, Vector3d.add, Vector3d.sub, Vector3d.smul, Vector3d.cross,
      SpatialRigidBodyInertiad.inertiaMatrix, zeroInertia]
    norm_num
  simp only [Bool.false_eq_true, if_false]
  exact ⟨hval, by rw [hval]; norm_num⟩

/-- C14, amended. On model data (after the kinematics update when it is requested) whose
tables `v` and `I` have one entry for each body, `CalcKineticEnergy` returns, and its
value is the sum over the movable bodies `1..N-1` of `0.5 * v[i]^T * (I[i] * v[i])`,
with the velocities held in the model data after the optional update. With
`update_kinematics = true` and all joint velocities in `qdot` zero the value is exactly
0, for any `q` and any inertias, taking as given that the kinematics update leaves the
bodies at rest for zero joint velocities. With `update_kinematics = false` the joint
velocities are not read: the value is the same for every `qdot`, it is computed from the
stored velocities, and it is 0 when those are zero. The scalars form a commutative ring;
the value of the literal `0.5` is arbitrary. -/
theorem CalcKineticEnergy_zero_qdot [OfScientific K]
    (UpdateKinematicsCustom : Model K → ModelDatad K → List K → List K → ModelDatad K)
    (model : Model K) (model_data : ModelDatad K) (q qdot : List K)
    (update_kinematics : Bool)
    (hv : (if update_kinematics then UpdateKinematicsCustom model model_data q qdot
      else model_data).v.length = model.mBodies.length)
    (hI : (if update_kinematics then UpdateKinematicsCustom model model_data q qdot
      else model_data).I.length = model.mBodies.length) :
    ∃ e, CalcKineticEnergy UpdateKinematicsCustom model model_data q qdot
        update_kinematics = .ok e ∧
      e.value = (((e.model_data.v.zip e.model_data.I).drop 1).map kineticTerm).sum ∧
      e.model_data = (if update_kinematics then
        UpdateKinematicsCustom model model_data q qdot else model_data) ∧
      (update_kinematics = true → ZeroAtRest UpdateKinematicsCustom model →
        (∀ x ∈ qdot, x = 0) → e.value = 0) ∧
      (update_kinematics = false →
        (∀ qdot2, CalcKineticEnergy UpdateKinematicsCustom model model_data q qdot2
          false = .ok e) ∧
        ((∀ u ∈ model_data.v.drop 1, u = SpatialVectord.zero) → e.value = 0)) := by
  refine ⟨_, CalcKineticEnergy_sum UpdateKinematicsCustom model model_data q qdot
    update_kinematics hv hI, rfl, rfl, ?_, ?_⟩
  · intro hup hU hq
    subst hup
    exact kineticTerm_sum_zero _ (hU model_data q qdot hq)
  · intro hup
    subst hup
    refine ⟨fun qdot2 => ?_, fun hz => kineticTerm_sum_zero _ hz⟩
    exact CalcKineticEnergy_sum UpdateKinematicsCustom model model_data q qdot2 false hv hI

/-- Witness of C14, amended: the single body of the examples, whose stored velocity is a
unit turn about z. With the kinematics update requested, zero joint velocity gives the
kinetic energy 0 and unit joint velocity gives 1/2. -/
theorem CalcKineticEnergy_zero_qdot_witness :
    ZeroAtRest hingeUpdate singleModel ∧
    (∃ e, CalcKineticEnergy hingeUpdate singleModel singleData [0] [0] true = .ok e ∧
      e.value = 0) ∧
    (∃ e, CalcKineticEnergy hingeUpdate singleModel singleData [0] [1] true = .ok e ∧
      e.value = 1 / 2) := by
  refine ⟨hingeUpdate_zeroAtRest, ?_, ?_⟩
  · obtain ⟨e, he, _, _, hz, _⟩ :=
      CalcKineticEnergy_zero_qdot hingeUpdate singleModel singleData [0] [0] true rfl rfl
    exact ⟨e, he, hz rfl hingeUpdate_zeroAtRest (by simp)⟩
  · obtain ⟨e, he, hval, hd, _⟩ :=
      CalcKineticEnergy_zero_qdot hingeUpdate singleModel singleData [0] [1] true rfl rfl
    refine ⟨e, he, ?_⟩
    rw [hval, hd]
    simp [hingeUpdate, singleData, kineticTerm, SpatialVectord.smul, SpatialVectord.dot,
      SpatialRigidBodyInertiad.mulVec, SpatialVectord.upper, SpatialVectord.lower,
      Matrix3d.mulVec, Vector3d.add, Vector3d.sub, Vector3d.smul, Vector3d.cross,
      SpatialRigidBodyInertiad.inertiaMatrix, zeroInertia]
    norm_num

/-- The centre of mass does not read the gravity vector. -/
theorem CalcCenterOfMass_gravity
    (UpdateKinematicsCustom : Model K → ModelDatad K → List K → List K → ModelDatad K)
    (model : Model K) (model_data : ModelDatad K) (q qdot : List K)
    (com_velocity angular_momentum : Option (Vector3d K)) (update_kinematics : Bool)
    (g : Vector3d K)
    (hU : update_kinematics = true →
      UpdateKinematicsCustom { model with gravity := g } model_data q qdot =
        UpdateKinematicsCustom model model_data q qdot) :
    CalcCenterOfMass UpdateKinematicsCustom { model with gravity := g } model_data q qdot
        com_velocity angular_momentum update_kinematics =
      CalcCenterOfMass UpdateKinematicsCustom model model_data q qdot
        com_velocity angular_momentum update_kinematics := by
  cases update_kinematics with
  | false => rfl
  | true =>
    simp only [CalcCenterOfMass, if_true, hU rfl]
    rfl

/-- A call that requests the kinematics update is the plain call on the updated data. -/
theorem CalcCenterOfMass_update
    (UpdateKinematicsCustom : Model K → ModelDatad K → List K → List K → ModelDatad K)
    (model : Model K) (model_data : ModelDatad K) (q qdot : List K)
    (com_velocity angular_momentum : Option (Vector3d K)) (update_kinematics : Bool) :
    CalcCenterOfMass UpdateKinematicsCustom model model_data q qdot
        com_velocity angular_momentum update_kinematics =
      CalcCenterOfMass UpdateKinematicsCustom model
        (if update_kinematics then UpdateKinematicsCustom model model_data q qdot
          else model_data) q qdot com_velocity angular_momentum false := by
  cases update_kinematics <;> rfl

/-- C15. `CalcPotentialEnergy` returns `mass * (com . (-gravity))` for the `mass` and
`com` that `CalcCenterOfMass` yields (zero velocities, no optional output), and it is
linear in the gravity: for every scalar `k`, the energy of the model with gravity
`k * g` is `k` times the energy of the same model with gravity `g`. The model is
`Sized` with `ParentsFirst`, so that the calls return; the kinematics update, when
requested, is taken not to read the gravity. The scalars form a commutative ring. -/
theorem CalcPotentialEnergy_linear
    (UpdateKinematicsCustom : Model K → ModelDatad K → List K → List K → ModelDatad K)
    (model : Model K) (model_data : ModelDatad K) (q : List K) (update_kinematics : Bool)
    (k : K)
    (hs : Sized model (if update_kinematics then
      UpdateKinematicsCustom model model_data q (List.replicate model.qdot_size 0)
      else model_data))
    (hp : ParentsFirst model)
    (hU : update_kinematics = true →
      UpdateKinematicsCustom { model with gravity := Vector3d.smul k model.gravity }
          model_data q (List.replicate model.qdot_size 0) =
        UpdateKinematicsCustom model model_data q (List.replicate model.qdot_size 0)) :
    ∃ out e ek,
      CalcCenterOfMass UpdateKinematicsCustom model model_data q
        (List.replicate model.qdot_size 0) none none update_kinematics = .ok out ∧
      CalcPotentialEnergy UpdateKinematicsCustom model model_data q update_kinematics =
        .ok e ∧
      e.value = out.mass * out.com.dot (Vector3d.neg model.gravity) ∧
      CalcPotentialEnergy UpdateKinematicsCustom
        { model with gravity := Vector3d.smul k model.gravity } model_data q
        update_kinematics = .ok ek ∧
      ek.value = k * e.value := by
  obtain ⟨out, hout, _, _⟩ := CalcCenterOfMass_mass_eq_sum UpdateKinematicsCustom model _ q
    (List.replicate model.qdot_size 0) none none hs hp
  rw [← CalcCenterOfMass_update] at hout
  have hk := CalcCenterOfMass_gravity UpdateKinematicsCustom model model_data q
    (List.replicate model.qdot_size 0) none none update_kinematics
    (Vector3d.smul k model.gravity) hU
  refine ⟨out, ⟨out.model_data, out.mass * out.com.dot (Vector3d.neg model.gravity)⟩,
    ⟨out.model_data, out.mass * out.com.dot
      (Vector3d.neg (Vector3d.smul k model.gravity))⟩, hout, ?_, rfl, ?_, ?_⟩
  · simp [CalcPotentialEnergy, hout, bind, Except.bind, pure, Except.pure]
  · have hq : ({ model with gravity := Vector3d.smul k model.gravity } : Model K).qdot_size =
        model.qdot_size := rfl
    simp only [CalcPotentialEnergy, hq, hk, hout, bind, Except.bind, pure, Except.pure]
  · simp only [Vector3d.dot, Vector3d.neg, Vector3d.smul]
    ring

/-- Witness of C15: the two-link chain of the examples (gravity (0, 0, -10), mass 5,
centre of mass at height 1) has potential energy 50, and 150 under the threefold
gravity. -/
theorem CalcPotentialEnergy_linear_witness :
    Sized chainModel chainData ∧ ParentsFirst chainModel ∧
    ∃ e ek, CalcPotentialEnergy noUpdate chainModel chainData [0, 0] false = .ok e ∧
      CalcPotentialEnergy noUpdate
        { chainModel with gravity := Vector3d.smul 3 chainModel.gravity } chainData [0, 0]
        false = .ok ek ∧
      ek.value = 3 * e.value := by
  obtain ⟨_, e, ek, _, he, _, hek, h⟩ :=
    CalcPotentialEnergy_linear noUpdate chainModel chainData [0, 0] false 3
      chain_sized chain_parentsFirst (fun h => by cases h)
  exact ⟨chain_sized, chain_parentsFirst, e, ek, he, hek, h⟩

end Energies

end Utils
end RigidBodyDynamics

namespace RigidBodyDynamics
namespace Utils
open Math Examples

section Reset

variable {K : Type} [CommRing K] [Div K]

/-- The first loop run on two model data with the same inputs makes their accumulators
agree at the bodies it visits. -/
theorem forUp_initBody_agree (n : Nat) : ∀ (i : Nat) (a b : ModelDatad K),
    1 ≤ i → i + n ≤ a.I.length → i + n ≤ a.Ic.length → i + n ≤ a.v.length →
    i + n ≤ a.hc.length → SameInputs a b → AgreeOn 1 i a b →
    ∃ a1 b1, forUp CalcCenterOfMass.initBody n i a = .ok a1 ∧
      forUp CalcCenterOfMass.initBody n i b = .ok b1 ∧
      SameInputs a1 b1 ∧ AgreeOn 1 (i + n) a1 b1 ∧
      a1.I = a.I ∧ a1.v = a.v ∧ a1.X_lambda = a.X_lambda ∧
      a1.Ic.length = a.Ic.length ∧ a1.hc.length = a.hc.length := by
  induction n with
  | zero =>
    intro i a b _ _ _ _ _ hs hag
    exact ⟨a, b, rfl, rfl, hs, hag, rfl, rfl, rfl, rfl, rfl⟩
  | succ n ih =>
    intro i a b hi hI hIc hv hhc hs hag
    obtain ⟨sI, sv, sX, sIc, shc⟩ := hs
    have hiI : i < a.I.length := by omega
    have hiv : i < a.v.length := by omega
    have hiIc : i < a.Ic.length := by omega
    have hihc : i < a.hc.length := by omega
    have stepa := initBody_eq a i (List.getElem?_eq_getElem hiI)
      (List.getElem?_eq_getElem hiv) hiIc hihc
    have stepb := initBody_eq b i
      (show b.I[i]? = some a.I[i] by rw [← sI]; exact List.getElem?_eq_getElem hiI)
      (show b.v[i]? = some a.v[i] by rw [← sv]; exact List.getElem?_eq_getElem hiv)
      (by omega) (by omega)
    obtain ⟨a1, b1, ha1, hb1, hs1, hag1, e1, e2, e3, e4, e5⟩ := ih (i + 1)
      { a with Ic := a.Ic.set i a.I[i], hc := a.hc.set i (a.I[i].toMatrix.mulVec a.v[i]) }
      { b with Ic := b.Ic.set i a.I[i], hc := b.hc.set i (a.I[i].toMatrix.mulVec a.v[i]) }
      (by omega) (by simpa using by omega) (by simpa using by omega)
      (by simpa using by omega) (by simpa using by omega)
      ⟨sI, sv, sX, by simpa using sIc, by simpa using shc⟩
      (by
        intro j hj1 hj2
        by_cases hj : j = i
        · subst hj
          simp [List.getElem?_set, hiIc, hihc, show j < b.Ic.length by omega,
            show j < b.hc.length by omega]
        · have hne : i ≠ j := fun e => hj e.symm
          have := hag j hj1 (by omega)
          simpa [List.getElem?_set, hne] using this)
    refine ⟨a1, b1, ?_, ?_, hs1, ?_, e1, e2, e3, by simpa using e4, by simpa using e5⟩
    · simp only [forUp, stepa]; exact ha1
    · simp only [forUp, stepb]; exact hb1
    · intro j hj1 hj2
      exact hag1 j hj1 (by omega)

/-- One pass of the second loop keeps `TotalsAgree`. -/
theorem sumBody_agree (model : Model K) (N : Nat) (t u : Totals K) (i l : Nat)
    (hi1 : 1 ≤ i) (hiN : i < N) (hl : model.lambda[i]? = some l) (hli : l < i)
    (h : TotalsAgree N t u) :
    ∃ t1 u1, CalcCenterOfMass.sumBody model i t = .ok t1 ∧
      CalcCenterOfMass.sumBody model i u = .ok u1 ∧ TotalsAgree N t1 u1 ∧
      t1.model_data.I = t.model_data.I ∧ t1.model_data.v = t.model_data.v ∧
      t1.model_data.X_lambda = t.model_data.X_lambda := by
  obtain ⟨⟨sI, sv, sX, sIc, shc⟩, hag, hItot, hhtot, lIc, lhc, lX⟩ := h
  have hiIc : i < t.model_data.Ic.length := by omega
  have hihc : i < t.model_data.hc.length := by omega
  have hiX : i < t.model_data.X_lambda.length := by omega
  have tX := List.getElem?_eq_getElem hiX
  have tIc := List.getElem?_eq_getElem hiIc
  have thc := List.getElem?_eq_getElem hihc
  have uX : u.model_data.X_lambda[i]? = some t.model_data.X_lambda[i] := by rw [← sX]; exact tX
  have uIc : u.model_data.Ic[i]? = some t.model_data.Ic[i] := by
    rw [← (hag i hi1 hiN).1]; exact tIc
  have uhc : u.model_data.hc[i]? = some t.model_data.hc[i] := by
    rw [← (hag i hi1 hiN).2]; exact thc
  by_cases h0 : l = 0
  · subst h0
    refine ⟨_, _, sumBody_root model t i hl tX tIc thc, sumBody_root model u i hl uX uIc uhc,
      ⟨⟨sI, sv, sX, sIc, shc⟩, hag, ?_, ?_, lIc, lhc, lX⟩, rfl, rfl, rfl⟩
    · simp only [hItot]
    · simp only [hhtot]
  · have hl1 : 1 ≤ l := Nat.pos_of_ne_zero h0
    have hlIc : l < t.model_data.Ic.length := by omega
    have hlhc : l < t.model_data.hc.length := by omega
    have tIcl := List.getElem?_eq_getElem hlIc
    have thcl := List.getElem?_eq_getElem hlhc
    have uIcl : u.model_data.Ic[l]? = some t.model_data.Ic[l] := by
      rw [← (hag l hl1 (by omega)).1]; exact tIcl
    have uhcl : u.model_data.hc[l]? = some t.model_data.hc[l] := by
      rw [← (hag l hl1 (by omega)).2]; exact thcl
    refine ⟨_, _, sumBody_inner model t i l hl h0 tX tIc thc tIcl thcl,
      sumBody_inner model u i l hl h0 uX uIc uhc uIcl uhcl,
      ⟨⟨sI, sv, sX, by simpa using sIc, by simpa using shc⟩, ?_, hItot, hhtot,
        by simpa using lIc, by simpa using lhc, lX⟩, rfl, rfl, rfl⟩
    intro j hj1 hj2
    by_cases hj : j = l
    · subst hj
      simp [List.getElem?_set, hlIc, hlhc, show j < u.model_data.Ic.length by omega,
        show j < u.model_data.hc.length by omega]
    · have hne : l ≠ j := fun e => hj e.symm
      have := hag j hj1 hj2
      simpa [List.getElem?_set, hne] using this

/-- The second loop keeps `TotalsAgree`. -/
theorem forDown_sumBody_agree (model : Model K) (N : Nat)
    (hlam : ∀ i, i < N → 1 ≤ i → ∃ l, l < i ∧ model.lambda[i]? = some l) (k : Nat) :
    ∀ t u : Totals K, k < N → TotalsAgree N t u →
      ∃ t1 u1, forDown (CalcCenterOfMass.sumBody model) k t = .ok t1 ∧
        forDown (CalcCenterOfMass.sumBody model) k u = .ok u1 ∧ TotalsAgree N t1 u1 ∧
        t1.model_data.I = t.model_data.I ∧ t1.model_data.v = t.model_data.v ∧
        t1.model_data.X_lambda = t.model_data.X_lambda := by
  induction k with
  | zero =>
    intro t u _ h
    exact ⟨t, u, rfl, rfl, h, rfl, rfl, rfl⟩
  | succ k ih =>
    intro t u hk h
    obtain ⟨l, hli, hl⟩ := hlam (k + 1) hk (by omega)
    obtain ⟨t1, u1, ht1, hu1, h1, e1, e2, e3⟩ :=
      sumBody_agree model N t u (k + 1) l (by omega) hk hl hli h
    obtain ⟨t2, u2, ht2, hu2, h2, f1, f2, f3⟩ := ih t1 u1 (by omega) h1
    refine ⟨t2, u2, ?_, ?_, h2, f1.trans e1, f2.trans e2, f3.trans e3⟩
    · simp only [forDown, ht1]; exact ht2
    · simp only [forDown, hu1]; exact hu2

/-- Two calls on model data with the same inputs return, with the same four outputs, and
the first leaves model data with the inputs it found. -/
theorem CalcCenterOfMass_agree
    (UpdateKinematicsCustom : Model K → ModelDatad K → List K → List K → ModelDatad K)
    (model : Model K) (a b : ModelDatad K) (q qdot : List K)
    (com_velocity angular_momentum : Option (Vector3d K))
    (ha : Sized model a) (hp : ParentsFirst model) (hs : SameInputs a b) :
    ∃ out out2,
      CalcCenterOfMass UpdateKinematicsCustom model a q qdot com_velocity
        angular_momentum false = .ok out ∧
      CalcCenterOfMass UpdateKinematicsCustom model b q qdot com_velocity
        angular_momentum false = .ok out2 ∧
      out.mass = out2.mass ∧ out.com = out2.com ∧
      out.com_velocity = out2.com_velocity ∧
      out.angular_momentum = out2.angular_momentum ∧
      Sized model out.model_data ∧ SameInputs a out.model_data := by
  obtain ⟨hroot, hI, hIc, hhc, hv, hX⟩ := ha
  obtain ⟨a1, b1, ha1, hb1, hs1, hag1, e1, e2, e3, e4, e5⟩ :=
    forUp_initBody_agree (model.mBodies.length - 1) 1 a b (le_refl 1) (by omega) (by omega)
      (by omega) (by omega) hs (fun j h1 h2 => by omega)
  have hN : 1 + (model.mBodies.length - 1) = model.mBodies.length := by omega
  rw [hN] at hag1
  obtain ⟨t, u, ht, hu, hfin, f1, f2, f3⟩ :=
    forDown_sumBody_agree model model.mBodies.length hp (model.mBodies.length - 1)
      ⟨a1, SpatialRigidBodyInertiad.ofMatrix 0 ⟨0, 0, 0⟩ Matrix3d.zero, SpatialVectord.zero⟩
      ⟨b1, SpatialRigidBodyInertiad.ofMatrix 0 ⟨0, 0, 0⟩ Matrix3d.zero, SpatialVectord.zero⟩
      (by omega)
      ⟨hs1, hag1, rfl, rfl, by rw [e4]; exact hIc, by rw [e5]; exact hhc,
        by rw [e3]; exact hX⟩
  rw [← sizeMinusOne_pos _ hroot] at ht hu
  obtain ⟨⟨_, _, sX, _, _⟩, _, hItot, hhtot, lIc, lhc, lX⟩ := hfin
  refine ⟨_, _, CalcCenterOfMass_of_loops UpdateKinematicsCustom model a q qdot
      com_velocity angular_momentum ha1 ht,
    CalcCenterOfMass_of_loops UpdateKinematicsCustom model b q qdot
      com_velocity angular_momentum hb1 hu, ?_, ?_, ?_, ?_, ?_, ?_⟩
  · simp only [CalcCenterOfMass.outputs, hItot]
  · simp only [CalcCenterOfMass.outputs, hItot]
  · simp only [CalcCenterOfMass.outputs, hItot, hhtot]
  · simp only [CalcCenterOfMass.outputs, hItot, hhtot]
  · exact ⟨hroot, by show t.model_data.I.length = _; rw [f1, e1]; exact hI, lIc, lhc,
      by show t.model_data.v.length = _; rw [f2, e2]; exact hv, lX⟩
  · exact ⟨by show a.I = t.model_data.I; rw [f1, e1],
      by show a.v = t.model_data.v; rw [f2, e2],
      by show a.X_lambda = t.model_data.X_lambda; rw [f3, e3],
      by show a.Ic.length = t.model_data.Ic.length; rw [lIc, hIc],
      by show a.hc.length = t.model_data.hc.length; rw [lhc, hhc]⟩

/-- C16. The composite accumulator is reset at the start of each call: on a model with
`lambda[i] < i` for the movable bodies, two calls of `CalcCenterOfMass`
(`update_kinematics = false`) on `Sized` model data that agree on `I`, `v` and
`X_lambda`, whatever their prior `Ic` and `hc` hold, both return, with the same `mass`,
`com`, `com_velocity` and `angular_momentum`; and a second call on the model data the
first call leaves returns the same four outputs as the first. The scalars form a
commutative ring, with any division. -/
theorem CalcCenterOfMass_accumulator_reset
    (UpdateKinematicsCustom : Model K → ModelDatad K → List K → List K → ModelDatad K)
    (model : Model K) (a b : ModelDatad K) (q qdot : List K)
    (com_velocity angular_momentum : Option (Vector3d K))
    (ha : Sized model a) (hb : Sized model b) (hp : ParentsFirst model)
    (hI : a.I = b.I) (hv : a.v = b.v) (hX : a.X_lambda = b.X_lambda) :
    ∃ out out2 again,
      CalcCenterOfMass UpdateKinematicsCustom model a q qdot com_velocity
        angular_momentum false = .ok out ∧
      CalcCenterOfMass UpdateKinematicsCustom model b q qdot com_velocity
        angular_momentum false = .ok out2 ∧
      CalcCenterOfMass UpdateKinematicsCustom model out.model_data q qdot com_velocity
        angular_momentum false = .ok again ∧
      (out2.mass = out.mass ∧ out2.com = out.com ∧
        out2.com_velocity = out.com_velocity ∧
        out2.angular_momentum = out.angular_momentum) ∧
      (again.mass = out.mass ∧ again.com = out.com ∧
        again.com_velocity = out.com_velocity ∧
        again.angular_momentum = out.angular_momentum) := by
  have hs : SameInputs a b :=
    ⟨hI, hv, hX, by rw [ha.2.2.1, hb.2.2.1], by rw [ha.2.2.2.1, hb.2.2.2.1]⟩
  obtain ⟨out, out2, h1, h2, m1, c1, v1, a1, _, hsame⟩ :=
    CalcCenterOfMass_agree UpdateKinematicsCustom model a b q qdot com_velocity
      angular_momentum ha hp hs
  obtain ⟨out3, again, h3, h4, m2, c2, v2, a2, _, _⟩ :=
    CalcCenterOfMass_agree UpdateKinematicsCustom model a out.model_data q qdot com_velocity
      angular_momentum ha hp hsame
  have h31 : out3 = out := by
    rw [h1] at h3
    injection h3 with h3
    exact h3.symm
  subst h31
  exact ⟨out3, out2, again, h1, h2, h4, ⟨m1.symm, c1.symm, v1.symm, a1.symm⟩,
    ⟨m2.symm, c2.symm, v2.symm, a2.symm⟩⟩

/-- Witness of C16: the two-link chain of the examples, once with cleared accumulators
and once with accumulators that hold the inertias and velocities of another call. -/
theorem CalcCenterOfMass_accumulator_reset_witness :
    Sized chainModel chainData ∧
    Sized chainModel { chainData with Ic := chainData.I, hc := chainData.v } ∧
    ParentsFirst chainModel ∧
    ∃ out out2,
      CalcCenterOfMass noUpdate chainModel chainData [0, 0] [0, 0] (some ⟨0, 0, 0⟩)
        (some ⟨0, 0, 0⟩) false = .ok out ∧
      CalcCenterOfMass noUpdate chainModel
        { chainData with Ic := chainData.I, hc := chainData.v } [0, 0] [0, 0]
        (some ⟨0, 0, 0⟩) (some ⟨0, 0, 0⟩) false = .ok out2 ∧
      out2.mass = out.mass ∧ out2.com = out.com ∧
      out2.com_velocity = out.com_velocity ∧
      out2.angular_momentum = out.angular_momentum := by
  have hb : Sized chainModel { chainData with Ic := chainData.I, hc := chainData.v } := by
    decide
  obtain ⟨out, out2, _, h1, h2, _, h, _⟩ :=
    CalcCenterOfMass_accumulator_reset noUpdate chainModel chainData
      { chainData with Ic := chainData.I, hc := chainData.v } [0, 0] [0, 0]
      (some ⟨0, 0, 0⟩) (some ⟨0, 0, 0⟩) chain_sized hb chain_parentsFirst rfl rfl rfl
  exact ⟨chain_sized, hb, chain_parentsFirst, out, out2, h1, h2, h⟩

end Reset
end Utils
end RigidBodyDynamics

section Overloads

open RigidBodyDynamics RigidBodyDynamics.Math Examples

/-- C20, the code at a failing input: for a body on a spherical joint (`dof_count = 3`,
`q_size = 4`) both convenience overloads hand the full overload a vector `Q` of three
rows, and its assertion `model.q_size == Q.rows ()` fails; the vector the sibling
functions build, `VectorXd::Zero (model.q_size)`, has four rows and passes. For the
two-link chain (`dof_count = 2`) the overloads stop in the matrix library before they
reach the full overload. -/
theorem getBodyToBaseTransform_overloads_fail :
    getBodyToBaseTransform_name plainKinematics sphericalModel "ball" =
      .error (.assertion "model.q_size == Q.rows()") ∧
    getBodyToBaseTransform_tip plainKinematics sphericalModel "ball" ⟨0, 0, 1⟩ =
      .error (.assertion "model.q_size == Q.rows()") ∧
    (getBodyToBaseTransform plainKinematics sphericalModel
        (zeroConfiguration sphericalModel) "ball" ⟨0, 0, 1⟩ false).toBool = true ∧
    getBodyToBaseTransform_name plainKinematics chainModel "upper" =
      .error (.assertion "Eigen: size of a fixed-size vector") := by
  refine ⟨rfl, rfl, rfl, rfl⟩

/-- The convenience overloads return only for a model with `dof_count = 3` and
`q_size = 3`: the vector they pass has three rows whatever the model. -/
theorem getBodyToBaseTransform_overloads_three {K : Type} [Zero K] (kin : Kinematics K)
    (model : Model K) (name : String) (tip_position : Vector3d K) :
    ((∃ T, getBodyToBaseTransform_name kin model name = .ok T) ↔
      model.dof_count = 3 ∧ model.q_size = 3) ∧
    ((∃ T, getBodyToBaseTransform_tip kin model name tip_position = .ok T) ↔
      model.dof_count = 3 ∧ model.q_size = 3) := by
  constructor <;>
  · by_cases hd : model.dof_count = 3 <;> by_cases hq : model.q_size = 3 <;>
      simp [getBodyToBaseTransform_name, getBodyToBaseTransform_tip, Vector3dZero,
        getBodyToBaseTransform, hd, hq, bind, Except.bind]

end Overloads

namespace RigidBodyDynamics
namespace Utils
open Math Examples

section Overview

variable {K : Type} [Zero K] [One K] [DecidableEq K]

theorem concatLines_append (a b : List String) :
    concatLines (a ++ b) = concatLines a ++ concatLines b := by
  induction a with
  | nil => simp [concatLines]
  | cons x rest ih => simp [concatLines, ih, String.append_assoc]

/-- The inner loop of `GetModelDOFOverview` writes one numbered line for each axis. -/
theorem forUp_overview_inner (render : K → String) (model : Model K) (fuel i : Nat)
    (joint : Joint K) (name : String) (hname : get_body_name model fuel i = .ok name)
    (m : Nat) : ∀ (j : Nat) (s : String × Nat), j + m ≤ joint.mJointAxes.length →
      forUp (GetModelDOFOverview.inner render model fuel i joint) m j s =
        .ok (s.1 ++ concatLines
          ((List.enumFrom s.2 ((joint.mJointAxes.drop j).take m)).map fun e =>
            GetModelDOFOverview.line e.1 name (get_dof_name render e.2)), s.2 + m) := by
  induction m with
  | zero => intro j s _; simp [forUp, concatLines]
  | succ m ih =>
    intro j s hj
    have hjl : j < joint.mJointAxes.length := by omega
    have hstep : GetModelDOFOverview.inner render model fuel i joint j s =
        .ok (s.1 ++ GetModelDOFOverview.line s.2 name (get_dof_name render joint.mJointAxes[j]),
          s.2 + 1) := by
      simp [GetModelDOFOverview.inner, hname, idx, hjl, bind, Except.bind, pure, Except.pure]
    simp only [forUp, hstep]
    rw [ih (j + 1) _ (by omega), List.drop_eq_getElem_cons hjl]
    simp [concatLines, String.append_assoc, Nat.add_assoc, Nat.add_comm 1 m]

/-- The line of a generalized-coordinate slot: its index, the name of its body and the
label of its axis. -/
theorem dofSlots_succ (model : Model K) (model_data : ModelDatad K) (lo n : Nat) :
    dofSlots model model_data lo (n + 1) =
      ((dofAxes model model_data lo).map fun a => (lo, a)) ++
        dofSlots model model_data (lo + 1) n := by
  simp [dofSlots, List.range'_succ]

/-- One pass of the outer loop of `GetModelDOFOverview` writes the numbered lines of
the DOF slots of body `i`. -/
theorem overview_body (render : K → String) (model : Model K) (model_data : ModelDatad K)
    (fuel i : Nat) (names : Nat → String) (s : String × Nat)
    (hJ : i < model.mJoints.length) (hS : i < model_data.S.length)
    (hname : get_body_name model fuel i = .ok (names i))
    (hAxes : ∀ joint, model.mJoints[i]? = some joint → joint.mDoFCount ≠ 1 →
      joint.mDoFCount ≤ joint.mJointAxes.length) :
    GetModelDOFOverview.body render model model_data fuel i s =
      .ok (s.1 ++ concatLines
        ((List.enumFrom s.2 ((dofAxes model model_data i).map fun a => (i, a))).map fun e =>
          GetModelDOFOverview.line e.1 (names e.2.1) (get_dof_name render e.2.2)),
        s.2 + (dofAxes model model_data i).length) := by
  have hj := List.getElem?_eq_getElem hJ
  have hSi := List.getElem?_eq_getElem hS
  by_cases h1 : model.mJoints[i].mDoFCount = 1
  · simp [GetModelDOFOverview.body, idx, hj, hSi, h1, hname, dofAxes, concatLines, bind,
      Except.bind, pure, Except.pure]
  · have hle := hAxes _ hj h1
    have hin := forUp_overview_inner render model fuel i model.mJoints[i] (names i) hname
      model.mJoints[i].mDoFCount 0 s (by omega)
    simp only [GetModelDOFOverview.body, idx, hj, h1, bind, Except.bind, beq_iff_eq,
      if_false, hin, dofAxes, List.drop_zero, List.enumFrom_map, List.map_map,
      List.length_take, Nat.min_eq_left hle]
    rfl

/-- The outer loop of `GetModelDOFOverview` writes the numbered lines of the DOF slots
of the bodies it visits. -/
theorem forUp_overview (render : K → String) (model : Model K) (model_data : ModelDatad K)
    (fuel : Nat) (names : Nat → String) (N : Nat)
    (hJ : N ≤ model.mJoints.length) (hS : N ≤ model_data.S.length)
    (hnames : ∀ i, 1 ≤ i → i < N → get_body_name model fuel i = .ok (names i))
    (hAxes : ∀ i joint, 1 ≤ i → i < N → model.mJoints[i]? = some joint →
      joint.mDoFCount ≠ 1 → joint.mDoFCount ≤ joint.mJointAxes.length)
    (n : Nat) : ∀ (i : Nat) (s : String × Nat), 1 ≤ i → i + n ≤ N →
      forUp (GetModelDOFOverview.body render model model_data fuel) n i s =
        .ok (s.1 ++ concatLines
          ((List.enumFrom s.2 (dofSlots model model_data i n)).map fun e =>
            GetModelDOFOverview.line e.1 (names e.2.1) (get_dof_name render e.2.2)),
          s.2 + (dofSlots model model_data i n).length) := by
  induction n with
  | zero => intro i s _ _; simp [forUp, dofSlots, concatLines]
  | succ n ih =>
    intro i s hi1 hin
    have hstep := overview_body render model model_data fuel i names s (by omega) (by omega)
      (hnames i hi1 (by omega)) (hAxes i · hi1 (by omega))
    simp only [forUp, hstep]
    rw [ih (i + 1) _ (by omega) (by omega), dofSlots_succ]
    simp only [List.enumFrom_append, List.map_append, concatLines_append, List.length_append,
      List.length_map, String.append_assoc, Nat.add_assoc]

/-- Number of DOF slots of the bodies `lo, ..., lo + n - 1`. -/
theorem dofSlots_length (model : Model K) (model_data : ModelDatad K)
    (hS : model.mJoints.length ≤ model_data.S.length)
    (hAxes : ∀ i joint, 1 ≤ i → i < model.mJoints.length → model.mJoints[i]? = some joint →
      joint.mDoFCount ≠ 1 → joint.mDoFCount ≤ joint.mJointAxes.length) :
    ∀ (n lo : Nat), 1 ≤ lo → lo + n = model.mJoints.length →
      (dofSlots model model_data lo n).length =
        ((model.mJoints.drop lo).map fun joint => joint.mDoFCount).sum := by
  intro n
  induction n with
  | zero =>
    intro lo _ h
    have : model.mJoints.drop lo = [] := List.drop_eq_nil_of_le (by omega)
    simp [dofSlots, this]
  | succ n ih =>
    intro lo hlo1 h
    have hlo : lo < model.mJoints.length := by omega
    rw [dofSlots_succ, List.length_append, ih (lo + 1) (by omega) (by omega),
      List.drop_eq_getElem_cons hlo]
    simp only [List.length_map, List.map_cons, List.sum_cons]
    congr 1
    simp only [dofAxes, List.getElem?_eq_getElem hlo]
    by_cases h1 : model.mJoints[lo].mDoFCount = 1
    · simp [h1, List.getElem?_eq_getElem (show lo < model_data.S.length by omega)]
    · simp [h1, hAxes lo _ hlo1 hlo (List.getElem?_eq_getElem hlo) h1]

/-- C13. On a model whose joint table and axis table `S` have one entry for each body,
whose joints with more than one degree of freedom hold that many axes, and whose movable
bodies resolve to the names `names i`, `GetModelDOFOverview` returns the concatenation
of one line for each generalized-coordinate slot: the slots of the bodies `1..N-1` in
ascending id order, each body's slots in order; the line at position `k` (from 0) is the
number `k` in width 3, ": ", the resolved name of the body, "_" and the DOF label of the
axis of the slot. The number of lines is the sum of `mDoFCount` over the movable
bodies. -/
theorem GetModelDOFOverview_lines (render : K → String) (model : Model K)
    (model_data : ModelDatad K) (fuel : Nat) (names : Nat → String)
    (hJ : model.mJoints.length = model.mBodies.length)
    (hS : model_data.S.length = model.mBodies.length)
    (hnames : ∀ i, 1 ≤ i → i < model.mBodies.length →
      get_body_name model fuel i = .ok (names i))
    (hAxes : ∀ i joint, 1 ≤ i → i < model.mBodies.length →
      model.mJoints[i]? = some joint → joint.mDoFCount ≠ 1 →
      joint.mDoFCount ≤ joint.mJointAxes.length) :
    GetModelDOFOverview render model model_data fuel =
      .ok (concatLines
        ((dofSlots model model_data 1 (model.mBodies.length - 1)).enum.map fun e =>
          GetModelDOFOverview.line e.1 (names e.2.1) (get_dof_name render e.2.2))) ∧
    (dofSlots model model_data 1 (model.mBodies.length - 1)).length =
      ((model.mJoints.drop 1).map fun joint => joint.mDoFCount).sum := by
  rcases Nat.eq_zero_or_pos model.mBodies.length with h0 | hpos
  · have hj0 : model.mJoints = [] := List.length_eq_zero.mp (hJ.trans h0)
    simp [GetModelDOFOverview, h0, hj0, forUp, dofSlots, concatLines, bind, Except.bind, pure,
      Except.pure]
  · constructor
    · have hloop := forUp_overview render model model_data fuel names model.mBodies.length
        (by omega) (by omega) hnames hAxes (model.mBodies.length - 1) 1 ("", 0)
        (le_refl 1) (by omega)
      simp only [GetModelDOFOverview, hloop, bind, Except.bind, pure, Except.pure,
        String.empty_append, List.enum]
    · exact dofSlots_length model model_data (by omega)
        (fun i joint h1 h2 => hAxes i joint h1 (by omega)) (model.mBodies.length - 1) 1
        (le_refl 1) (by omega)

/-- Witness of C13: the tree with fixed bodies of the examples has four slots, two of
body 2 ("arm", reached through the virtual body 1) and two of body 3 ("hand"). -/
theorem GetModelDOFOverview_lines_witness :
    fixedModel.mJoints.length = fixedModel.mBodies.length ∧
    fixedData.S.length = fixedModel.mBodies.length ∧
    GetModelDOFOverview renderRat fixedModel fixedData 4 =
      .ok "  0: arm_RX\n  1: arm_RY\n  2: hand_TX\n  3: hand_TY\n" := by
  have h := (GetModelDOFOverview_lines renderRat fixedModel fixedData 4
    (fun i => if i = 3 then "hand" else "arm") rfl rfl
    (by
      intro i h1 h2
      have h3 : i < 4 := h2
      interval_cases i <;> rfl)
    (by
      intro i joint h1 h2
      have h3 : i < 4 := h2
      interval_cases i <;>
      · intro hj
        cases hj
        decide)).1
  exact ⟨rfl, rfl, h.trans (congrArg Except.ok (by decide))⟩

end Overview
end Utils
end RigidBodyDynamics

namespace RigidBodyDynamics
namespace Utils
open Math Examples

section Hierarchy

variable {K : Type} [Zero K] [One K] [DecidableEq K]

/-- The loop over virtual bodies stops at once at a body that is not virtual. -/
theorem walk_real (render : K → String) (model : Model K) (model_data : ModelDatad K)
    (fuel b : Nat) (result : String) (body : Body) (hb : model.mBodies[b]? = some body)
    (hv : body.mIsVirtual = false) :
    print_hierarchy.walk render model model_data (fuel + 1) b result = .ok (result, b) := by
  simp [print_hierarchy.walk, idx, hb, hv, bind, Except.bind, pure, Except.pure]

/-- The loop over virtual bodies writes " end" and stops at a virtual body without
children. -/
theorem walk_childless (render : K → String) (model : Model K) (model_data : ModelDatad K)
    (fuel w : Nat) (result : String)
    (hw : (model.mBodies[w]?.map fun body => body.mIsVirtual) = some true)
    (hmu : model.mu[w]? = some []) :
    print_hierarchy.walk render model model_data (fuel + 1) w result =
      .ok (result ++ " end", w) := by
  cases hb : model.mBodies[w]? with
  | none => simp [hb] at hw
  | some body =>
    have hv : body.mIsVirtual = true := by simpa [hb] using hw
    simp [print_hierarchy.walk, idx, hb, hv, hmu, bind, Except.bind, pure, Except.pure]

/-- One pass of the loop over virtual bodies at a virtual body with exactly one child. -/
theorem walk_step (render : K → String) (model : Model K) (model_data : ModelDatad K)
    (fuel v child : Nat) (result : String) (a : SpatialVectord K)
    (hv : (model.mBodies[v]?.map fun body => body.mIsVirtual) = some true)
    (hmu : model.mu[v]? = some [child]) (hS : model_data.S[v]? = some a) :
    print_hierarchy.walk render model model_data (fuel + 1) v result =
      print_hierarchy.walk render model model_data fuel child
        (result ++ get_dof_name render a ++ ", ") := by
  cases hb : model.mBodies[v]? with
  | none => simp [hb] at hv
  | some body =>
    have hvv : body.mIsVirtual = true := by simpa [hb] using hv
    simp [print_hierarchy.walk, idx, hb, hvv, hmu, hS, bind, Except.bind]

/-- Along a chain of single-child virtual bodies the loop appends the DOF label of each
body of the chain, each followed by ", ", and goes on at the end of the chain. -/
theorem walk_chain (render : K → String) (model : Model K) (model_data : ModelDatad K)
    (w : Nat) : ∀ (chain : List Nat) (axes : List (SpatialVectord K)),
      SingleChildChain model chain w →
      chain.map (fun v => model_data.S[v]?) = axes.map some →
      ∀ (fuel : Nat) (result : String),
        print_hierarchy.walk render model model_data (fuel + chain.length) (chain.headD w)
            result =
          print_hierarchy.walk render model model_data fuel w
            (result ++ concatLines (axes.map fun a => get_dof_name render a ++ ", ")) := by
  intro chain
  induction chain with
  | nil =>
    intro axes _ hS fuel result
    cases axes with
    | nil => simp [concatLines]
    | cons a rest => simp at hS
  | cons v rest ih =>
    intro axes hch hS fuel result
    cases axes with
    | nil => simp at hS
    | cons a axes =>
      obtain ⟨hvirt, hmu, hrest⟩ := hch
      simp only [List.map_cons, List.cons.injEq] at hS
      obtain ⟨hSv, hSrest⟩ := hS
      simp only [List.headD_cons, List.length_cons]
      rw [← Nat.add_assoc, walk_step render model model_data _ v _ result a hvirt hmu hSv,
        ih axes hrest hSrest fuel _]
      simp [concatLines, String.append_assoc]

/-- The loop over the fixed bodies appends the leaf lines of the fixed bodies attached
to `b`, when the ids of the fixed bodies fit in `unsigned int`. -/
theorem fixed_eq (model : Model K) (b : Nat) (indent : Int) (result : String)
    (hfit : model.fixed_body_discriminator + model.mFixedBodies.length ≤ 2 ^ 32) :
    print_hierarchy.fixed model b indent result =
      result ++ concatLines (fixedLines model b (indent + 1)) := by
  have key : ∀ (l : List FixedBody) (k : Nat) (result : String),
      model.fixed_body_discriminator + k + l.length ≤ 2 ^ 32 →
      (l.enumFrom k).foldl
        (fun result entry =>
          if entry.2.mMovableParent == b then
            result ++ indentUnits (indent + 1) ++
              model.GetBodyName ((model.fixed_body_discriminator + entry.1) % 2 ^ 32) ++
              " [fixed]" ++ "\n"
          else result) result =
        result ++ concatLines
          (((l.enumFrom k).filter fun entry => entry.2.mMovableParent = b).map fun entry =>
            indentUnits (indent + 1) ++
              model.GetBodyName (model.fixed_body_discriminator + entry.1) ++
              " [fixed]" ++ "\n") := by
    intro l
    induction l with
    | nil => intro k result _; simp [concatLines]
    | cons fb rest ih =>
      intro k result hk
      simp only [List.enumFrom_cons, List.foldl_cons, List.length_cons] at hk ⊢
      rw [ih (k + 1) _ (by omega)]
      have hmod2 : (model.fixed_body_discriminator + k) % 4294967296 =
          model.fixed_body_discriminator + k := Nat.mod_eq_of_lt (by omega)
      by_cases hp : fb.mMovableParent = b
      · simp [hp, hmod2, List.filter_cons, concatLines, String.append_assoc]
      · simp [hp, List.filter_cons]
  exact key model.mFixedBodies 0 result (by simpa using hfit)

/-- The call of `print_hierarchy` once the name, the loop over virtual bodies, the end
of the line and the children list are known. -/
theorem print_hierarchy_eq (render : K → String) (model : Model K)
    (model_data : ModelDatad K) (fuel b : Nat) (indent : Int) (name line text : String)
    (w : Nat) (children : List Nat)
    (hname : get_body_name model (fuel + 1) b = .ok name)
    (hwalk : print_hierarchy.walk render model model_data (fuel + 1) b
      (if b > 0 then indentUnits indent ++ name ++ " [ " else indentUnits indent ++ name) =
        .ok (line, w))
    (hclose : print_hierarchy.close render model_data w line = .ok text)
    (hmu : model.mu[w]? = some children) :
    print_hierarchy render model model_data (fuel + 1) b indent =
      ⟨"Body " ++ toString b ++ " -> " ++ name ++ "\n" ++
        (print_hierarchy.children
          (fun child => print_hierarchy render model model_data fuel child (indent + 1))
          children text).cout,
       (print_hierarchy.children
          (fun child => print_hierarchy render model model_data fuel child (indent + 1))
          children text).outcome.map fun result =>
            print_hierarchy.fixed model w indent result⟩ := by
  simp only [print_hierarchy, hname, hwalk, hclose, idx, hmu]

/-- The head of a single-child chain of virtual bodies that ends in a virtual body
without a unique child resolves to the empty name. -/
theorem get_body_name_chain_ambiguous (model : Model K) (w : Nat) (children : List Nat)
    (hw : (model.mBodies[w]?.map fun body => body.mIsVirtual) = some true)
    (hmu : model.mu[w]? = some children) (hn : children.length ≠ 1) :
    ∀ (chain : List Nat), SingleChildChain model chain w →
      ∀ fuel, chain.length < fuel →
        get_body_name model fuel (chain.headD w) = .ok "" := by
  have hbody : ∃ body, model.mBodies[w]? = some body ∧ body.mIsVirtual = true := by
    cases hb : model.mBodies[w]? with
    | none => simp [hb] at hw
    | some body => exact ⟨body, rfl, by simpa [hb] using hw⟩
  obtain ⟨body, hb, hv⟩ := hbody
  intro chain
  induction chain with
  | nil =>
    intro _ fuel hf
    obtain ⟨f, rfl⟩ : ∃ f, fuel = f + 1 := ⟨fuel - 1, by simp at hf; omega⟩
    exact get_body_name_ambiguous model f w body children hb hv hmu hn
  | cons v rest ih =>
    intro hch fuel hf
    obtain ⟨hvirt, hmuv, hrest⟩ := hch
    obtain ⟨vb, hvb, hvv⟩ : ∃ body, model.mBodies[v]? = some body ∧ body.mIsVirtual = true := by
      cases hv2 : model.mBodies[v]? with
      | none => simp [hv2] at hvirt
      | some body => exact ⟨body, rfl, by simpa [hv2] using hvirt⟩
    obtain ⟨f, rfl⟩ : ∃ f, fuel = f + 1 := ⟨fuel - 1, by simp at hf; omega⟩
    simp only [List.headD_cons]
    rw [get_body_name_child model f v _ vb hvb hvv hmuv]
    exact ih hrest f (by simp at hf; omega)

/-- When every call for a child returns, the loop over the children makes the calls in
the order of the list: it appends the texts returned, child by child, and `cout` holds
what the calls wrote, in the same order. -/
theorem children_all_ok (call : Nat → Run String) (texts : Nat → String) :
    ∀ (cs : List Nat) (result : String),
      (∀ c ∈ cs, (call c).outcome = .ok (texts c)) →
      print_hierarchy.children call cs result =
        ⟨concatLines (cs.map fun c => (call c).cout),
          .ok (result ++ concatLines (cs.map texts))⟩ := by
  intro cs
  induction cs with
  | nil => intro result _; simp [print_hierarchy.children, concatLines]
  | cons c rest ih =>
    intro result h
    have hc := h c (by simp)
    have hrest := ih (result ++ texts c) (fun x hx => h x (List.mem_cons_of_mem _ hx))
    simp only [print_hierarchy.children, hc, hrest, List.map_cons, concatLines,
      String.append_assoc]

/-- The loop over the children ends with the fault of the first call that does not
return; the children after it are not visited. -/
theorem children_first_error (call : Nat → Run String) (texts : Nat → String) :
    ∀ (pre : List Nat) (c : Nat) (post : List Nat) (result : String) (e : Fault),
      (∀ x ∈ pre, (call x).outcome = .ok (texts x)) → (call c).outcome = .error e →
      print_hierarchy.children call (pre ++ c :: post) result =
        ⟨concatLines (pre.map fun x => (call x).cout) ++ (call c).cout, .error e⟩ := by
  intro pre
  induction pre with
  | nil =>
    intro c post result e _ hc
    simp [print_hierarchy.children, hc, concatLines]
  | cons x rest ih =>
    intro c post result e h hc
    have hx := h x (by simp)
    have hrest := ih c post (result ++ texts x) e
      (fun y hy => h y (List.mem_cons_of_mem _ hy)) hc
    show print_hierarchy.children call (x :: (rest ++ c :: post)) result = _
    simp only [print_hierarchy.children, hx, hrest, List.map_cons, concatLines,
      String.append_assoc]

/-- C11. Let `chain` be bodies `v1, ..., vk`, each virtual with exactly one child, the
next one, the child of `vk` being the non-virtual body `b > 0`, and let `v1 > 0`. Then
`print_hierarchy` entered at `v1` with indent `d` (fuel above the length of the chain)
writes one line for the whole chain: `d` indent units, the name of `b`, " [ ", the DOF
labels of `S[v1], ..., S[vk]` in this order, each followed by ", ", the DOF label of
`S[b]` and " ]". No other line is written for the chain. The recursion goes on with the
children of `b` at indent `d + 1`: when the calls for the children return the texts
`texts c`, the result is that line, then these texts in the order of `mu[b]`, then the
lines of the fixed bodies of `b`, and `cout` holds the line "Body v1 -> name of b" and
then what the calls for the children wrote; when a call for a child does not return, the
call ends with the fault of the first such child. -/
theorem print_hierarchy_chain (render : K → String) (model : Model K)
    (model_data : ModelDatad K) (chain : List Nat) (b : Nat) (body : Body)
    (axes : List (SpatialVectord K)) (Sb : SpatialVectord K) (children : List Nat)
    (fuel : Nat) (d : Int) (texts : Nat → String)
    (hch : SingleChildChain model chain b)
    (hb : model.mBodies[b]? = some body) (hv : body.mIsVirtual = false)
    (hS : chain.map (fun v => model_data.S[v]?) = axes.map some)
    (hSb : model_data.S[b]? = some Sb) (hmu : model.mu[b]? = some children)
    (hpos : 0 < chain.headD b) (hbpos : 0 < b) (hfuel : chain.length ≤ fuel) :
    ((∀ c ∈ children,
        (print_hierarchy render model model_data fuel c (d + 1)).outcome = .ok (texts c)) →
      print_hierarchy render model model_data (fuel + 1) (chain.headD b) d =
        ⟨"Body " ++ toString (chain.headD b) ++ " -> " ++ model.GetBodyName b ++ "\n" ++
          concatLines (children.map fun c =>
            (print_hierarchy render model model_data fuel c (d + 1)).cout),
         .ok (print_hierarchy.fixed model b d
          (indentUnits d ++ model.GetBodyName b ++ " [ " ++
            concatLines (axes.map fun a => get_dof_name render a ++ ", ") ++
            get_dof_name render Sb ++ " ]" ++ "\n" ++ concatLines (children.map texts)))⟩ ∧
      (model.fixed_body_discriminator + model.mFixedBodies.length ≤ 2 ^ 32 →
        (print_hierarchy render model model_data (fuel + 1) (chain.headD b) d).outcome =
          .ok (indentUnits d ++ model.GetBodyName b ++ " [ " ++
            concatLines (axes.map fun a => get_dof_name render a ++ ", ") ++
            get_dof_name render Sb ++ " ]" ++ "\n" ++ concatLines (children.map texts) ++
            concatLines (fixedLines model b (d + 1))))) ∧
    (∀ (pre : List Nat) (c : Nat) (post : List Nat) (e : Fault),
      children = pre ++ c :: post →
      (∀ x ∈ pre,
        (print_hierarchy render model model_data fuel x (d + 1)).outcome = .ok (texts x)) →
      (print_hierarchy render model model_data fuel c (d + 1)).outcome = .error e →
      (print_hierarchy render model model_data (fuel + 1) (chain.headD b) d).outcome =
        .error e) := by
  have hname := get_body_name_chain_head model b body hb hv chain hch (fuel + 1) (by omega)
  obtain ⟨f0, hf0⟩ : ∃ f0, fuel + 1 = (f0 + 1) + chain.length := ⟨fuel - chain.length, by omega⟩
  have hwalk : print_hierarchy.walk render model model_data (fuel + 1) (chain.headD b)
      (if chain.headD b > 0 then indentUnits d ++ model.GetBodyName b ++ " [ "
        else indentUnits d ++ model.GetBodyName b) =
      .ok (indentUnits d ++ model.GetBodyName b ++ " [ " ++
        concatLines (axes.map fun a => get_dof_name render a ++ ", "), b) := by
    rw [if_pos hpos, hf0, walk_chain render model model_data b chain axes hch hS,
      walk_real render model model_data f0 b _ body hb hv]
  have hclose : print_hierarchy.close render model_data b
      (indentUnits d ++ model.GetBodyName b ++ " [ " ++
        concatLines (axes.map fun a => get_dof_name render a ++ ", ")) =
      .ok (indentUnits d ++ model.GetBodyName b ++ " [ " ++
        concatLines (axes.map fun a => get_dof_name render a ++ ", ") ++
        get_dof_name render Sb ++ " ]" ++ "\n") := by
    simp [print_hierarchy.close, hbpos, idx, hSb, bind, Except.bind, pure, Except.pure]
  have heq := print_hierarchy_eq render model model_data fuel (chain.headD b) d _ _ _ b
    children hname hwalk hclose hmu
  refine ⟨fun hall => ?_, ?_⟩
  · have hkids := children_all_ok
      (fun child => print_hierarchy render model model_data fuel child (d + 1)) texts
      children
      (indentUnits d ++ model.GetBodyName b ++ " [ " ++
        concatLines (axes.map fun a => get_dof_name render a ++ ", ") ++
        get_dof_name render Sb ++ " ]" ++ "\n") hall
    have hrun : print_hierarchy render model model_data (fuel + 1) (chain.headD b) d =
        ⟨"Body " ++ toString (chain.headD b) ++ " -> " ++ model.GetBodyName b ++ "\n" ++
          concatLines (children.map fun c =>
            (print_hierarchy render model model_data fuel c (d + 1)).cout),
         .ok (print_hierarchy.fixed model b d
          (indentUnits d ++ model.GetBodyName b ++ " [ " ++
            concatLines (axes.map fun a => get_dof_name render a ++ ", ") ++
            get_dof_name render Sb ++ " ]" ++ "\n" ++ concatLines (children.map texts)))⟩ := by
      rw [heq, hkids]
      rfl
    refine ⟨hrun, fun hfit => ?_⟩
    rw [hrun, fixed_eq model b d _ hfit]
  · intro pre c post e hsplit hpre hc
    have hkids := children_first_error
      (fun child => print_hierarchy render model model_data fuel child (d + 1)) texts
      pre c post
      (indentUnits d ++ model.GetBodyName b ++ " [ " ++
        concatLines (axes.map fun a => get_dof_name render a ++ ", ") ++
        get_dof_name render Sb ++ " ]" ++ "\n") e hpre hc
    rw [heq, hsplit, hkids]
    rfl

/-- Witness of C11: in the tree with fixed bodies of the examples the chain holds the
virtual body 1 and ends in body 2 ("arm"), whose only child is body 3 ("hand"). Entered
at body 1 with indent 1 the call returns the line of the composite entry, then the line
of the child at indent 2, then the fixed body of body 2. -/
theorem print_hierarchy_chain_witness :
    SingleChildChain fixedModel [1] 2 ∧
    (print_hierarchy renderRat fixedModel fixedData 2 3 2).outcome =
      .ok "    hand [ TX ]\n" ∧
    (print_hierarchy renderRat fixedModel fixedData 3 1 1).outcome =
      .ok "  arm [ RX, RY ]\n    hand [ TX ]\n    tool [fixed]\n" ∧
    (print_hierarchy renderRat fixedModel fixedData 3 1 1).cout =
      "Body 1 -> arm\nBody 3 -> hand\n" := by
  have hch : SingleChildChain fixedModel [1] 2 := by decide
  have hchild : (print_hierarchy renderRat fixedModel fixedData 2 3 2).outcome =
      .ok "    hand [ TX ]\n" := congrArg Except.ok (by decide)
  have h := (print_hierarchy_chain renderRat fixedModel fixedData [1] 2 ⟨false⟩
    [⟨1, 0, 0, 0, 0, 0⟩] ⟨0, 1, 0, 0, 0, 0⟩ [3] 2 1 (fun _ => "    hand [ TX ]\n")
    hch rfl rfl rfl rfl rfl (by decide) (by decide) (by decide)).1
    (fun c hc => by
      have hc3 : c = 3 := by simpa using hc
      subst hc3
      exact hchild)
  exact ⟨hch, hchild, (h.2 (by decide)).trans (congrArg Except.ok (by decide)),
    (congrArg Run.cout h.1).trans (by decide)⟩

/-- Counterexample to C17: body 7 of the tree of the examples is virtual and has no
child; entered at it with indent 1 the call writes " end" and then the DOF label "TY" of
that body and the closing bracket. -/
theorem print_hierarchy_childless_counterexample :
    (virtualModel.mBodies[7]?.map fun body => body.mIsVirtual) = some true ∧
    virtualModel.mu[7]? = some [] ∧
    (print_hierarchy renderRat virtualModel virtualData 2 7 1).outcome =
      .ok "   [  endTY ]\n" :=
  ⟨rfl, rfl, congrArg Except.ok (by decide)⟩

/-- C17, amended. When the loop over virtual bodies of `print_hierarchy` reaches a
virtual body `w` that has no children (through a chain of single-child virtual bodies,
possibly empty), it writes " end" and leaves the loop; the DOF label of `S[w]` and the
closing " ]" are then appended right after " end" (`w > 0`), the line ends, and the
fixed bodies of `w` follow. The resolved name at the start of the line is empty. -/
theorem print_hierarchy_childless (render : K → String) (model : Model K)
    (model_data : ModelDatad K) (chain : List Nat) (w : Nat)
    (axes : List (SpatialVectord K)) (Sw : SpatialVectord K) (fuel : Nat) (d : Int)
    (hch : SingleChildChain model chain w)
    (hw : (model.mBodies[w]?.map fun body => body.mIsVirtual) = some true)
    (hmu : model.mu[w]? = some [])
    (hS : chain.map (fun v => model_data.S[v]?) = axes.map some)
    (hSw : model_data.S[w]? = some Sw)
    (hpos : 0 < chain.headD w) (hwpos : 0 < w) (hfuel : chain.length ≤ fuel) :
    print_hierarchy render model model_data (fuel + 1) (chain.headD w) d =
      ⟨"Body " ++ toString (chain.headD w) ++ " -> " ++ "\n",
       .ok (print_hierarchy.fixed model w d
        (indentUnits d ++ " [ " ++
          concatLines (axes.map fun a => get_dof_name render a ++ ", ") ++ " end" ++
          get_dof_name render Sw ++ " ]" ++ "\n"))⟩ := by
  have hname := get_body_name_chain_ambiguous model w [] hw hmu (by decide) chain hch
    (fuel + 1) (by omega)
  obtain ⟨f0, hf0⟩ : ∃ f0, fuel + 1 = (f0 + 1) + chain.length := ⟨fuel - chain.length, by omega⟩
  have hwalk : print_hierarchy.walk render model model_data (fuel + 1) (chain.headD w)
      (if chain.headD w > 0 then indentUnits d ++ "" ++ " [ " else indentUnits d ++ "") =
      .ok (indentUnits d ++ "" ++ " [ " ++
        concatLines (axes.map fun a => get_dof_name render a ++ ", ") ++ " end", w) := by
    rw [if_pos hpos, hf0, walk_chain render model model_data w chain axes hch hS,
      walk_childless render model model_data f0 w _ hw hmu]
  have hclose : print_hierarchy.close render model_data w
      (indentUnits d ++ "" ++ " [ " ++
        concatLines (axes.map fun a => get_dof_name render a ++ ", ") ++ " end") =
      .ok (indentUnits d ++ "" ++ " [ " ++
        concatLines (axes.map fun a => get_dof_name render a ++ ", ") ++ " end" ++
        get_dof_name render Sw ++ " ]" ++ "\n") := by
    simp [print_hierarchy.close, hwpos, idx, hSw, bind, Except.bind, pure, Except.pure]
  rw [print_hierarchy_eq render model model_data fuel (chain.headD w) d _ _ _ w []
    hname hwalk hclose hmu]
  simp [print_hierarchy.children, Except.map]

/-- Witness of C17, amended: the childless virtual body 7 of the examples. -/
theorem print_hierarchy_childless_witness :
    SingleChildChain virtualModel [] 7 ∧
    (print_hierarchy renderRat virtualModel virtualData 2 7 1).cout = "Body 7 -> \n" := by
  have h := print_hierarchy_childless renderRat virtualModel virtualData [] 7 []
    ⟨0, 0, 0, 0, 1, 0⟩ 1 1 trivial rfl rfl rfl rfl (by decide) (by decide) (by decide)
  exact ⟨trivial, (congrArg Run.cout h).trans (by decide)⟩

/-- Counterexample to C18: in the tree with fixed bodies of the examples the fixed body
"sensor" has the virtual body 1 as movable parent. The call entered at body 1 with
indent 1 prints the fixed body of body 2, where its loop over virtual bodies ends, and
not the line of "sensor"; the whole hierarchy does not hold that line either. -/
theorem print_hierarchy_fixed_counterexample :
    fixedLines fixedModel 1 2 = ["    sensor [fixed]\n"] ∧
    (print_hierarchy renderRat fixedModel fixedData 3 1 1).outcome =
      .ok "  arm [ RX, RY ]\n    hand [ TX ]\n    tool [fixed]\n" ∧
    (GetModelHierarchy renderRat fixedModel fixedData 4).outcome =
      .ok "ROOT\n  arm [ RX, RY ]\n    hand [ TX ]\n    tool [fixed]\n  plate [fixed]\n" :=
  ⟨by decide, congrArg Except.ok (by decide), congrArg Except.ok (by decide)⟩

/-- C18, amended. Let a call of `print_hierarchy` be entered at body `b` with indent `d`
and let its loop over virtual bodies end at body `w` (`w = b` when `b` is not virtual,
or is virtual without children). When the ids of the fixed bodies fit in `unsigned int`,
the result of the call is the text written up to the end of the calls for the children
of `w`, followed by the leaf lines of the fixed bodies attached to `w`: every entry of
the fixed-body table whose movable parent is `w`, once, in table order, as `d + 1` indent
units, the name found at id `fixed_body_discriminator + index` and " [fixed]". The
recursive calls are those for the children of `w`: no fixed body is recursed into. -/
theorem print_hierarchy_fixed_leaves (render : K → String) (model : Model K)
    (model_data : ModelDatad K) (fuel b : Nat) (d : Int) (name line text : String)
    (w : Nat) (children : List Nat)
    (hfit : model.fixed_body_discriminator + model.mFixedBodies.length ≤ 2 ^ 32)
    (hname : get_body_name model (fuel + 1) b = .ok name)
    (hwalk : print_hierarchy.walk render model model_data (fuel + 1) b
      (if b > 0 then indentUnits d ++ name ++ " [ " else indentUnits d ++ name) =
        .ok (line, w))
    (hclose : print_hierarchy.close render model_data w line = .ok text)
    (hmu : model.mu[w]? = some children) :
    (print_hierarchy render model model_data (fuel + 1) b d).outcome =
      (print_hierarchy.children
          (fun child => print_hierarchy render model model_data fuel child (d + 1))
          children text).outcome.map
        (fun result => result ++ concatLines (fixedLines model w (d + 1))) ∧
    (∀ body, model.mBodies[b]? = some body → body.mIsVirtual = false → w = b) ∧
    ((model.mBodies[b]?.map fun body => body.mIsVirtual) = some true →
      model.mu[b]? = some [] → w = b) := by
  refine ⟨?_, ?_, ?_⟩
  · rw [print_hierarchy_eq render model model_data fuel b d name line text w children
      hname hwalk hclose hmu]
    simp only [fixed_eq model w d _ hfit]
  · intro body hb hv
    rw [walk_real render model model_data fuel b _ body hb hv] at hwalk
    injection hwalk with h
    exact (congrArg Prod.snd h).symm
  · intro hv hmu0
    rw [walk_childless render model model_data fuel b _ hv hmu0] at hwalk
    injection hwalk with h
    exact (congrArg Prod.snd h).symm

/-- Witness of C18, amended: the call entered at the virtual body 1 of the tree with
fixed bodies, whose loop ends at body 2. -/
theorem print_hierarchy_fixed_leaves_witness :
    fixedModel.fixed_body_discriminator + fixedModel.mFixedBodies.length ≤ 2 ^ 32 ∧
    get_body_name fixedModel 3 1 = .ok "arm" ∧
    fixedLines fixedModel 2 2 = ["    tool [fixed]\n"] ∧
    (print_hierarchy renderRat fixedModel fixedData 3 1 1).outcome =
      (print_hierarchy.children
          (fun child => print_hierarchy renderRat fixedModel fixedData 2 child 2)
          [3] "  arm [ RX, RY ]\n").outcome.map
        (fun result => result ++ concatLines (fixedLines fixedModel 2 2)) := by
  have h := (print_hierarchy_fixed_leaves renderRat fixedModel fixedData 2 1 1 "arm"
    "  arm [ RX, " "  arm [ RX, RY ]\n" 2 [3] (by decide) rfl
    (congrArg Except.ok (by decide)) (congrArg Except.ok (by decide)) rfl).1
  exact ⟨by decide, rfl, by decide, h⟩

end Hierarchy
end Utils
end RigidBodyDynamics

namespace RigidBodyDynamics
namespace Utils

open Math Examples

section Traversal

variable {K : Type} [Zero K] [One K] [DecidableEq K]

/-- Under the tree invariant the children list of a body of the table exists and every id
in it is greater than the body and in the body table. -/
theorem children_of (model : Model K) (hT : TreeInvariant model)
    (hmu : model.mu.length = model.mBodies.length) (b : Nat)
    (hb : b < model.mBodies.length) :
    ∃ cs, model.mu[b]? = some cs ∧ ∀ c ∈ cs, b < c ∧ c < model.mBodies.length := by
  have hb2 : b < model.mu.length := by omega
  refine ⟨model.mu[b], List.getElem?_eq_getElem hb2, ?_⟩
  intro c hc
  exact hT b hb2 c (by simpa [List.getElem?_eq_getElem hb2] using hc)

/-- A body with at most one child is not a virtual body with more than one child. -/
theorem not_multi_of_length (model : Model K) (w : Nat) (cs : List Nat)
    (hmu : model.mu[w]? = some cs) (hlen : cs.length ≤ 1) : ¬ MultiChildVirtual model w := by
  intro h
  have h2 := h.2
  simp [hmu] at h2
  omega

/-- A body that is not virtual is not a virtual body with more than one child. -/
theorem not_multi_of_real (model : Model K) (w : Nat) (body : Body)
    (hb : model.mBodies[w]? = some body) (hv : body.mIsVirtual = false) :
    ¬ MultiChildVirtual model w := by
  intro h
  have h1 := h.1
  simp [hb, hv] at h1

/-- Under the tree invariant the name resolution returns for every body of the table,
with fuel above the number of bodies that follow it. -/
theorem get_body_name_total (model : Model K) (hT : TreeInvariant model)
    (hmu : model.mu.length = model.mBodies.length) :
    ∀ (fuel id : Nat), id < model.mBodies.length → model.mBodies.length < id + fuel →
      ∃ name, get_body_name model fuel id = .ok name := by
  intro fuel
  induction fuel with
  | zero => intro id h1 h2; omega
  | succ f ih =>
    intro id h1 h2
    have hb : model.mBodies[id]? = some model.mBodies[id] := List.getElem?_eq_getElem h1
    obtain ⟨cs, hcs, hin⟩ := children_of model hT hmu id h1
    cases hv : (model.mBodies[id]).mIsVirtual with
    | false => exact ⟨_, get_body_name_real model f id _ hb hv⟩
    | true =>
      by_cases hlen : cs.length = 1
      · obtain ⟨c, rfl⟩ := List.length_eq_one.mp hlen
        obtain ⟨hc1, hc2⟩ := hin c (by simp)
        obtain ⟨name, hname⟩ := ih c hc2 (by omega)
        exact ⟨name, by rw [get_body_name_child model f id c _ hb hv hcs]; exact hname⟩
      · exact ⟨_, get_body_name_ambiguous model f id _ cs hb hv hcs hlen⟩

/-- Under the tree invariant the traversal below a body does not depend on the fuel, once
the fuel is above the number of bodies that follow it. -/
theorem preorder_fuel (model : Model K) (hT : TreeInvariant model)
    (hmu : model.mu.length = model.mBodies.length) :
    ∀ (f g b : Nat), b < model.mBodies.length → model.mBodies.length < b + f →
      model.mBodies.length < b + g → preorder model f b = preorder model g b := by
  intro f
  induction f with
  | zero => intro g b h1 h2; omega
  | succ f ih =>
    intro g b h1 h2 h3
    obtain ⟨g, rfl⟩ : ∃ k, g = k + 1 := ⟨g - 1, by omega⟩
    obtain ⟨cs, hcs, hin⟩ := children_of model hT hmu b h1
    simp only [preorder, hcs, Option.getD_some, List.cons.injEq, true_and]
    have key : ∀ (l : List Nat), (∀ c ∈ l, b < c ∧ c < model.mBodies.length) →
        l.flatMap (preorder model f) = l.flatMap (preorder model g) := by
      intro l
      induction l with
      | nil => intro _; rfl
      | cons c rest ihl =>
        intro hl
        obtain ⟨hc1, hc2⟩ := hl c (by simp)
        simp only [List.flatMap_cons]
        rw [ih g c hc2 (by omega) (by omega),
          ihl (fun x hx => hl x (List.mem_cons_of_mem _ hx))]
    exact key cs hin

/-- The text sent to `cerr` is the header naming the body followed by one line for each
child of the list, in order. -/
theorem diagnostic_eq (model : Model K) (v : Nat) (cs : List Nat) :
    print_hierarchy.diagnostic model v cs =
      "\n" ++ "Error: Cannot determine multi-dof joint as massless body with id " ++
        toString v ++ " (name: " ++ model.GetBodyName v ++
        ") has more than one child:" ++ "\n" ++
        concatLines (cs.map fun c =>
          "  id: " ++ toString c ++ " name: " ++ model.GetBodyName c ++ "\n") := by
  have key : ∀ (l : List Nat) (acc : String),
      l.foldl
        (fun cerr child =>
          cerr ++ "  id: " ++ toString child ++ " name: " ++ model.GetBodyName child ++ "\n")
        acc =
      acc ++ concatLines (l.map fun c =>
          "  id: " ++ toString c ++ " name: " ++ model.GetBodyName c ++ "\n") := by
    intro l
    induction l with
    | nil => intro acc; simp [concatLines]
    | cons c rest ih =>
      intro acc
      simp only [List.foldl_cons, List.map_cons, concatLines]
      rw [ih]
      simp [String.append_assoc]
  exact key cs _

/-- Outcome of the loop over virtual bodies under the tree invariant: either it ends the
process at the first virtual body with more than one child below the entry body, or it
is left at a body that is not such a body, from which the traversal goes on. -/
theorem walk_outcome (render : K → String) (model : Model K) (model_data : ModelDatad K)
    (hT : TreeInvariant model) (hP : PrintSized model model_data) :
    ∀ (fuel b : Nat) (result : String), b < model.mBodies.length →
      model.mBodies.length < b + fuel →
      (∃ w, print_hierarchy.walk render model model_data fuel b result =
            .error (.abort (print_hierarchy.diagnostic model w (model.mu[w]?.getD []))) ∧
          (preorder model fuel b).find? (fun v => decide (MultiChildVirtual model v)) =
            some w) ∨
      (∃ line w, print_hierarchy.walk render model model_data fuel b result = .ok (line, w) ∧
          b ≤ w ∧ w < model.mBodies.length ∧ ¬ MultiChildVirtual model w ∧
          (preorder model fuel b).find? (fun v => decide (MultiChildVirtual model v)) =
            (preorder model fuel w).find? (fun v => decide (MultiChildVirtual model v))) := by
  intro fuel
  induction fuel with
  | zero => intro b _ h1 h2; omega
  | succ f ih =>
    intro b result h1 h2
    have hb : model.mBodies[b]? = some model.mBodies[b] := List.getElem?_eq_getElem h1
    have hSlen : b < model_data.S.length := by have := hP.2; omega
    have hS : model_data.S[b]? = some model_data.S[b] := List.getElem?_eq_getElem hSlen
    obtain ⟨cs, hcs, hin⟩ := children_of model hT hP.1 b h1
    cases hv : (model.mBodies[b]).mIsVirtual with
    | false =>
      exact Or.inr ⟨result, b, walk_real render model model_data f b result _ hb hv,
        Nat.le_refl b, h1, not_multi_of_real model b _ hb hv, rfl⟩
    | true =>
      have hvirt : (model.mBodies[b]?.map fun body => body.mIsVirtual) = some true := by
        simp [hb, hv]
      match cs, hcs, hin with
      | [], hcs, _ =>
        exact Or.inr ⟨result ++ " end", b,
          walk_childless render model model_data f b result hvirt hcs,
          Nat.le_refl b, h1, not_multi_of_length model b [] hcs (by simp), rfl⟩
      | [c], hcs, hin =>
        obtain ⟨hc1, hc2⟩ := hin c (by simp)
        have hnb : ¬ (decide (MultiChildVirtual model b) = true) := by
          simpa using not_multi_of_length model b [c] hcs (by simp)
        have hpre : (preorder model (f + 1) b).find?
              (fun v => decide (MultiChildVirtual model v)) =
            (preorder model f c).find? (fun v => decide (MultiChildVirtual model v)) := by
          simp only [preorder, hcs, Option.getD_some, List.flatMap_cons, List.flatMap_nil,
            List.append_nil]
          exact List.find?_cons_of_neg _ hnb
        rw [walk_step render model model_data f b c result _ hvirt hcs hS, hpre]
        rcases ih c (result ++ get_dof_name render model_data.S[b] ++ ", ") hc2 (by omega) with
          ⟨w, hw, hfind⟩ | ⟨line, w, hw, hle, hwN, hnm, hfind⟩
        · exact Or.inl ⟨w, hw, hfind⟩
        · refine Or.inr ⟨line, w, hw, by omega, hwN, hnm, ?_⟩
          rw [hfind, preorder_fuel model hT hP.1 f (f + 1) w hwN (by omega) (by omega)]
      | c :: d :: rest, hcs, _ =>
        have hbad : decide (MultiChildVirtual model b) = true := by
          simp [MultiChildVirtual, hb, hv, hcs]
        refine Or.inl ⟨b, ?_, ?_⟩
        · simp [print_hierarchy.walk, idx, hb, hv, hcs, bind, Except.bind]
        · simp only [preorder]
          exact List.find?_cons_of_pos _ hbad

/-- Outcome of the loop over the children, from the outcome of each call: the calls are
made in order up to the first one that ends the process. -/
theorem children_outcome (call : Nat → Run String) (tr : Nat → List Nat) (p : Nat → Bool)
    (E : Nat → Fault) :
    ∀ (cs : List Nat),
      (∀ c ∈ cs, ((tr c).find? p = none → ∃ text, (call c).outcome = .ok text) ∧
        (∀ w, (tr c).find? p = some w → (call c).outcome = .error (E w))) →
      ∀ (result : String),
        ((cs.flatMap tr).find? p = none →
          ∃ text, (print_hierarchy.children call cs result).outcome = .ok text) ∧
        (∀ w, (cs.flatMap tr).find? p = some w →
          (print_hierarchy.children call cs result).outcome = .error (E w)) := by
  intro cs
  induction cs with
  | nil => intro _ result; simp [print_hierarchy.children]
  | cons c rest ih =>
    intro h result
    obtain ⟨hc1, hc2⟩ := h c (by simp)
    have hrest := ih (fun x hx => h x (List.mem_cons_of_mem _ hx))
    cases hfc : (tr c).find? p with
    | none =>
      obtain ⟨text, htext⟩ := hc1 hfc
      have hfind : ((c :: rest).flatMap tr).find? p = (rest.flatMap tr).find? p := by
        simp [List.flatMap_cons, List.find?_append, hfc]
      have hout : (print_hierarchy.children call (c :: rest) result).outcome =
          (print_hierarchy.children call rest (result ++ text)).outcome := by
        simp only [print_hierarchy.children, htext]
      rw [hfind, hout]
      exact hrest (result ++ text)
    | some w =>
      have hw := hc2 w hfc
      have hfind : ((c :: rest).flatMap tr).find? p = some w := by
        simp [List.flatMap_cons, List.find?_append, hfc]
      have hout : (print_hierarchy.children call (c :: rest) result).outcome =
          .error (E w) := by
        simp only [print_hierarchy.children, hw]
      rw [hfind, hout]
      exact ⟨fun h0 => by simp at h0, fun w2 h2 => by injection h2 with h3; rw [h3]⟩

/-- The call of `print_hierarchy` ends with the fault of its loop over virtual bodies. -/
theorem print_hierarchy_walk_error (render : K → String) (model : Model K)
    (model_data : ModelDatad K) (fuel b : Nat) (indent : Int) (name : String) (e : Fault)
    (hname : get_body_name model (fuel + 1) b = .ok name)
    (hwalk : print_hierarchy.walk render model model_data (fuel + 1) b
      (if b > 0 then indentUnits indent ++ name ++ " [ " else indentUnits indent ++ name) =
        .error e) :
    (print_hierarchy render model model_data (fuel + 1) b indent).outcome = .error e := by
  simp only [print_hierarchy, hname, hwalk]

/-- The end of the line is written without fault at a body of the table. -/
theorem close_total (render : K → String) (model : Model K) (model_data : ModelDatad K)
    (hP : PrintSized model model_data) (w : Nat) (line : String)
    (hw : w < model.mBodies.length) :
    ∃ text, print_hierarchy.close render model_data w line = .ok text := by
  have hSlen : w < model_data.S.length := by have := hP.2; omega
  have hS : model_data.S[w]? = some model_data.S[w] := List.getElem?_eq_getElem hSlen
  by_cases hpos : w > 0
  · exact ⟨_, by simp [print_hierarchy.close, hpos, idx, hS, bind, Except.bind, pure,
      Except.pure]; rfl⟩
  · exact ⟨_, by simp [print_hierarchy.close, hpos, pure, Except.pure]; rfl⟩

/-- Outcome of `print_hierarchy` under the tree invariant, for a body of the table and
fuel above the number of bodies that follow it: the call returns when no virtual body
below the entry body has more than one child, and otherwise ends the process with the
diagnostic of the first such body of the traversal. -/
theorem print_hierarchy_outcome (render : K → String) (model : Model K)
    (model_data : ModelDatad K) (hT : TreeInvariant model)
    (hP : PrintSized model model_data) :
    ∀ (fuel b : Nat) (indent : Int), b < model.mBodies.length →
      model.mBodies.length < b + fuel →
      ((preorder model fuel b).find? (fun v => decide (MultiChildVirtual model v)) = none →
        ∃ text, (print_hierarchy render model model_data fuel b indent).outcome = .ok text) ∧
      (∀ w, (preorder model fuel b).find? (fun v => decide (MultiChildVirtual model v)) =
          some w →
        (print_hierarchy render model model_data fuel b indent).outcome =
          .error (.abort (print_hierarchy.diagnostic model w (model.mu[w]?.getD [])))) := by
  intro fuel
  induction fuel with
  | zero => intro b _ h1 h2; omega
  | succ f ih =>
    intro b indent h1 h2
    obtain ⟨name, hname⟩ := get_body_name_total model hT hP.1 (f + 1) b h1 h2
    rcases walk_outcome render model model_data hT hP (f + 1) b
        (if b > 0 then indentUnits indent ++ name ++ " [ " else indentUnits indent ++ name)
        h1 h2 with ⟨w, hw, hfind⟩ | ⟨line, w, hw, hle, hwN, hnm, hfind⟩
    · rw [hfind, print_hierarchy_walk_error render model model_data f b indent name _ hname hw]
      exact ⟨fun h0 => by simp at h0, fun w2 h2 => by injection h2 with h3; rw [h3]⟩
    · obtain ⟨text, hclose⟩ := close_total render model model_data hP w line hwN
      obtain ⟨cs, hcs, hin⟩ := children_of model hT hP.1 w hwN
      have hnb : ¬ (decide (MultiChildVirtual model w) = true) := by simpa using hnm
      have hpre : (preorder model (f + 1) w).find?
            (fun v => decide (MultiChildVirtual model v)) =
          (cs.flatMap (preorder model f)).find?
            (fun v => decide (MultiChildVirtual model v)) := by
        simp only [preorder, hcs, Option.getD_some]
        exact List.find?_cons_of_neg _ hnb
      have hkids := children_outcome
        (fun child => print_hierarchy render model model_data f child (indent + 1))
        (preorder model f) (fun v => decide (MultiChildVirtual model v))
        (fun w => .abort (print_hierarchy.diagnostic model w (model.mu[w]?.getD [])))
        cs (fun c hc => ih c (indent + 1) (hin c hc).2 (by have := (hin c hc).1; omega)) text
      rw [hfind, hpre, print_hierarchy_eq render model model_data f b indent name line text w cs
        hname hw hclose hcs]
      refine ⟨fun h0 => ?_, fun w2 h2 => ?_⟩
      · obtain ⟨t, ht⟩ := hkids.1 h0
        exact ⟨print_hierarchy.fixed model w indent t, by simp only [ht]; rfl⟩
      · simp only [hkids.2 w2 h2]; rfl

/-- Every body of the traversal below `b` is reachable from `b` through the children
lists. -/
theorem reachable_of_mem_preorder (model : Model K) (v : Nat) :
    ∀ (f b : Nat), v ∈ preorder model f b →
      Relation.ReflTransGen (fun p c => c ∈ model.mu[p]?.getD []) b v := by
  intro f
  induction f with
  | zero => intro b h; simp [preorder] at h
  | succ f ih =>
    intro b h
    simp only [preorder, List.mem_cons, List.mem_flatMap] at h
    rcases h with rfl | ⟨c, hc, hvc⟩
    · exact Relation.ReflTransGen.refl
    · exact Relation.ReflTransGen.head hc (ih c hvc)

/-- Under the tree invariant every body reachable from a body `b` of the table is in the
traversal below `b`, with fuel above the number of bodies that follow `b`. -/
theorem mem_preorder_of_reachable (model : Model K) (hT : TreeInvariant model)
    (hmu : model.mu.length = model.mBodies.length) (b v : Nat)
    (h : Relation.ReflTransGen (fun p c => c ∈ model.mu[p]?.getD []) b v) :
    b < model.mBodies.length → ∀ f, model.mBodies.length < b + f →
      v ∈ preorder model f b := by
  induction h using Relation.ReflTransGen.head_induction_on with
  | refl =>
    intro h1 f h2
    obtain ⟨f, rfl⟩ : ∃ k, f = k + 1 := ⟨f - 1, by omega⟩
    simp [preorder]
  | @head a c hac _ ih =>
    intro h1 f h2
    obtain ⟨f, rfl⟩ : ∃ k, f = k + 1 := ⟨f - 1, by omega⟩
    obtain ⟨hc1, hc2⟩ := hT a (by omega) c hac
    simp only [preorder, List.mem_cons, List.mem_flatMap]
    exact Or.inr ⟨c, hac, ih hc2 f (by omega)⟩

/-- C12. For a model that satisfies the tree invariant, whose children table and axis
table have one entry per body, with the root in the body table and fuel above the number
of bodies: `GetModelHierarchy` ends the process on the structural-error path if and only
if some virtual body reachable from the root through the children lists has more than
one child. The traversal `preorder` from the root lists exactly the reachable bodies, and
when the process is ended, the text on `cerr` is a single diagnostic, that of the first
virtual body with more than one child in the traversal: the header with the id and name
of that body, then one line for each entry of its children list `mu[v]`, in order, and
nothing else. -/
theorem GetModelHierarchy_abort (render : K → String) (model : Model K)
    (model_data : ModelDatad K) (fuel : Nat) (hT : TreeInvariant model)
    (hP : PrintSized model model_data) (hroot : 0 < model.mBodies.length)
    (hfuel : model.mBodies.length < fuel) :
    ((∃ cerr, (GetModelHierarchy render model model_data fuel).outcome =
        .error (.abort cerr)) ↔
      ∃ v, Reachable model v ∧ MultiChildVirtual model v) ∧
    (∀ u, u ∈ preorder model fuel 0 ↔ Reachable model u) ∧
    (∀ cerr, (GetModelHierarchy render model model_data fuel).outcome =
        .error (.abort cerr) →
      ∃ v children,
        (preorder model fuel 0).find? (fun u => decide (MultiChildVirtual model u)) =
          some v ∧
        model.mu[v]? = some children ∧
        cerr = "\n" ++ "Error: Cannot determine multi-dof joint as massless body with id " ++
          toString v ++ " (name: " ++ model.GetBodyName v ++
          ") has more than one child:" ++ "\n" ++
          concatLines (children.map fun c =>
            "  id: " ++ toString c ++ " name: " ++ model.GetBodyName c ++ "\n")) := by
  have hO := print_hierarchy_outcome render model model_data hT hP fuel 0 0 hroot (by omega)
  have hmem : ∀ u, u ∈ preorder model fuel 0 ↔ Reachable model u := fun u =>
    ⟨reachable_of_mem_preorder model u fuel 0,
      fun hr => mem_preorder_of_reachable model hT hP.1 0 u hr hroot fuel (by omega)⟩
  unfold GetModelHierarchy
  refine ⟨⟨?_, ?_⟩, hmem, ?_⟩
  · rintro ⟨cerr, hc⟩
    cases hf : (preorder model fuel 0).find? (fun u => decide (MultiChildVirtual model u)) with
    | none =>
      obtain ⟨t, ht⟩ := hO.1 hf
      rw [ht] at hc
      cases hc
    | some w =>
      have hbad := List.find?_some hf
      exact ⟨w, (hmem w).mp (List.mem_of_find?_eq_some hf), of_decide_eq_true hbad⟩
  · rintro ⟨v, hr, hm⟩
    cases hf : (preorder model fuel 0).find? (fun u => decide (MultiChildVirtual model u)) with
    | none =>
      exact absurd (decide_eq_true hm) (List.find?_eq_none.mp hf v ((hmem v).mpr hr))
    | some w => exact ⟨_, hO.2 w hf⟩
  · intro cerr hc
    cases hf : (preorder model fuel 0).find? (fun u => decide (MultiChildVirtual model u)) with
    | none =>
      obtain ⟨t, ht⟩ := hO.1 hf
      rw [ht] at hc
      cases hc
    | some w =>
      have hbad := List.find?_some hf
      have hm : MultiChildVirtual model w := of_decide_eq_true hbad
      obtain ⟨cs, hcs⟩ : ∃ cs, model.mu[w]? = some cs := by
        cases hmu : model.mu[w]? with
        | none => have h2 := hm.2; simp [hmu] at h2
        | some cs => exact ⟨cs, rfl⟩
      have hw := hO.2 w hf
      rw [hc, hcs, Option.getD_some, diagnostic_eq] at hw
      injection hw with hw
      injection hw with hw
      exact ⟨w, cs, rfl, hcs, hw⟩

/-- Witness of C12: in the tree of the examples body 4 is virtual and has the children 5
("left") and 6 ("right"); the hierarchy print ends the process with the diagnostic of
body 4, which lists these two children. -/
theorem GetModelHierarchy_abort_witness :
    TreeInvariant virtualModel ∧ PrintSized virtualModel virtualData ∧
    (GetModelHierarchy renderRat virtualModel virtualData 9).outcome =
      .error (.abort ("\nError: Cannot determine multi-dof joint as massless body with id 4" ++
        " (name: ) has more than one child:\n  id: 5 name: left\n  id: 6 name: right\n")) ∧
    ∃ v, Reachable virtualModel v ∧ MultiChildVirtual virtualModel v := by
  have hrun : (GetModelHierarchy renderRat virtualModel virtualData 9).outcome =
      .error (.abort ("\nError: Cannot determine multi-dof joint as massless body with id 4" ++
        " (name: ) has more than one child:\n  id: 5 name: left\n  id: 6 name: right\n")) :=
    congrArg Except.error (congrArg Fault.abort (by decide))
  have h := GetModelHierarchy_abort renderRat virtualModel virtualData 9 (by decide)
    (by decide) (by decide) (by decide)
  exact ⟨by decide, by decide, hrun, h.1.mp ⟨_, hrun⟩⟩

/-- C19. Under the tree invariant (every id listed in `mu[b]` is greater than `b` and
smaller than the number of bodies), with one entry per body in the children table and in
the axis table, `get_body_name` and `print_hierarchy` return for every body id of the
table: recursion depth and loop passes are bounded by the number of bodies that follow
the id, since each step moves to a greater id. No index into `mBodies`, `mu` or `S` is
out of range: the name resolution returns a name, and the print either returns its text
or ends the process on the structural-error path. -/
theorem print_hierarchy_terminates (render : K → String) (model : Model K)
    (model_data : ModelDatad K) (hT : TreeInvariant model)
    (hP : PrintSized model model_data) (id fuel : Nat) (indent : Int)
    (hid : id < model.mBodies.length) (hfuel : model.mBodies.length < id + fuel) :
    (∃ name, get_body_name model fuel id = .ok name) ∧
    ((∃ text, (print_hierarchy render model model_data fuel id indent).outcome = .ok text) ∨
      (∃ cerr, (print_hierarchy render model model_data fuel id indent).outcome =
        .error (.abort cerr))) := by
  refine ⟨get_body_name_total model hT hP.1 fuel id hid hfuel, ?_⟩
  have hO := print_hierarchy_outcome render model model_data hT hP fuel id indent hid hfuel
  cases hf : (preorder model fuel id).find? (fun u => decide (MultiChildVirtual model u)) with
  | none => exact Or.inl (hO.1 hf)
  | some w => exact Or.inr ⟨_, hO.2 w hf⟩

/-- Witness of C19: the virtual body 1 of the tree with fixed bodies, with fuel 4 for the
three bodies that follow it. -/
theorem print_hierarchy_terminates_witness :
    TreeInvariant fixedModel ∧ PrintSized fixedModel fixedData ∧
    (∃ name, get_body_name fixedModel 4 1 = .ok name) ∧
    ((∃ text, (print_hierarchy renderRat fixedModel fixedData 4 1 1).outcome = .ok text) ∨
      (∃ cerr, (print_hierarchy renderRat fixedModel fixedData 4 1 1).outcome =
        .error (.abort cerr))) :=
  ⟨by decide, by decide,
    print_hierarchy_terminates renderRat fixedModel fixedData (by decide) (by decide) 1 4 1
      (by decide) (by decide)⟩

end Traversal
end Utils
end RigidBodyDynamics
